import Mathlib

/-!
# SH1106 OLED driver (stm32-logic-analyzer): shallow embedding and verified properties

Sources embedded here:

* `Core/Inc/sh1106.h`      -- geometry, control bytes, command codes, `SH1106_t`
* `Core/Inc/sh1106_font.h` -- font geometry (`font5x7` itself is only declared there)
* `Core/Src/sh1106.c`      -- the driver functions
* `Core/Lib/Oled.cpp`      -- the C++ facade `display::Oled`
* `Core/Lib/Tasks.cpp`     -- signal length, scroll range and the scroll / zoom handling
* `BACKUP/v0.4-date-time/Core/Lib/Encoder.h`, `BACKUP/Version_0.1/Core/Lib/Encoder.cpp`
                           -- the rotary encoder

Conventions.

* `uint8_t` / `uint16_t` values are `Nat`; a truncation `% 256` is written where the C code
  stores an `int` expression into an 8-bit object.
* The I2C peripheral is outside the program.  A handle is an oracle that answers every HAL
  call with a status, given the calls made so far; the calls made are appended to a log.
* `printf` and `HAL_Delay` touch neither the device structure nor the bus and are left out.
-/

/-! ## Definitions -/

/-- Status codes of the STM32 HAL (`HAL_StatusTypeDef`). -/
inductive HAL_StatusTypeDef where
  | HAL_OK
  | HAL_ERROR
  | HAL_BUSY
  | HAL_TIMEOUT
  deriving DecidableEq, Repr, Inhabited

open HAL_StatusTypeDef

/-- One call into the HAL I2C layer, as seen on the bus: the presence probe
`HAL_I2C_IsDeviceReady(hi2c, DevAddress, Trials, ..)` or a write transaction
`HAL_I2C_Master_Transmit(hi2c, DevAddress, pData, Size, ..)` whose payload is the `Size`
bytes of `pData`. -/
inductive I2C_Call where
  | IsDeviceReady (DevAddress : Nat) (Trials : Nat)
  | Master_Transmit (DevAddress : Nat) (pData : List Nat)
  deriving DecidableEq, Repr, Inhabited

/-- The bus log: every HAL I2C call made so far, oldest first. -/
abbrev I2C_Log := List I2C_Call

/-- An I2C handle: the status the peripheral returns for a call, given the calls before it. -/
abbrev I2C_HandleTypeDef := I2C_Log → I2C_Call → HAL_StatusTypeDef

/-- Presence probe of the HAL: the call is logged and answered by the peripheral. -/
def HAL_I2C_IsDeviceReady (hi2c : I2C_HandleTypeDef) (DevAddress Trials : Nat)
    (log : I2C_Log) : HAL_StatusTypeDef × I2C_Log :=
  (hi2c log (.IsDeviceReady DevAddress Trials), log ++ [.IsDeviceReady DevAddress Trials])

/-- Write transaction of the HAL: the call is logged and answered by the peripheral. -/
def HAL_I2C_Master_Transmit (hi2c : I2C_HandleTypeDef) (DevAddress : Nat) (pData : List Nat)
    (log : I2C_Log) : HAL_StatusTypeDef × I2C_Log :=
  (hi2c log (.Master_Transmit DevAddress pData), log ++ [.Master_Transmit DevAddress pData])

/-! ### `sh1106.h` -/

abbrev SH1106_I2C_ADDR : Nat := 0x3C <<< 1
abbrev SH1106_WIDTH : Nat := 128
abbrev SH1106_HEIGHT : Nat := 64
abbrev SH1106_PAGES : Nat := SH1106_HEIGHT / 8
abbrev SH1106_COLUMN_OFFSET : Nat := 2

abbrev SH1106_CONTROL_BYTE_CMD_SINGLE : Nat := 0x80
abbrev SH1106_CONTROL_BYTE_CMD_STREAM : Nat := 0x00
abbrev SH1106_CONTROL_BYTE_DATA_STREAM : Nat := 0x40

abbrev SH1106_CMD_SET_CONTRAST : Nat := 0x81
abbrev SH1106_CMD_DISPLAY_ALL_ON_RESUME : Nat := 0xA4
abbrev SH1106_CMD_DISPLAY_ALL_ON : Nat := 0xA5
abbrev SH1106_CMD_NORMAL_DISPLAY : Nat := 0xA6
abbrev SH1106_CMD_INVERSE_DISPLAY : Nat := 0xA7
abbrev SH1106_CMD_DISPLAY_OFF : Nat := 0xAE
abbrev SH1106_CMD_DISPLAY_ON : Nat := 0xAF
abbrev SH1106_CMD_SET_PAGE_ADDR : Nat := 0xB0
abbrev SH1106_CMD_SET_COLUMN_ADDR_LOW : Nat := 0x00
abbrev SH1106_CMD_SET_COLUMN_ADDR_HIGH : Nat := 0x10
abbrev SH1106_CMD_SET_START_LINE : Nat := 0x40
abbrev SH1106_CMD_SET_SEGMENT_REMAP_0 : Nat := 0xA0
abbrev SH1106_CMD_SET_SEGMENT_REMAP_127 : Nat := 0xA1
abbrev SH1106_CMD_SET_MULTIPLEX_RATIO : Nat := 0xA8
abbrev SH1106_CMD_SET_COM_SCAN_NORMAL : Nat := 0xC0
abbrev SH1106_CMD_SET_COM_SCAN_REMAP : Nat := 0xC8
abbrev SH1106_CMD_SET_DISPLAY_OFFSET : Nat := 0xD3
abbrev SH1106_CMD_SET_COM_PINS : Nat := 0xDA
abbrev SH1106_CMD_SET_DC_DC : Nat := 0xAD
abbrev SH1106_CMD_SET_DISPLAY_CLOCK_DIV : Nat := 0xD5
abbrev SH1106_CMD_SET_PRECHARGE_PERIOD : Nat := 0xD9
abbrev SH1106_CMD_SET_VCOM_DESELECT : Nat := 0xDB
abbrev SH1106_CMD_SET_PUMP_VOLTAGE : Nat := 0x30

/-- The device structure `SH1106_t`.  The `hi2c` pointer field is not stored: the one I2C
handle of the program is passed to the driver functions explicitly. -/
structure SH1106_t where
  address : Nat
  framebuffer : List Nat
  prev_framebuffer : List Nat
  initialized : Bool
  deriving DecidableEq, Repr

/-- Type invariant of `uint8_t framebuffer[SH1106_WIDTH * SH1106_PAGES]`: 1024 entries, each
an 8-bit value. -/
def SH1106_t.WF (dev : SH1106_t) : Prop :=
  dev.framebuffer.length = SH1106_WIDTH * SH1106_PAGES ∧ ∀ b ∈ dev.framebuffer, b < 256

/-- Bit `j` of framebuffer byte `i` (false beyond the end of the buffer). -/
def SH1106_t.bitAt (dev : SH1106_t) (i j : Nat) : Bool :=
  (dev.framebuffer.getD i 0).testBit j

/-- Read-out of pixel `(x, y)` under the page layout of the driver: bit `y % 8` of byte
`(y / 8) * SH1106_WIDTH + x`.  The driver has no read function; this one is used to state
what the drawing functions do. -/
def SH1106_t.pixel (dev : SH1106_t) (x y : Nat) : Bool :=
  dev.bitAt ((y / 8) * SH1106_WIDTH + x) (y % 8)

/-! ### `sh1106.c`: private functions -/

/-- `SH1106_WriteCommand` (sh1106.c:29-33). -/
def SH1106_WriteCommand (hi2c : I2C_HandleTypeDef) (dev : SH1106_t) (cmd : Nat)
    (log : I2C_Log) : HAL_StatusTypeDef × I2C_Log :=
  let data := [SH1106_CONTROL_BYTE_CMD_SINGLE, cmd]
  HAL_I2C_Master_Transmit hi2c dev.address data log

/-- The loop of `SH1106_WriteCommands` over the command bytes still to send. -/
def SH1106_WriteCommands_loop (hi2c : I2C_HandleTypeDef) (dev : SH1106_t) :
    List Nat → I2C_Log → HAL_StatusTypeDef × I2C_Log
  | [], log => (HAL_OK, log)
  | cmd :: rest, log =>
    let r := SH1106_WriteCommand hi2c dev cmd log
    if r.1 ≠ HAL_OK then r
    else SH1106_WriteCommands_loop hi2c dev rest r.2

/-- `SH1106_WriteCommands` (sh1106.c:42-52): sends `cmds[0 .. len-1]` one by one and returns
at the first failing one. -/
def SH1106_WriteCommands (hi2c : I2C_HandleTypeDef) (dev : SH1106_t) (cmds : List Nat)
    (len : Nat) (log : I2C_Log) : HAL_StatusTypeDef × I2C_Log :=
  SH1106_WriteCommands_loop hi2c dev (cmds.take len) log

/-- The `while (offset < len)` loop of `SH1106_WriteData` (sh1106.c:78-89).  `data + offset`
is `data.drop offset`; `offset + chunk_size` never exceeds `len`, so the 16-bit counter does
not wrap. -/
def SH1106_WriteData_loop (hi2c : I2C_HandleTypeDef) (dev : SH1106_t) (data : List Nat)
    (len : Nat) (offset : Nat) (log : I2C_Log) : HAL_StatusTypeDef × I2C_Log :=
  if offset < len then
    let chunk_size := if len - offset > 128 then 128 else len - offset
    let buffer := SH1106_CONTROL_BYTE_DATA_STREAM :: (data.drop offset).take chunk_size
    let r := HAL_I2C_Master_Transmit hi2c dev.address buffer log
    if r.1 ≠ HAL_OK then r
    else SH1106_WriteData_loop hi2c dev data len (offset + chunk_size) r.2
  else
    (HAL_OK, log)
termination_by len - offset
decreasing_by
  simp_wf
  split <;> omega

/-- `SH1106_WriteData` (sh1106.c:61-93): one transaction `0x40 :: data[0 .. len-1]` when
`len <= 128`, otherwise chunks of at most 128 bytes, each with its own `0x40`. -/
def SH1106_WriteData (hi2c : I2C_HandleTypeDef) (dev : SH1106_t) (data : List Nat)
    (len : Nat) (log : I2C_Log) : HAL_StatusTypeDef × I2C_Log :=
  if len ≤ 128 then
    let buffer := SH1106_CONTROL_BYTE_DATA_STREAM :: data.take len
    HAL_I2C_Master_Transmit hi2c dev.address buffer log
  else
    SH1106_WriteData_loop hi2c dev data len 0 log

/-- `SH1106_CheckDevice` (sh1106.c:100-105). -/
def SH1106_CheckDevice (hi2c : I2C_HandleTypeDef) (log : I2C_Log) : Bool × I2C_Log :=
  let r := HAL_I2C_IsDeviceReady hi2c SH1106_I2C_ADDR 3 log
  (r.1 == HAL_OK, r.2)

/-! ### `sh1106.c`: public functions -/

/-- One iteration of the page loop of `SH1106_UpdateScreen` (sh1106.c:263-290). -/
def SH1106_UpdateScreen_page (hi2c : I2C_HandleTypeDef) (dev : SH1106_t) (page : Nat)
    (log : I2C_Log) : HAL_StatusTypeDef × I2C_Log :=
  let r := SH1106_WriteCommand hi2c dev (SH1106_CMD_SET_PAGE_ADDR ||| page) log
  if r.1 ≠ HAL_OK then r
  else
    let r := SH1106_WriteCommand hi2c dev
      (SH1106_CMD_SET_COLUMN_ADDR_LOW ||| (SH1106_COLUMN_OFFSET &&& 0x0F)) r.2
    if r.1 ≠ HAL_OK then r
    else
      let r := SH1106_WriteCommand hi2c dev
        (SH1106_CMD_SET_COLUMN_ADDR_HIGH ||| ((SH1106_COLUMN_OFFSET >>> 4) &&& 0x0F)) r.2
      if r.1 ≠ HAL_OK then r
      else
        SH1106_WriteData hi2c dev (dev.framebuffer.drop (page * SH1106_WIDTH)) SH1106_WIDTH r.2

/-- The `for (page = 0; page < SH1106_PAGES; page++)` loop of `SH1106_UpdateScreen`, over
the pages still to send; it returns at the first failing transaction. -/
def SH1106_UpdateScreen_loop (hi2c : I2C_HandleTypeDef) (dev : SH1106_t) :
    List Nat → I2C_Log → HAL_StatusTypeDef × I2C_Log
  | [], log => (HAL_OK, log)
  | page :: rest, log =>
    let r := SH1106_UpdateScreen_page hi2c dev page log
    if r.1 ≠ HAL_OK then r
    else SH1106_UpdateScreen_loop hi2c dev rest r.2

/-- `SH1106_UpdateScreen` (sh1106.c:257-294).  No statement of it writes to `*dev`; the
device structure is returned as it came. -/
def SH1106_UpdateScreen (hi2c : I2C_HandleTypeDef) (dev : SH1106_t) (log : I2C_Log) :
    HAL_StatusTypeDef × SH1106_t × I2C_Log :=
  let r := SH1106_UpdateScreen_loop hi2c dev (List.range SH1106_PAGES) log
  (r.1, dev, r.2)

/-- `SH1106_Clear` (sh1106.c:239-246). -/
def SH1106_Clear (hi2c : I2C_HandleTypeDef) (dev : SH1106_t) (log : I2C_Log) :
    HAL_StatusTypeDef × SH1106_t × I2C_Log :=
  let dev := { dev with framebuffer := List.replicate (SH1106_WIDTH * SH1106_PAGES) 0 }
  SH1106_UpdateScreen hi2c dev log

/-- `SH1106_Fill` (sh1106.c:248-255). -/
def SH1106_Fill (hi2c : I2C_HandleTypeDef) (dev : SH1106_t) (log : I2C_Log) :
    HAL_StatusTypeDef × SH1106_t × I2C_Log :=
  let dev := { dev with framebuffer := List.replicate (SH1106_WIDTH * SH1106_PAGES) 0xFF }
  SH1106_UpdateScreen hi2c dev log

/-- `SH1106_SetPixel` (sh1106.c:296-311) with its array access made explicit: the result is
`none` exactly when the function would index `framebuffer` outside the array.  `1 << bit` is
an `int`; `~(1 << bit)` is its 32-bit complement; the result of `|=` / `&=` is stored back
into a `uint8_t`. -/
def SH1106_SetPixel_checked (dev : SH1106_t) (x y color : Nat) : Option SH1106_t :=
  if x ≥ SH1106_WIDTH ∨ y ≥ SH1106_HEIGHT then
    some dev
  else
    let page := y / 8
    let bit := y % 8
    let index := page * SH1106_WIDTH + x
    if index < dev.framebuffer.length then
      let byte := dev.framebuffer.getD index 0
      if color ≠ 0 then
        some { dev with framebuffer := dev.framebuffer.set index ((byte ||| (1 <<< bit)) % 256) }
      else
        some { dev with framebuffer :=
          dev.framebuffer.set index ((byte &&& (0xFFFFFFFF ^^^ (1 <<< bit))) % 256) }
    else
      none

/-- `SH1106_SetPixel` as a state transformer.  A faulting access would leave the state as it
was; `SH1106_SetPixel_checked_eq_some` shows that no access faults on a 1024-byte
framebuffer. -/
def SH1106_SetPixel (dev : SH1106_t) (x y color : Nat) : SH1106_t :=
  (SH1106_SetPixel_checked dev x y color).getD dev

/-- `SH1106_Init` (sh1106.c:109-227).  Every `status = ...; if (status != HAL_OK) return
status;` step is kept in its place. -/
def SH1106_Init (hi2c : I2C_HandleTypeDef) (dev : SH1106_t) (log : I2C_Log) :
    HAL_StatusTypeDef × SH1106_t × I2C_Log :=
  -- Initialize device structure
  let dev := { dev with
    address := SH1106_I2C_ADDR
    initialized := false
    framebuffer := List.replicate (SH1106_WIDTH * SH1106_PAGES) 0 }
  -- Check if device is present
  let p := SH1106_CheckDevice hi2c log
  if !p.1 then (HAL_ERROR, dev, p.2)
  else
  -- 1. Display OFF
  let r := SH1106_WriteCommand hi2c dev SH1106_CMD_DISPLAY_OFF p.2
  if r.1 ≠ HAL_OK then (r.1, dev, r.2) else
  -- 2. Set Entire Display OFF (resume to RAM content)
  let r := SH1106_WriteCommand hi2c dev SH1106_CMD_DISPLAY_ALL_ON_RESUME r.2
  if r.1 ≠ HAL_OK then (r.1, dev, r.2) else
  -- 3. Set Display Clock Divide Ratio/Oscillator Frequency
  let clock_cmds := [SH1106_CMD_SET_DISPLAY_CLOCK_DIV, 0x50]
  let r := SH1106_WriteCommands hi2c dev clock_cmds 2 r.2
  if r.1 ≠ HAL_OK then (r.1, dev, r.2) else
  -- 4. Set Multiplex Ratio (64 lines)
  let multiplex_cmds := [ SH1106_CMD_SET_MULTIPLEX_RATIO, 0x3F]
  let r := SH1106_WriteCommands hi2c dev multiplex_cmds 2 r.2
  if r.1 ≠ HAL_OK then (r.1, dev, r.2) else
  -- 5. Set Display Offset (0)
  let offset_cmds := [SH1106_CMD_SET_DISPLAY_OFFSET, 0x00]
  let r := SH1106_WriteCommands hi2c dev offset_cmds 2 r.2
  if r.1 ≠ HAL_OK then (r.1, dev, r.2) else
  -- 6. Set Display Start Line (0)
  let r := SH1106_WriteCommand hi2c dev (SH1106_CMD_SET_START_LINE ||| 0x00) r.2
  if r.1 ≠ HAL_OK then (r.1, dev, r.2) else
  -- 7. Set DC-DC Mode (Built-in DC-DC ON)
  let dcdc_cmds := [SH1106_CMD_SET_DC_DC, 0x8B]
  let r := SH1106_WriteCommands hi2c dev dcdc_cmds 2 r.2
  if r.1 ≠ HAL_OK then (r.1, dev, r.2) else
  -- 8. Set Pre-charge/Discharge Period
  let precharge_cmds := [SH1106_CMD_SET_PRECHARGE_PERIOD, 0x22]
  let r := SH1106_WriteCommands hi2c dev precharge_cmds 2 r.2
  if r.1 ≠ HAL_OK then (r.1, dev, r.2) else
  -- 9. Set VCOM Deselect Level
  let vcom_cmds := [SH1106_CMD_SET_VCOM_DESELECT, 0x35]
  let r := SH1106_WriteCommands hi2c dev vcom_cmds 2 r.2
  if r.1 ≠ HAL_OK then (r.1, dev, r.2) else
  -- 10. Set Pump Voltage
  let r := SH1106_WriteCommand hi2c dev (SH1106_CMD_SET_PUMP_VOLTAGE ||| 0x02) r.2
  if r.1 ≠ HAL_OK then (r.1, dev, r.2) else
  -- 11. Set Contrast (maximum)
  let contrast_cmds := [SH1106_CMD_SET_CONTRAST, 0xFF]
  let r := SH1106_WriteCommands hi2c dev contrast_cmds 2 r.2
  if r.1 ≠ HAL_OK then (r.1, dev, r.2) else
  -- 12. Set Normal Display Mode (not inverted)
  let r := SH1106_WriteCommand hi2c dev SH1106_CMD_NORMAL_DISPLAY r.2
  if r.1 ≠ HAL_OK then (r.1, dev, r.2) else
  -- 13. Set COM Pin Hardware Configuration
  let com_cmds := [SH1106_CMD_SET_COM_PINS, 0x12]
  let r := SH1106_WriteCommands hi2c dev com_cmds 2 r.2
  if r.1 ≠ HAL_OK then (r.1, dev, r.2) else
  -- Segment remap (column 127 mapped to SEG0)
  let r := SH1106_WriteCommand hi2c dev SH1106_CMD_SET_SEGMENT_REMAP_127 r.2
  if r.1 ≠ HAL_OK then (r.1, dev, r.2) else
  -- COM output scan direction (remapped)
  let r := SH1106_WriteCommand hi2c dev SH1106_CMD_SET_COM_SCAN_REMAP r.2
  if r.1 ≠ HAL_OK then (r.1, dev, r.2) else
  -- Clear display
  let c := SH1106_Clear hi2c dev r.2
  if c.1 ≠ HAL_OK then c else
  -- Display ON
  let r := SH1106_WriteCommand hi2c c.2.1 SH1106_CMD_DISPLAY_ON c.2.2
  if r.1 ≠ HAL_OK then (r.1, c.2.1, r.2) else
  (HAL_OK, { c.2.1 with initialized := true }, r.2)

/-! ### `sh1106_font.h` and the glyph rasterizer -/

abbrev FONT_WIDTH : Nat := 5
abbrev FONT_HEIGHT : Nat := 7
abbrev FONT_FIRST_CHAR : Int := 0x20
abbrev FONT_LAST_CHAR : Int := 0x7E

/-- The table `font5x7[][5]`: only its declaration is in `sh1106_font.h`, so the table is a
parameter; `font char_index col` stands for `font5x7[char_index][col]`. -/
abbrev FontTable := Nat → Nat → Nat

/-- C logical negation `!color` of an 8-bit value. -/
def lnot (color : Nat) : Nat := if color = 0 then 1 else 0

/-- The glyph index `SH1106_DrawChar` uses for `ch`: characters outside
`FONT_FIRST_CHAR .. FONT_LAST_CHAR` are replaced by `?` (63), then
`char_index = ch - FONT_FIRST_CHAR` is stored in a `uint8_t`.  `ch` is an `Int` so that both
a signed and an unsigned `char` are covered. -/
def SH1106_DrawChar_index (ch : Int) : Nat :=
  let ch := if ch < FONT_FIRST_CHAR ∨ ch > FONT_LAST_CHAR then 63 else ch
  ((ch - FONT_FIRST_CHAR) % 256).toNat

/-- The inner loop of `SH1106_DrawChar` (sh1106.c:334-342): the rows of one glyph column.
The coordinates `x + col`, `y + row` are passed as `uint8_t`. -/
def SH1106_DrawChar_column (dev : SH1106_t) (x y col column_data color : Nat) : SH1106_t :=
  (List.range FONT_HEIGHT).foldl (fun dev row =>
    if column_data &&& (1 <<< row) ≠ 0 then
      SH1106_SetPixel dev ((x + col) % 256) ((y + row) % 256) color
    else
      SH1106_SetPixel dev ((x + col) % 256) ((y + row) % 256) (lnot color)) dev

/-- The spacing loop of `SH1106_DrawChar` (sh1106.c:346-348). -/
def SH1106_DrawChar_spacing (dev : SH1106_t) (x y color : Nat) : SH1106_t :=
  (List.range FONT_HEIGHT).foldl (fun dev row =>
    SH1106_SetPixel dev ((x + FONT_WIDTH) % 256) ((y + row) % 256) (lnot color)) dev

/-- `SH1106_DrawChar` (sh1106.c:313-351): returns the width drawn and the new state. -/
def SH1106_DrawChar (font : FontTable) (dev : SH1106_t) (x y : Nat) (ch : Int)
    (color : Nat) : Nat × SH1106_t :=
  if x + FONT_WIDTH > SH1106_WIDTH ∨ y + FONT_HEIGHT > SH1106_HEIGHT then
    (0, dev)
  else
    let char_index := SH1106_DrawChar_index ch
    let dev := (List.range FONT_WIDTH).foldl (fun dev col =>
      SH1106_DrawChar_column dev x y col (font char_index col) color) dev
    let dev := SH1106_DrawChar_spacing dev x y color
    (FONT_WIDTH + 1, dev)

/-! ### `Oled.cpp` / `Oled.hpp`: the facade -/

/-- The class `display::Oled`: its only data member is `device_`. -/
structure Oled where
  device_ : SH1106_t
  deriving DecidableEq, Repr

/-- The constructor `Oled::Oled(hi2c)` (Oled.cpp:12-18). -/
def Oled.new : Oled :=
  { device_ :=
      { address := SH1106_I2C_ADDR
        initialized := false
        framebuffer := List.replicate (SH1106_WIDTH * SH1106_PAGES) 0
        prev_framebuffer := List.replicate (SH1106_WIDTH * SH1106_PAGES) 0 } }

/-- `Oled::init` (Oled.cpp:20-22). -/
def Oled.init (hi2c : I2C_HandleTypeDef) (self : Oled) (log : I2C_Log) :
    Bool × Oled × I2C_Log :=
  let r := SH1106_Init hi2c self.device_ log
  (r.1 == HAL_OK, { device_ := r.2.1 }, r.2.2)

/-- `Oled::clear` (Oled.cpp:32-34). -/
def Oled.clear (hi2c : I2C_HandleTypeDef) (self : Oled) (log : I2C_Log) :
    Bool × Oled × I2C_Log :=
  let r := SH1106_Clear hi2c self.device_ log
  (r.1 == HAL_OK, { device_ := r.2.1 }, r.2.2)

/-- `Oled::fill` (Oled.cpp:36-38). -/
def Oled.fill (hi2c : I2C_HandleTypeDef) (self : Oled) (log : I2C_Log) :
    Bool × Oled × I2C_Log :=
  let r := SH1106_Fill hi2c self.device_ log
  (r.1 == HAL_OK, { device_ := r.2.1 }, r.2.2)

/-- `Oled::update` (Oled.cpp:40-42). -/
def Oled.update (hi2c : I2C_HandleTypeDef) (self : Oled) (log : I2C_Log) :
    Bool × Oled × I2C_Log :=
  let r := SH1106_UpdateScreen hi2c self.device_ log
  (r.1 == HAL_OK, { device_ := r.2.1 }, r.2.2)

/-- `Oled::setPixel` (Oled.cpp:44-46). -/
def Oled.setPixel (self : Oled) (x y color : Nat) : Oled :=
  { device_ := SH1106_SetPixel self.device_ x y color }

/-- `Oled::isInitialized` (Oled.hpp:130). -/
def Oled.isInitialized (self : Oled) : Bool :=
  self.device_.initialized

/-! ### Reference sequences used to state the properties -/

/-- Sends the given calls in order and stops after the first one that is not answered with
`HAL_OK`: the shape every transaction sequence of the driver has. -/
def sendAll (hi2c : I2C_HandleTypeDef) : List I2C_Call → I2C_Log → HAL_StatusTypeDef × I2C_Log
  | [], log => (HAL_OK, log)
  | c :: cs, log =>
    if hi2c log c ≠ HAL_OK then (hi2c log c, log ++ [c])
    else sendAll hi2c cs (log ++ [c])

/-- The four transactions of page `page` of a full transfer of framebuffer `fb` to the
device at `addr`: page select, column low nibble, column high nibble, and `0x40` followed by
the 128 bytes `fb[128 * page]`, ..., `fb[128 * page + 127]`. -/
def pageTransactions (addr : Nat) (fb : List Nat) (page : Nat) : List I2C_Call :=
  [ .Master_Transmit addr [0x80, 0xB0 ||| page],
    .Master_Transmit addr [0x80, 0x02],
    .Master_Transmit addr [0x80, 0x10],
    .Master_Transmit addr (0x40 :: (List.range 128).map (fun i => fb.getD (128 * page + i) 0)) ]

/-- The 32 transactions of a full transfer: pages 0, 1, ..., 7 in ascending order. -/
def screenTransactions (addr : Nat) (fb : List Nat) : List I2C_Call :=
  (List.range 8).flatMap (pageTransactions addr fb)

/-! ### Concrete states and buses used in the examples -/

/-- A device whose framebuffer is all `0xFF` (every pixel on). -/
def filledDevice : SH1106_t :=
  { address := SH1106_I2C_ADDR
    initialized := false
    framebuffer := List.replicate (SH1106_WIDTH * SH1106_PAGES) 0xFF
    prev_framebuffer := List.replicate (SH1106_WIDTH * SH1106_PAGES) 0 }

/-- A bus on which nothing answers: every call returns `HAL_ERROR`. -/
def absentBus : I2C_HandleTypeDef := fun _ _ => HAL_ERROR

/-- A bus on which every call succeeds. -/
def readyBus : I2C_HandleTypeDef := fun _ _ => HAL_OK

/-- A bus on which the call number `n` (counted from 0 over the whole log) times out and
every other call succeeds. -/
def timeoutAt (n : Nat) : I2C_HandleTypeDef :=
  fun log _ => if log.length = n then HAL_TIMEOUT else HAL_OK

/-- The step `status = r; if (status != HAL_OK) return status;` of a function that returns
the device state `dev` with the status, followed by the rest `k` of the function. -/
def orReturn (dev : SH1106_t) (r : HAL_StatusTypeDef × I2C_Log)
    (k : I2C_Log → HAL_StatusTypeDef × SH1106_t × I2C_Log) :
    HAL_StatusTypeDef × SH1106_t × I2C_Log :=
  if r.1 ≠ HAL_OK then (r.1, dev, r.2) else k r.2

/-- One single-command transaction `[0x80, cmd]` per command byte, to the device at `addr`. -/
def commandTransactions (addr : Nat) (cmds : List Nat) : List I2C_Call :=
  cmds.map (fun cmd => .Master_Transmit addr [0x80, cmd])

/-- The command bytes `SH1106_Init` sends before clearing the display, in the order of its
statements (sh1106.c:135-213): COM-Pins `0xDA 0x12` comes before Segment-Remap `0xA1` and
COM-Scan-Remap `0xC8`. -/
def initCommands : List Nat :=
  [0xAE, 0xA4, 0xD5, 0x50, 0xA8, 0x3F, 0xD3, 0x00, 0x40, 0xAD, 0x8B, 0xD9, 0x22, 0xDB, 0x35,
   0x32, 0x81, 0xFF, 0xA6, 0xDA, 0x12, 0xA1, 0xC8]

/-- The command bytes before the clear in the order the specification lists them:
Normal-Display, Segment-Remap-127, COM-Scan-Remap, COM-Pins. -/
def initCommands_spec : List Nat :=
  [0xAE, 0xA4, 0xD5, 0x50, 0xA8, 0x3F, 0xD3, 0x00, 0x40, 0xAD, 0x8B, 0xD9, 0x22, 0xDB, 0x35,
   0x32, 0x81, 0xFF, 0xA6, 0xA1, 0xC8, 0xDA, 0x12]

/-- The transactions of an initialization with the given command bytes: the commands, the
8-page transfer of an all-zero framebuffer, then Display-On `0xAF`, all to address `0x78`. -/
def initTransactionsOf (cmds : List Nat) : List I2C_Call :=
  commandTransactions 0x78 cmds ++ screenTransactions 0x78 (List.replicate 1024 0)
    ++ [.Master_Transmit 0x78 [0x80, 0xAF]]

/-- The device state `SH1106_Init` sets up before it probes the bus. -/
def initState (dev : SH1106_t) : SH1106_t :=
  { dev with
    address := SH1106_I2C_ADDR
    initialized := false
    framebuffer := List.replicate (SH1106_WIDTH * SH1106_PAGES) 0 }

/-- A font table with one non-blank glyph, the usual 5x7 `A` at index `0x41 - 0x20`. -/
def sampleFont : FontTable :=
  fun char_index col => if char_index = 33 then [0x7E, 0x11, 0x11, 0x11, 0x7E].getD col 0 else 0

/-! ### `sh1106.c`: `SH1106_DrawString` -/

/-- The `while (*str)` loop of `SH1106_DrawString` (sh1106.c:358-368) over the characters
still to draw; `current_x` is a `uint8_t`, `total_width` a `uint16_t`. -/
def SH1106_DrawString_loop (font : FontTable) (y color : Nat) :
    List Int → SH1106_t → Nat → Nat → Nat × SH1106_t
  | [], dev, _, total_width => (total_width, dev)
  | ch :: str, dev, current_x, total_width =>
    if current_x + FONT_WIDTH > SH1106_WIDTH then
      (total_width, dev)
    else
      let r := SH1106_DrawChar font dev current_x y ch color
      SH1106_DrawString_loop font y color str r.2 ((current_x + r.1) % 256)
        ((total_width + r.1) % 65536)

/-- `SH1106_DrawString` (sh1106.c:353-371).  `str` is the list of the characters in front of
the terminating NUL. -/
def SH1106_DrawString (font : FontTable) (dev : SH1106_t) (x y : Nat) (str : List Int)
    (color : Nat) : Nat × SH1106_t :=
  SH1106_DrawString_loop font y color str dev x 0

/-- `Oled::drawChar` (Oled.cpp:48-50). -/
def Oled.drawChar (font : FontTable) (self : Oled) (x y : Nat) (ch : Int) (color : Nat) :
    Nat × Oled :=
  let r := SH1106_DrawChar font self.device_ x y ch color
  (r.1, { device_ := r.2 })

/-- `Oled::drawString` (Oled.cpp:52-54). -/
def Oled.drawString (font : FontTable) (self : Oled) (x y : Nat) (str : List Int)
    (color : Nat) : Nat × Oled :=
  let r := SH1106_DrawString font self.device_ x y str color
  (r.1, { device_ := r.2 })

/-- The number of characters that fit from column `x` on: the number of `j` with
`x + 6 * j + 5 <= 128`. -/
def fitCount (x : Nat) : Nat :=
  if x + 5 ≤ 128 then (123 - x) / 6 + 1 else 0

/-- Draws the characters of `str` one after the other with `SH1106_DrawChar`, the `i`-th of
them at column `x + 6 * i`: what a string drawn without any cut looks like. -/
def drawCharsFrom (font : FontTable) (y color : Nat) : List Int → SH1106_t → Nat → SH1106_t
  | [], dev, _ => dev
  | ch :: str, dev, x => drawCharsFrom font y color str (SH1106_DrawChar font dev x y ch color).2 (x + 6)

/-! ### `Oled.cpp`: waveform drawing

`float` values.  `drawLogicSignal` computes with `float` in three places: the cursor
`current_x_float`, the zoom factor and the zoomed run length.  For a zoom factor that is a
multiple of 0.5 (the program uses 0.5, 1, 2, 4 and 8) all these values are multiples of 0.5
of magnitude below `2 ^ 23`, which `float` represents and adds exactly.  The model
represents such a value `v` by the integer `2 * v`; the parameter `zoom2` is twice the zoom
factor (`zoom2 = 2` is zoom 1.0).

Loops on a `uint8_t` counter.  The row loop of a vertical edge and the loop of
`drawDottedLine50` compare and advance an 8-bit counter, and can run forever.  They are
modelled with a fuel of 256 tests of the loop condition and return `none` when it runs out;
a run that has not left the loop after 256 tests has seen a counter value twice. -/

/-- Conversion of an integer value to `int16_t`: identity on `-32768 .. 32767`.  Outside
that range the conversion from `float` is undefined in C; the model keeps the low 16 bits,
and the properties below state the range they need. -/
def toInt16 (v : Int) : Int := (v + 32768) % 65536 - 32768

/-- Truncation toward zero of the `float` value represented by `v2`, i.e. of `v2 / 2`. -/
def truncHalf (v2 : Int) : Int := if v2 ≥ 0 then v2 / 2 else -((-v2) / 2)

/-- The conversion `(int16_t)f` of the `float` represented by `v2`. -/
def floatToInt16 (v2 : Int) : Int := toInt16 (truncHalf v2)

/-- `Oled::drawDottedLine50` (Oled.cpp:64-76): the loop, started at counter value `px` with
`fuel` tests of the loop condition left.  `(px - x) / spacing` is `int` arithmetic. -/
def Oled.drawDottedLine50_loop (x y width spacing color : Nat) : Nat → Oled → Nat → Option Oled
  | 0, _, _ => none
  | fuel + 1, self, px =>
    if px < x + width ∧ px < SH1106_WIDTH then
      let self :=
        if (((px : Int) - x).tdiv spacing).tmod 2 = 0 then
          (if y < SH1106_HEIGHT then self.setPixel px y color else self)
        else self
      Oled.drawDottedLine50_loop x y width spacing color fuel self ((px + spacing) % 256)
    else
      some self

/-- `Oled::drawDottedLine50` (Oled.cpp:64-76). -/
def Oled.drawDottedLine50 (self : Oled) (x y width spacing color : Nat) : Option Oled :=
  Oled.drawDottedLine50_loop x y width spacing color 256 self x

/-- The row loop of a vertical edge (Oled.cpp:105-110), started at counter value `py` with
`fuel` tests of the loop condition left. -/
def Oled.drawLogicSignal_vline (current_x : Int) (y_start y_end color : Nat) :
    Nat → Oled → Nat → Option Oled
  | 0, _, _ => none
  | fuel + 1, self, py =>
    if py ≤ (if y_start > y_end then y_start else y_end) then
      let self :=
        if py < SH1106_HEIGHT then self.setPixel (current_x % 256).toNat py color else self
      Oled.drawLogicSignal_vline current_x y_start y_end color fuel self ((py + 1) % 256)
    else
      some self

/-- The vertical transition of one run (Oled.cpp:97-112).  `y + height - 1` is computed in
`int` and stored in a `uint8_t`: `(y + height + 255) % 256`. -/
def Oled.drawLogicSignal_edge (self : Oled) (y height color i value current_value : Nat)
    (current_x : Int) : Option Oled :=
  if i > 0 ∧ value ≠ current_value then
    if current_x ≥ 0 ∧ current_x < SH1106_WIDTH then
      let y_start := if current_value = 0 then (y + height + 255) % 256 else y
      let y_end := if value = 0 then (y + height + 255) % 256 else y
      Oled.drawLogicSignal_vline current_x y_start y_end color 256 self
        (if y_start < y_end then y_start else y_end)
    else
      some self
  else
    some self

/-- The horizontal line of one run (Oled.cpp:116-125): `dx` runs over
`0 .. zoomed_delta_int - 1`, `draw_x = current_x + dx` is an `int16_t`. -/
def Oled.drawLogicSignal_hline (self : Oled) (current_x : Int) (y_level : Nat)
    (zoomed_delta_int : Int) (color : Nat) : Oled :=
  (List.range zoomed_delta_int.toNat).foldl (fun self (dx : Nat) =>
    let draw_x := toInt16 (current_x + (dx : Int))
    if draw_x ≥ 0 ∧ draw_x < SH1106_WIDTH ∧ y_level < SH1106_HEIGHT then
      self.setPixel (draw_x % 256).toNat y_level color
    else self) self

/-- The `for (i = 0; i < data_length; i++)` loop of `Oled::drawLogicSignal`
(Oled.cpp:88-133) over the run bytes still to draw, with the loop variables `i`,
`current_x_float` (doubled) and `current_value`. -/
def Oled.drawLogicSignal_loop (y height zoom2 color : Nat) :
    List Nat → Nat → Int → Nat → Oled → Option Oled
  | [], _, _, _, self => some self
  | data_byte :: rest, i, current_x_float, current_value, self =>
    let value := (data_byte &&& 0x80) >>> 7
    let delta := data_byte &&& 0x7F
    let zoomed_delta : Int := delta * zoom2
    let current_x := floatToInt16 current_x_float
    match self.drawLogicSignal_edge y height color i value current_value current_x with
    | none => none
    | some self =>
      let current_value := value
      let y_level := if current_value = 0 then (y + height + 255) % 256 else y
      let zoomed_delta_int := floatToInt16 zoomed_delta
      let self := self.drawLogicSignal_hline current_x y_level zoomed_delta_int color
      let current_x_float := current_x_float + zoomed_delta
      if current_x_float ≥ 2 * SH1106_WIDTH then some self
      else
        Oled.drawLogicSignal_loop y height zoom2 color rest (i + 1) current_x_float
          current_value self

/-- `Oled::drawLogicSignal` (Oled.cpp:78-134).  `signal_data` is `none` for a null pointer;
the loop reads the first `data_length` bytes of the array.  The result is `none` when a
vertical edge loop does not terminate. -/
def Oled.drawLogicSignal (self : Oled) (x y : Nat) (signal_data : Option (List Nat))
    (data_length height x_offset zoom2 color : Nat) : Option Oled :=
  match signal_data with
  | none => some self
  | some data =>
    if data_length = 0 then some self
    else
      Oled.drawLogicSignal_loop y height zoom2 color (data.take data_length) 0
        (2 * (x : Int) - 2 * (x_offset : Int)) 0 self

/-- The body of the channel loop of `Oled::drawLogicChannels` (Oled.cpp:154-174) for channel
`ch`.  `channel_data[ch]` is `none` for a null pointer. -/
def Oled.drawLogicChannels_channel (font : FontTable) (self : Oled)
    (channel_data : List (Option (List Nat))) (data_lengths : List Nat)
    (start_y channel_height x_offset zoom2 color ch : Nat) : Option Oled :=
  let grid_start_x := 8
  let grid_width := SH1106_WIDTH - grid_start_x
  let y_pos := (start_y + ch * channel_height) % 256
  let label : List Int := [48 + (ch : Int)]
  let self := (self.drawString font 0 ((y_pos + 4) % 256) label color).2
  let baseline_y := (y_pos + channel_height + 252) % 256
  match self.drawDottedLine50 grid_start_x baseline_y grid_width 4 color with
  | none => none
  | some self =>
    match channel_data.getD ch none with
    | none => some self
    | some data =>
      if data_lengths.getD ch 0 > 0 then
        self.drawLogicSignal grid_start_x ((y_pos + 2) % 256) (some data)
          (data_lengths.getD ch 0) ((channel_height + 252) % 256) x_offset zoom2 color
      else some self

/-- The channel loop of `Oled::drawLogicChannels` over the channel numbers still to draw. -/
def Oled.drawLogicChannels_loop (font : FontTable)
    (channel_data : List (Option (List Nat))) (data_lengths : List Nat)
    (start_y channel_height x_offset zoom2 color : Nat) : List Nat → Oled → Option Oled
  | [], self => some self
  | ch :: rest, self =>
    match self.drawLogicChannels_channel font channel_data data_lengths start_y
        channel_height x_offset zoom2 color ch with
    | none => none
    | some self =>
      Oled.drawLogicChannels_loop font channel_data data_lengths start_y channel_height
        x_offset zoom2 color rest self

/-- `Oled::drawLogicChannels` (Oled.cpp:136-176).  `channel_data` and `data_lengths` are
`none` for null pointers. -/
def Oled.drawLogicChannels (font : FontTable) (self : Oled)
    (channel_data : Option (List (Option (List Nat)))) (data_lengths : Option (List Nat))
    (num_channels start_y channel_height x_offset zoom2 color : Nat) : Option Oled :=
  match channel_data, data_lengths with
  | some cd, some dl =>
    if num_channels = 0 then some self
    else
      let num_channels := if num_channels > 4 then 4 else num_channels
      Oled.drawLogicChannels_loop font cd dl start_y channel_height x_offset zoom2 color
        (List.range num_channels) self
  | _, _ => some self

/-! ### `Tasks.cpp`: signal length and scroll range -/

/-- `calculateSignalLength` (Tasks.cpp:105-112): a `uint16_t` sum of the low 7 bits. -/
def calculateSignalLength (signal_data : List Nat) (data_length : Nat) : Nat :=
  (signal_data.take data_length).foldl
    (fun total_length b => (total_length + (b &&& 0x7F)) % 65536) 0

/-- The scroll range `testTask` computes at start-up (Tasks.cpp:186-191). -/
def testTask_max_scroll_initial (total_signal_length : Nat) : Nat :=
  let visible_width := 120
  if total_signal_length > visible_width then total_signal_length - visible_width else 0

/-- The scroll range `testTask` computes on a zoom change (Tasks.cpp:358-363).
`(uint16_t)(total_signal_length * zoom_level)` truncates the product, which is `float`-exact
for a 16-bit length and the zoom levels of the program; a product of 65536 or more is out
of the range of `uint16_t` (undefined in C), where the model keeps the low 16 bits. -/
def testTask_max_scroll (total_signal_length zoom2 : Nat) : Nat :=
  let visible_width := 120
  let zoomed_signal_length := (total_signal_length * zoom2 / 2) % 65536
  if zoomed_signal_length > visible_width then zoomed_signal_length - visible_width else 0

/-! ### Reading a run sequence -/

/-- The level of a run byte: bit 7. -/
def runLevel (b : Nat) : Nat := (b &&& 0x80) >>> 7

/-- The length of a run byte: the low 7 bits. -/
def runLength (b : Nat) : Nat := b &&& 0x7F

/-- The sum of the run lengths of a sequence. -/
def runTotal (data : List Nat) : Nat := (data.map runLength).sum

/-- The display row of a level: `y` for HIGH, the `uint8_t` value of `y + height - 1` for
LOW. -/
def levelRow (y height value : Nat) : Nat :=
  if value = 0 then (y + height + 255) % 256 else y

/-- The level before run `k` of `data`, `current_value` being the level before run 0. -/
def prevLevel (data : List Nat) (current_value k : Nat) : Nat :=
  if k = 0 then current_value else runLevel (data.getD (k - 1) 0)

/-- The doubled cursor at the start of run `k` of `data`, from the doubled cursor `cur2` at
the start of run 0: the zoomed lengths of the runs before `k` are added, nothing is rounded. -/
def cursorAt (zoom2 : Nat) (data : List Nat) (cur2 : Int) (k : Nat) : Int :=
  cur2 + ((zoom2 * runTotal (data.take k) : Nat) : Int)

/-- Pixel `(p, q)` lies on the vertical edge in front of run `k`: the run is not the very
first one, its level differs from the level before it, `p` is the integer cursor column and
`q` lies between the two level rows. -/
def onEdge (y height zoom2 : Nat) (data : List Nat) (i : Nat) (cur2 : Int)
    (current_value k p q : Nat) : Prop :=
  0 < i + k ∧ runLevel (data.getD k 0) ≠ prevLevel data current_value k ∧
  (p : Int) = truncHalf (cursorAt zoom2 data cur2 k) ∧
  min (levelRow y height (prevLevel data current_value k))
      (levelRow y height (runLevel (data.getD k 0))) ≤ q ∧
  q ≤ max (levelRow y height (prevLevel data current_value k))
      (levelRow y height (runLevel (data.getD k 0)))

/-- Pixel `(p, q)` lies on the horizontal line of run `k`: `q` is the row of the run's
level and `p` is one of the `floor(zoom * length)` columns from the integer cursor column
on. -/
def onRun (y height zoom2 : Nat) (data : List Nat) (cur2 : Int) (k p q : Nat) : Prop :=
  q = levelRow y height (runLevel (data.getD k 0)) ∧
  truncHalf (cursorAt zoom2 data cur2 k) ≤ (p : Int) ∧
  (p : Int) < truncHalf (cursorAt zoom2 data cur2 k)
    + ((runLength (data.getD k 0) * zoom2 / 2 : Nat) : Int)

/-- Pixel `(p, q)` is written when the run loop is entered with the runs `data` still to
draw, loop counter `i`, doubled cursor `cur2` and level `current_value`. -/
def signalCoversFrom (y height zoom2 : Nat) (data : List Nat) (i : Nat) (cur2 : Int)
    (current_value p q : Nat) : Prop :=
  ∃ k, k < data.length ∧
    (onEdge y height zoom2 data i cur2 current_value k p q ∨
      onRun y height zoom2 data cur2 k p q)

/-- The sequence has a level change at a run other than the first from which on every run
has length 0: a vertical edge is drawn at the very end of the waveform. -/
def trailingEdge (data : List Nat) : Prop :=
  ∃ k, 0 < k ∧ k < data.length ∧
    runLevel (data.getD k 0) ≠ runLevel (data.getD (k - 1) 0) ∧ runTotal (data.drop k) = 0

/-- A drawing step `T` is a stamp on the rows `lo .. hi`: on every well-formed state it
returns, keeps the state well formed, and sets a fixed set `M` of grid pixels, all in rows
`lo .. hi`, to fixed values `V`, leaving every other pixel of the grid as it was.  Neither
`M` nor `V` depends on the state the step starts from. -/
def Stamp (lo hi : Nat) (T : Oled → Option Oled) : Prop :=
  ∃ (M : Nat → Nat → Prop) (V : Nat → Nat → Bool),
    (∀ p q, M p q → lo ≤ q ∧ q ≤ hi) ∧
    ∀ self : Oled, self.device_.WF →
      ∃ self', T self = some self' ∧ self'.device_.WF ∧
        ∀ p q, p < SH1106_WIDTH → q < SH1106_HEIGHT →
          (M p q → self'.device_.pixel p q = V p q) ∧
          (¬ M p q → self'.device_.pixel p q = self.device_.pixel p q)

/-! ### `Tasks.cpp`: the scroll / zoom state of `testTask` -/

/-- The `static` variables of `testTask` that its rotation handling reads and writes
(Tasks.cpp:159-171).  `zoom_level` is kept as twice its value, like every zoom factor here. -/
structure TestTaskState where
  logic_analyzer_shown : Bool
  scroll_offset : Nat
  max_scroll : Nat
  display_needs_update : Bool
  zoom_mode : Bool
  zoom_level : Nat
  current_zoom_index : Nat
  deriving DecidableEq, Repr

/-- Twice the entries of `zoom_levels[] = {0.5f, 1.0f, 2.0f, 4.0f, 8.0f}` (Tasks.cpp:169). -/
def zoom_levels : List Nat := [1, 2, 4, 8, 16]

/-- `num_zoom_levels` (Tasks.cpp:170). -/
def num_zoom_levels : Nat := zoom_levels.length

/-- The state of `testTask` when it enters its loop (Tasks.cpp:156-191): the initializers of
the `static` variables and the scroll range computed from the reference signal. -/
def testTask_start (signal_data : List Nat) (data_length : Nat) : TestTaskState :=
  { logic_analyzer_shown := false
    scroll_offset := 0
    max_scroll := testTask_max_scroll_initial (calculateSignalLength signal_data data_length)
    display_needs_update := false
    zoom_mode := false
    zoom_level := 2
    current_zoom_index := 1 }

/-- The zoom branch of the rotation handling (Tasks.cpp:337-375).  `new_zoom_index` is an
`int8_t`; the index stays in `0 .. 4`. -/
def testTask_zoom (total_signal_length : Nat) (delta : Int) (s : TestTaskState) :
    TestTaskState :=
  let new_zoom_index : Int := s.current_zoom_index
  let new_zoom_index :=
    if delta > 0 then
      (if new_zoom_index < (num_zoom_levels : Int) - 1 then new_zoom_index + 1
       else new_zoom_index)
    else
      (if new_zoom_index > 0 then new_zoom_index - 1 else new_zoom_index)
  if new_zoom_index ≠ s.current_zoom_index then
    let current_zoom_index := (new_zoom_index % 256).toNat
    let zoom_level := zoom_levels.getD current_zoom_index 0
    let max_scroll := testTask_max_scroll total_signal_length zoom_level
    let scroll_offset := if s.scroll_offset > max_scroll then max_scroll else s.scroll_offset
    { s with
      current_zoom_index := current_zoom_index
      zoom_level := zoom_level
      display_needs_update := true
      max_scroll := max_scroll
      scroll_offset := scroll_offset }
  else s

/-- The scroll branch of the rotation handling (Tasks.cpp:380-399).  The sum
`scroll_offset + delta * 4` is an `int` and is stored into the `int16_t new_offset`; the
clamped value, which is not negative, is stored into the `uint16_t scroll_offset`. -/
def testTask_scroll (delta : Int) (s : TestTaskState) : TestTaskState :=
  let new_offset := toInt16 ((s.scroll_offset : Int) + delta * 4)
  let new_offset :=
    if new_offset < 0 then 0
    else if new_offset > (s.max_scroll : Int) then (s.max_scroll : Int)
    else new_offset
  if new_offset ≠ (s.scroll_offset : Int) then
    { s with scroll_offset := (new_offset % 65536).toNat, display_needs_update := true }
  else s

/-- The rotation handling of one pass of the loop of `testTask` (Tasks.cpp:332-401) for the
encoder delta read in that pass. -/
def testTask_handleRotation (total_signal_length : Nat) (delta : Int) (s : TestTaskState) :
    TestTaskState :=
  if delta ≠ 0 ∧ s.logic_analyzer_shown then
    if s.zoom_mode then testTask_zoom total_signal_length delta s
    else testTask_scroll delta s
  else s

/-- What one pass of the loop of `testTask` can do to the scroll / zoom state: enable the
analyzer display (Tasks.cpp:281-291), register a button press (296-310) or a long press
(313-323), and handle the rotation delta (332-401).  The conditions on time and on the
button that select the first three are outside the state kept here. -/
inductive TestTaskEvent where
  | showAnalyzer
  | press
  | longPress
  | rotate (delta : Int)
  deriving DecidableEq, Repr

/-- One event applied to the state of `testTask`. -/
def testTask_step (total_signal_length : Nat) (s : TestTaskState) :
    TestTaskEvent → TestTaskState
  | .showAnalyzer =>
    if ¬ s.logic_analyzer_shown then
      { s with logic_analyzer_shown := true, display_needs_update := true }
    else s
  | .press =>
    if s.zoom_mode ∧ s.logic_analyzer_shown then
      { s with zoom_mode := false, display_needs_update := true }
    else s
  | .longPress =>
    if s.logic_analyzer_shown ∧ ¬ s.zoom_mode then
      { s with zoom_mode := true, display_needs_update := true }
    else s
  | .rotate delta => testTask_handleRotation total_signal_length delta s

/-- The state of `testTask` after the given events, for the given reference signal. -/
def testTask_run (signal_data : List Nat) (data_length : Nat) (events : List TestTaskEvent) :
    TestTaskState :=
  events.foldl (testTask_step (calculateSignalLength signal_data data_length))
    (testTask_start signal_data data_length)

/-! ### Frame of the drawing functions -/

/-- The device state with every field but the framebuffer replaced. -/
def SH1106_t.withFields (dev : SH1106_t) (address : Nat) (prev_framebuffer : List Nat)
    (initialized : Bool) : SH1106_t :=
  { dev with
    address := address
    prev_framebuffer := prev_framebuffer
    initialized := initialized }

/-- The display object with every field of its device but the framebuffer replaced. -/
def Oled.withFields (self : Oled) (address : Nat) (prev_framebuffer : List Nat)
    (initialized : Bool) : Oled :=
  { device_ := self.device_.withFields address prev_framebuffer initialized }

/-- A drawing step reads and writes the framebuffer only: the other fields of the device
come out as they went in, and replacing them beforehand (the `initialized` flag among
them) gives the same result with those fields replaced. -/
def FramebufferOnly (T : Oled → Option Oled) : Prop :=
  ∀ (self : Oled) (address : Nat) (prev_framebuffer : List Nat) (initialized : Bool),
    T (self.withFields address prev_framebuffer initialized)
      = (T self).map (fun s => s.withFields address prev_framebuffer initialized) ∧
    ∀ self', T self = some self' →
      self'.device_.address = self.device_.address ∧
      self'.device_.prev_framebuffer = self.device_.prev_framebuffer ∧
      self'.device_.initialized = self.device_.initialized

/-- The bytes a HAL call puts on the bus after the address: the payload of a write
transaction, nothing for the presence probe. -/
def I2C_Call.pData : I2C_Call → List Nat
  | .IsDeviceReady _ _ => []
  | .Master_Transmit _ pData => pData

/-! ### `Encoder.h` / `Encoder.cpp`: the rotary encoder -/

/-- The data members of `Encoder` (Encoder.h:26-48) without the GPIO port / pin constants:
the pin levels the methods read are passed to them.  `int` members are `Int` (no step count
of a real run reaches the limits of a 32-bit `int`); tick values are `uint32_t`. -/
structure Encoder where
  last_a_state : Int
  encoder_pos : Int
  delta : Int
  position : Int
  direction : Bool
  button_state : Int
  last_button_state : Int
  last_debounce_time : Nat
  press_start_time : Nat
  last_logged_button_state : Bool
  long_press_detected : Bool
  deriving DecidableEq, Repr

abbrev Encoder.DEBOUNCE_DELAY : Nat := 20
abbrev Encoder.LONG_PRESS_DURATION : Nat := 1000

/-- The constructor (Encoder.cpp:3-13). -/
def Encoder.new : Encoder :=
  { last_a_state := 0
    encoder_pos := 0
    delta := 0
    position := 0
    direction := false
    button_state := 1
    last_button_state := 1
    last_debounce_time := 0
    press_start_time := 0
    last_logged_button_state := true
    long_press_detected := false }

/-- `Encoder::handleInterrupt` (Encoder.cpp:19-33); `pin_a_level` and `pin_b_level` are what
`HAL_GPIO_ReadPin` returns for pin A and pin B. -/
def Encoder.handleInterrupt (self : Encoder) (pin_a_level pin_b_level : Int) : Encoder :=
  let current_a := pin_a_level
  let self : Encoder :=
    if current_a ≠ self.last_a_state then
      if pin_b_level ≠ current_a then
        { self with encoder_pos := self.encoder_pos + 1, direction := true, delta := 1 }
      else
        { self with encoder_pos := self.encoder_pos - 1, direction := false, delta := -1 }
    else self
  { self with last_a_state := current_a }

/-- The button handling of `Encoder::update` (Encoder.cpp:36-61); `button_reading` is what
`HAL_GPIO_ReadPin` returns for the button pin and `tick1 .. tick4` are the values of the four
`HAL_GetTick()` calls in the order of the text.  The `bool` member
`last_logged_button_state` is compared and assigned as the `int` 0 / 1. -/
def Encoder.update_button (self : Encoder) (button_reading : Int)
    (tick1 tick2 tick3 tick4 : Nat) : Encoder :=
  let self : Encoder :=
    if button_reading ≠ self.last_button_state then
      let self : Encoder := { self with last_debounce_time := tick1 }
      if button_reading = 0 then { self with press_start_time := tick2 } else self
    else self
  let self : Encoder :=
    if (tick3 + 4294967296 - self.last_debounce_time) % 4294967296 > Encoder.DEBOUNCE_DELAY then
      let self : Encoder :=
        if button_reading ≠ self.button_state then
          let self : Encoder := { self with button_state := button_reading }
          if self.button_state ≠ (if self.last_logged_button_state then 1 else 0) then
            { self with
              last_logged_button_state := decide (self.button_state ≠ 0)
              long_press_detected := false }
          else self
        else self
      -- Long press detection
      if self.button_state = 0 ∧ ¬ self.long_press_detected ∧
          (tick4 + 4294967296 - self.press_start_time) % 4294967296
            ≥ Encoder.LONG_PRESS_DURATION then
        { self with long_press_detected := true, position := 0 }
      else self
    else self
  { self with last_button_state := button_reading }

/-- `Encoder::update` (Encoder.cpp:35-70): the button handling, then the rotation handling
(Encoder.cpp:63-69), which hands a non-zero `encoder_pos` over to `position` and `delta`. -/
def Encoder.update (self : Encoder) (button_reading : Int) (tick1 tick2 tick3 tick4 : Nat) :
    Encoder :=
  let self := self.update_button button_reading tick1 tick2 tick3 tick4
  if self.encoder_pos ≠ 0 then
    let delta_val := self.encoder_pos
    { self with encoder_pos := 0, position := self.position + delta_val, delta := delta_val }
  else self

/-- `Encoder::getDelta` (Encoder.h:20): the value returned and the new state. -/
def Encoder.getDelta (self : Encoder) : Int × Encoder :=
  let d := self.delta
  (d, { self with delta := 0 })

/-- One call of `handleInterrupt()` or `update()` with the pin levels and ticks it reads. -/
inductive EncoderCall where
  | handleInterrupt (pin_a_level pin_b_level : Int)
  | update (button_reading : Int) (tick1 tick2 tick3 tick4 : Nat)
  deriving DecidableEq, Repr

/-- One call applied to the encoder. -/
def Encoder.call (self : Encoder) : EncoderCall → Encoder
  | .handleInterrupt a b => self.handleInterrupt a b
  | .update r t1 t2 t3 t4 => self.update r t1 t2 t3 t4

/-- The net signed count of the encoder steps that the `handleInterrupt()` calls of a
sequence register, `last_a` being the level of pin A seen last: a call that sees pin A
changed counts `+1` if pin B differs from pin A and `-1` if not. -/
def registeredSteps : Int → List EncoderCall → Int
  | _, [] => 0
  | last_a, .handleInterrupt a b :: rest =>
    (if a ≠ last_a then (if b ≠ a then 1 else -1) else 0) + registeredSteps a rest
  | last_a, .update _ _ _ _ _ :: rest => registeredSteps last_a rest

/-- A vertical transition of the waveform of channel `ch` lands in column `p`: the channel
has a signal, and some run after the first changes the level with its cursor, started at
column 8 less the scroll offset, in column `p`. -/
def channelEdgeAt (channel_data : List (Option (List Nat))) (data_lengths : List Nat)
    (ch x_offset zoom2 p : Nat) : Prop :=
  ∃ data k, channel_data.getD ch none = some data ∧ 0 < data_lengths.getD ch 0 ∧
    0 < k ∧ k < (data.take (data_lengths.getD ch 0)).length ∧
    runLevel ((data.take (data_lengths.getD ch 0)).getD k 0)
      ≠ runLevel ((data.take (data_lengths.getD ch 0)).getD (k - 1) 0) ∧
    (p : Int) = truncHalf (cursorAt zoom2 (data.take (data_lengths.getD ch 0))
      (2 * ((8 : Nat) : Int) - 2 * (x_offset : Int)) k)

/-- The floor of a value given as its double. -/
def floorHalf (v2 : Int) : Int := v2 / 2

/-! ### `Tasks.cpp`: the test signal of channel 0 -/

/-- `logic_ch0_data[]` (Tasks.cpp:21-41), byte for byte. -/
def logic_ch0_data : List Nat :=
  [0x80, 0x14,
   0x88, 0x1E,
   0x08, 0x0A,
   0x88, 0x19,
   0x08, 0x28,
   0x88, 0x0F,
   0x08, 0x14,
   0x88, 0x23,
   0x08, 0x0C,
   0x88, 0x32,
   0x08, 0x19,
   0x88, 0x0A,
   0x08, 0x37,
   0x88, 0x14,
   0x08, 0x1E,
   0x88, 0x28,
   0x08, 0x0F,
   0x88, 0x19,
   0x08, 0x23]

/-- The runs the comments of `logic_ch0_data` document (Tasks.cpp:22-40), one per line, as
(level, length): "Start LOW for 20 pixels", "Go HIGH for 30 pixels", ... -/
def logic_ch0_documented : List (Nat × Nat) :=
  [(0, 20), (1, 30), (0, 10), (1, 25), (0, 40), (1, 15), (0, 20), (1, 35), (0, 12), (1, 50),
   (0, 25), (1, 10), (0, 55), (1, 20), (0, 30), (1, 40), (0, 15), (1, 25), (0, 35)]

/-- A byte sequence decoded by the rule of the renderer (Oled.cpp:89-91): one run per byte,
bit 7 the level, bits 6..0 the length. -/
def decodeRuns (data : List Nat) : List (Nat × Nat) :=
  data.map (fun data_byte => ((data_byte &&& 0x80) >>> 7, data_byte &&& 0x7F))

/-- The transactions of a `SH1106_WriteData` of `data[0 .. len-1]` to the device at `addr`:
piece `i` is `0x40` followed by the bytes `128 * i .. 128 * i + 127` of the buffer (as far as
it reaches), for `i` below `ceil(len / 128)`. -/
def writeDataTransactions (addr : Nat) (data : List Nat) (len : Nat) : List I2C_Call :=
  (List.range ((len + 127) / 128)).map
    (fun i => .Master_Transmit addr (0x40 :: ((data.take len).drop (128 * i)).take 128))
/-! ## Theorems -/

/-! ### Bits of a byte -/

/-- A byte has no bit at position 8 or above. -/
theorem testBit_byte_high {b j : Nat} (hb : b < 256) (hj : 8 ≤ j) : b.testBit j = false := by
  apply Nat.testBit_lt_two_pow
  calc b < 2 ^ 8 := by simpa using hb
    _ ≤ 2 ^ j := Nat.pow_le_pow_right (by decide) hj

/-- Bits of the byte stored by `framebuffer[index] |= (1 << bit)`. -/
theorem testBit_or_store {b bit : Nat} (hb : b < 256) (hbit : bit < 8) (j : Nat) :
    ((b ||| (1 <<< bit)) % 256).testBit j = if j = bit then true else b.testBit j := by
  have h256 : (256 : Nat) = 2 ^ 8 := by norm_num
  rw [h256, Nat.testBit_mod_two_pow, Nat.testBit_or, Nat.one_shiftLeft, Nat.testBit_two_pow]
  by_cases hj : j = bit
  · subst hj; simp [hbit]
  · have hj2 : ¬ bit = j := fun h => hj h.symm
    by_cases h8 : j < 8
    · simp [hj, hj2, h8]
    · simp [hj, hj2, h8, testBit_byte_high hb (Nat.le_of_not_lt h8)]

/-- Bits of the byte stored by `framebuffer[index] &= ~(1 << bit)`. -/
theorem testBit_and_store {b bit : Nat} (hb : b < 256) (hbit : bit < 8) (j : Nat) :
    ((b &&& (0xFFFFFFFF ^^^ (1 <<< bit))) % 256).testBit j
      = if j = bit then false else b.testBit j := by
  have h256 : (256 : Nat) = 2 ^ 8 := by norm_num
  have hmask : (0xFFFFFFFF : Nat) = 2 ^ 32 - 1 := by norm_num
  rw [h256, Nat.testBit_mod_two_pow, Nat.testBit_and, Nat.testBit_xor, hmask,
    Nat.testBit_two_pow_sub_one, Nat.one_shiftLeft, Nat.testBit_two_pow]
  by_cases hj : j = bit
  · subst hj
    have h32 : j < 32 := by omega
    simp [h32]
  · have hj2 : ¬ bit = j := fun h => hj h.symm
    by_cases h8 : j < 8
    · have h32 : j < 32 := by omega
      simp [hj, hj2, h8, h32]
    · simp [hj, h8, testBit_byte_high hb (Nat.le_of_not_lt h8)]

/-! ### Pixel addressing -/

/-- The byte-level effect of an in-bounds `SH1106_SetPixel`. -/
theorem SH1106_SetPixel_framebuffer (dev : SH1106_t) (x y color : Nat)
    (hlen : dev.framebuffer.length = SH1106_WIDTH * SH1106_PAGES)
    (hx : x < SH1106_WIDTH) (hy : y < SH1106_HEIGHT) :
    (SH1106_SetPixel dev x y color).framebuffer =
      dev.framebuffer.set (y / 8 * SH1106_WIDTH + x)
        (if color ≠ 0 then (dev.framebuffer.getD (y / 8 * SH1106_WIDTH + x) 0 ||| (1 <<< (y % 8))) % 256
         else (dev.framebuffer.getD (y / 8 * SH1106_WIDTH + x) 0
            &&& (0xFFFFFFFF ^^^ (1 <<< (y % 8)))) % 256) := by
  have hidx : y / 8 * SH1106_WIDTH + x < dev.framebuffer.length := by
    rw [hlen]; simp only [SH1106_WIDTH, SH1106_PAGES, SH1106_HEIGHT] at *; omega
  have hnot : ¬ (x ≥ SH1106_WIDTH ∨ y ≥ SH1106_HEIGHT) := by omega
  unfold SH1106_SetPixel SH1106_SetPixel_checked
  by_cases hc : color ≠ 0 <;> simp [hnot, hidx, hc]

/-- Entries of a well-formed framebuffer are bytes, also when read with a default. -/
theorem SH1106_t.WF.getD_lt {dev : SH1106_t} (h : dev.WF) (i : Nat) :
    dev.framebuffer.getD i 0 < 256 := by
  by_cases hi : i < dev.framebuffer.length
  · rw [List.getD_eq_getElem _ _ hi]
    exact h.2 _ (List.getElem_mem hi)
  · rw [List.getD_eq_default _ _ (Nat.le_of_not_lt hi)]
    decide

/-- The byte index of an in-bounds pixel lies inside the framebuffer. -/
theorem pixel_index_lt {x y : Nat} (hx : x < SH1106_WIDTH) (hy : y < SH1106_HEIGHT) :
    y / 8 * SH1106_WIDTH + x < SH1106_WIDTH * SH1106_PAGES := by
  simp only [SH1106_WIDTH, SH1106_PAGES, SH1106_HEIGHT] at *
  omega

/-- `SH1106_SetPixel` never indexes outside a 1024-byte framebuffer, whatever its
arguments. -/
theorem SH1106_SetPixel_checked_eq_some (dev : SH1106_t) (x y color : Nat)
    (hlen : dev.framebuffer.length = SH1106_WIDTH * SH1106_PAGES) :
    SH1106_SetPixel_checked dev x y color = some (SH1106_SetPixel dev x y color) := by
  unfold SH1106_SetPixel SH1106_SetPixel_checked
  by_cases hout : x ≥ SH1106_WIDTH ∨ y ≥ SH1106_HEIGHT
  · simp [hout]
  · have hx : x < SH1106_WIDTH := by omega
    have hy : y < SH1106_HEIGHT := by omega
    have hidx : y / 8 * SH1106_WIDTH + x < dev.framebuffer.length := by
      rw [hlen]; exact pixel_index_lt hx hy
    by_cases hc : color ≠ 0 <;> simp [hout, hidx, hc]

/-- An out-of-bounds `SH1106_SetPixel` is the identity. -/
theorem SH1106_SetPixel_out (dev : SH1106_t) (x y color : Nat)
    (h : x ≥ SH1106_WIDTH ∨ y ≥ SH1106_HEIGHT) : SH1106_SetPixel dev x y color = dev := by
  simp [SH1106_SetPixel, SH1106_SetPixel_checked, h]

/-- `SH1106_SetPixel` keeps the framebuffer a 1024-byte array. -/
theorem SH1106_SetPixel_WF (dev : SH1106_t) (x y color : Nat) (h : dev.WF) :
    (SH1106_SetPixel dev x y color).WF := by
  by_cases hout : x ≥ SH1106_WIDTH ∨ y ≥ SH1106_HEIGHT
  · rw [SH1106_SetPixel_out dev x y color hout]; exact h
  · have hx : x < SH1106_WIDTH := by omega
    have hy : y < SH1106_HEIGHT := by omega
    unfold SH1106_t.WF
    rw [SH1106_SetPixel_framebuffer dev x y color h.1 hx hy]
    refine ⟨by rw [List.length_set]; exact h.1, ?_⟩
    intro b hb
    rcases List.mem_or_eq_of_mem_set hb with hb | hb
    · exact h.2 b hb
    · subst hb
      split <;> exact Nat.mod_lt _ (by decide)

/-- `SH1106_SetPixel` writes nothing but the framebuffer. -/
theorem SH1106_SetPixel_fields (dev : SH1106_t) (x y color : Nat) :
    (SH1106_SetPixel dev x y color).address = dev.address ∧
    (SH1106_SetPixel dev x y color).prev_framebuffer = dev.prev_framebuffer ∧
    (SH1106_SetPixel dev x y color).initialized = dev.initialized := by
  unfold SH1106_SetPixel SH1106_SetPixel_checked
  by_cases hout : x ≥ SH1106_WIDTH ∨ y ≥ SH1106_HEIGHT
  · simp [hout]
  · by_cases hidx : y / 8 * SH1106_WIDTH + x < dev.framebuffer.length <;>
      by_cases hc : color ≠ 0 <;> simp [hout, hidx, hc]

/-- Bit-level effect of an in-bounds `SH1106_SetPixel`: one bit of one byte is written. -/
theorem SH1106_SetPixel_bitAt (dev : SH1106_t) (x y color : Nat) (h : dev.WF)
    (hx : x < SH1106_WIDTH) (hy : y < SH1106_HEIGHT) (i j : Nat) :
    (SH1106_SetPixel dev x y color).bitAt i j =
      if i = y / 8 * SH1106_WIDTH + x ∧ j = y % 8 then decide (color ≠ 0)
      else dev.bitAt i j := by
  have hidx : y / 8 * SH1106_WIDTH + x < dev.framebuffer.length := by
    rw [h.1]; exact pixel_index_lt hx hy
  have hbit : y % 8 < 8 := Nat.mod_lt _ (by decide)
  have hb := h.getD_lt (y / 8 * SH1106_WIDTH + x)
  unfold SH1106_t.bitAt
  rw [SH1106_SetPixel_framebuffer dev x y color h.1 hx hy]
  by_cases hi : i = y / 8 * SH1106_WIDTH + x
  · subst hi
    rw [List.getD_eq_getElem?_getD, List.getElem?_set_self hidx]
    simp only [Option.getD_some]
    by_cases hc : color ≠ 0
    · rw [if_pos hc, testBit_or_store hb hbit]
      by_cases hj : j = y % 8 <;> simp [hj, hc, List.getD_eq_getElem?_getD]
    · rw [if_neg hc, testBit_and_store hb hbit]
      by_cases hj : j = y % 8 <;> simp [hj, hc, List.getD_eq_getElem?_getD]
  · rw [List.getD_eq_getElem?_getD, List.getElem?_set_ne (Ne.symm hi)]
    simp [hi, List.getD_eq_getElem?_getD]

/-- Pixel-level effect of `SH1106_SetPixel`, read at a pixel of the 128x64 grid. -/
theorem SH1106_SetPixel_pixel (dev : SH1106_t) (x y color : Nat) (h : dev.WF)
    (p q : Nat) (hp : p < SH1106_WIDTH) :
    (SH1106_SetPixel dev x y color).pixel p q =
      if x < SH1106_WIDTH ∧ y < SH1106_HEIGHT ∧ p = x ∧ q = y then decide (color ≠ 0)
      else dev.pixel p q := by
  by_cases hout : x ≥ SH1106_WIDTH ∨ y ≥ SH1106_HEIGHT
  · rw [SH1106_SetPixel_out dev x y color hout]
    have : ¬ (x < SH1106_WIDTH ∧ y < SH1106_HEIGHT ∧ p = x ∧ q = y) := by omega
    rw [if_neg this]
  · have hx : x < SH1106_WIDTH := by omega
    have hy : y < SH1106_HEIGHT := by omega
    unfold SH1106_t.pixel
    rw [SH1106_SetPixel_bitAt dev x y color h hx hy]
    have hiff : (q / 8 * SH1106_WIDTH + p = y / 8 * SH1106_WIDTH + x ∧ q % 8 = y % 8) ↔
        (x < SH1106_WIDTH ∧ y < SH1106_HEIGHT ∧ p = x ∧ q = y) := by
      simp only [SH1106_WIDTH, SH1106_HEIGHT] at *
      omega
    by_cases hc : q / 8 * SH1106_WIDTH + p = y / 8 * SH1106_WIDTH + x ∧ q % 8 = y % 8
    · rw [if_pos hc, if_pos (hiff.mp hc)]
    · rw [if_neg hc, if_neg (fun h2 => hc (hiff.mpr h2))]

/-- Two device states with well-formed framebuffers are equal when they agree on every
framebuffer bit and on the other fields. -/
theorem SH1106_t.eq_of_bitAt {a b : SH1106_t} (ha : a.WF) (hb : b.WF)
    (haddr : a.address = b.address) (hprev : a.prev_framebuffer = b.prev_framebuffer)
    (hinit : a.initialized = b.initialized) (hbits : ∀ i j, a.bitAt i j = b.bitAt i j) :
    a = b := by
  have hfb : a.framebuffer = b.framebuffer := by
    apply List.ext_getElem (by rw [ha.1, hb.1])
    intro i h1 h2
    apply Nat.eq_of_testBit_eq
    intro j
    have := hbits i j
    unfold SH1106_t.bitAt at this
    rwa [List.getD_eq_getElem _ _ h1, List.getD_eq_getElem _ _ h2] at this
  cases a
  cases b
  simp only [SH1106_t.mk.injEq]
  exact ⟨haddr, hfb, hprev, hinit⟩

/-- Setting a pixel and then clearing it is the same as clearing it. -/
theorem SH1106_SetPixel_set_clear (dev : SH1106_t) (x y : Nat) (h : dev.WF)
    (hx : x < SH1106_WIDTH) (hy : y < SH1106_HEIGHT) :
    SH1106_SetPixel (SH1106_SetPixel dev x y 1) x y 0 = SH1106_SetPixel dev x y 0 := by
  have h1 := SH1106_SetPixel_WF dev x y 1 h
  have f1 := SH1106_SetPixel_fields dev x y 1
  have f0 := SH1106_SetPixel_fields dev x y 0
  have f10 := SH1106_SetPixel_fields (SH1106_SetPixel dev x y 1) x y 0
  apply SH1106_t.eq_of_bitAt (SH1106_SetPixel_WF _ x y 0 h1) (SH1106_SetPixel_WF dev x y 0 h)
  · rw [f10.1, f1.1, f0.1]
  · rw [f10.2.1, f1.2.1, f0.2.1]
  · rw [f10.2.2, f1.2.2, f0.2.2]
  · intro i j
    rw [SH1106_SetPixel_bitAt _ x y 0 h1 hx hy, SH1106_SetPixel_bitAt dev x y 1 h hx hy,
      SH1106_SetPixel_bitAt dev x y 0 h hx hy]
    by_cases hc : i = y / 8 * SH1106_WIDTH + x ∧ j = y % 8 <;> simp [hc]

/-- Clearing a pixel that is already off changes nothing. -/
theorem SH1106_SetPixel_clear_off (dev : SH1106_t) (x y : Nat) (h : dev.WF)
    (hx : x < SH1106_WIDTH) (hy : y < SH1106_HEIGHT) (hoff : dev.pixel x y = false) :
    SH1106_SetPixel dev x y 0 = dev := by
  have f0 := SH1106_SetPixel_fields dev x y 0
  apply SH1106_t.eq_of_bitAt (SH1106_SetPixel_WF dev x y 0 h) h f0.1 f0.2.1 f0.2.2
  intro i j
  rw [SH1106_SetPixel_bitAt dev x y 0 h hx hy]
  by_cases hc : i = y / 8 * SH1106_WIDTH + x ∧ j = y % 8
  · rw [if_pos hc, hc.1, hc.2]
    unfold SH1106_t.pixel at hoff
    rw [hoff]
    simp
  · rw [if_neg hc]

/-- A framebuffer filled by `memset` is well formed. -/
theorem WF_of_replicate (dev : SH1106_t) (v : Nat) (hv : v < 256)
    (h : dev.framebuffer = List.replicate (SH1106_WIDTH * SH1106_PAGES) v) : dev.WF := by
  unfold SH1106_t.WF
  rw [h]
  refine ⟨List.length_replicate _ _, ?_⟩
  intro b hb
  rw [List.eq_of_mem_replicate hb]
  exact hv

/-- Reading a pixel of the grid from a framebuffer filled with the byte `v`. -/
theorem pixel_of_replicate (dev : SH1106_t) (v : Nat)
    (h : dev.framebuffer = List.replicate (SH1106_WIDTH * SH1106_PAGES) v)
    (x y : Nat) (hx : x < SH1106_WIDTH) (hy : y < SH1106_HEIGHT) :
    dev.pixel x y = v.testBit (y % 8) := by
  unfold SH1106_t.pixel SH1106_t.bitAt
  have hi := pixel_index_lt hx hy
  rw [h, List.getD_eq_getElem _ _ (by rw [List.length_replicate]; exact hi),
    List.getElem_replicate]

theorem Oled_new_WF : Oled.new.device_.WF :=
  WF_of_replicate _ 0 (by decide) rfl

theorem filledDevice_WF : filledDevice.WF :=
  WF_of_replicate _ 0xFF (by decide) rfl

/-! ### C1 - C4: the bitmap store -/

/-- C1: for a framebuffer of 1024 bytes and in-bounds `x < 128`, `y < 64`,
`SH1106_SetPixel(x, y, color)` makes no out-of-range access, keeps the framebuffer a
1024-byte array, and sets bit `y % 8` of byte `(y / 8) * 128 + x` to 1 when `color` is
non-zero and to 0 when it is 0; every other bit of the framebuffer is unchanged. -/
theorem C1_SetPixel_writes_one_bit (dev : SH1106_t) (x y color : Nat) (h : dev.WF)
    (hx : x < 128) (hy : y < 64) :
    SH1106_SetPixel_checked dev x y color = some (SH1106_SetPixel dev x y color) ∧
    (SH1106_SetPixel dev x y color).WF ∧
    ∀ i j, (SH1106_SetPixel dev x y color).bitAt i j =
      if i = (y / 8) * 128 + x ∧ j = y % 8 then decide (color ≠ 0) else dev.bitAt i j :=
  ⟨SH1106_SetPixel_checked_eq_some dev x y color h.1, SH1106_SetPixel_WF dev x y color h,
    SH1106_SetPixel_bitAt dev x y color h hx hy⟩

/-- C1 at the blank device, pixel (5, 10), colour 1. -/
theorem C1_SetPixel_writes_one_bit_witness :
    Oled.new.device_.WF ∧ 5 < 128 ∧ 10 < 64 ∧
    (SH1106_SetPixel_checked Oled.new.device_ 5 10 1
        = some (SH1106_SetPixel Oled.new.device_ 5 10 1) ∧
      (SH1106_SetPixel Oled.new.device_ 5 10 1).WF ∧
      ∀ i j, (SH1106_SetPixel Oled.new.device_ 5 10 1).bitAt i j =
        if i = (10 / 8) * 128 + 5 ∧ j = 10 % 8 then decide ((1 : Nat) ≠ 0)
        else Oled.new.device_.bitAt i j) :=
  ⟨Oled_new_WF, by decide, by decide,
    C1_SetPixel_writes_one_bit Oled.new.device_ 5 10 1 Oled_new_WF (by decide) (by decide)⟩

/-- C2: for every device state and every `(x, y)` with `x >= 128` or `y >= 64`,
`SH1106_SetPixel(x, y, color)` returns without touching the framebuffer array (no access,
hence no out-of-range access) and leaves the whole device state unchanged. -/
theorem C2_SetPixel_out_of_bounds (dev : SH1106_t) (x y color : Nat)
    (h : x ≥ 128 ∨ y ≥ 64) :
    SH1106_SetPixel_checked dev x y color = some dev ∧ SH1106_SetPixel dev x y color = dev :=
  ⟨by simp [SH1106_SetPixel_checked, h], SH1106_SetPixel_out dev x y color h⟩

/-- C2 at the all-on device, pixel (128, 3), colour 0. -/
theorem C2_SetPixel_out_of_bounds_witness :
    (128 ≥ 128 ∨ 3 ≥ 64) ∧
    (SH1106_SetPixel_checked filledDevice 128 3 0 = some filledDevice ∧
      SH1106_SetPixel filledDevice 128 3 0 = filledDevice) :=
  ⟨by decide, C2_SetPixel_out_of_bounds filledDevice 128 3 0 (by decide)⟩

/-- C3 as stated fails: on the all-on framebuffer, `SH1106_SetPixel(0, 0, 1)` followed by
`SH1106_SetPixel(0, 0, 0)` leaves pixel (0, 0) off, so the state is not the one before the
first call. -/
theorem C3_roundtrip_counterexample :
    ¬ (∀ (dev : SH1106_t) (x y : Nat), dev.WF → x < 128 → y < 64 →
        SH1106_SetPixel (SH1106_SetPixel dev x y 1) x y 0 = dev) := by
  intro H
  have h := congrArg (fun d => d.pixel 0 0)
    (H filledDevice 0 0 filledDevice_WF (by decide) (by decide))
  simp only at h
  rw [SH1106_SetPixel_pixel _ 0 0 0 (SH1106_SetPixel_WF _ 0 0 1 filledDevice_WF) 0 0
    (by decide), pixel_of_replicate filledDevice 0xFF rfl 0 0 (by decide) (by decide)] at h
  simp at h

/-- C3 (amended): for every framebuffer state and in-bounds `(x, y)`,
`SH1106_SetPixel(x, y, 1)` followed by `SH1106_SetPixel(x, y, 0)` gives the state that
`SH1106_SetPixel(x, y, 0)` alone gives, and this is the state before the first call exactly
when pixel `(x, y)` was off in it. -/
theorem C3_roundtrip_when_off (dev : SH1106_t) (x y : Nat) (h : dev.WF)
    (hx : x < 128) (hy : y < 64) :
    SH1106_SetPixel (SH1106_SetPixel dev x y 1) x y 0 = SH1106_SetPixel dev x y 0 ∧
    (SH1106_SetPixel (SH1106_SetPixel dev x y 1) x y 0 = dev ↔ dev.pixel x y = false) := by
  refine ⟨SH1106_SetPixel_set_clear dev x y h hx hy, ?_⟩
  rw [SH1106_SetPixel_set_clear dev x y h hx hy]
  constructor
  · intro heq
    have hp := SH1106_SetPixel_pixel dev x y 0 h x y hx
    rw [heq] at hp
    have hc : x < SH1106_WIDTH ∧ y < SH1106_HEIGHT ∧ x = x ∧ y = y := ⟨hx, hy, rfl, rfl⟩
    rw [if_pos hc] at hp
    simpa using hp
  · exact SH1106_SetPixel_clear_off dev x y h hx hy

/-- C3 (amended) at the blank device, pixel (7, 20). -/
theorem C3_roundtrip_when_off_witness :
    Oled.new.device_.WF ∧ 7 < 128 ∧ 20 < 64 ∧
    (SH1106_SetPixel (SH1106_SetPixel Oled.new.device_ 7 20 1) 7 20 0
        = SH1106_SetPixel Oled.new.device_ 7 20 0 ∧
      (SH1106_SetPixel (SH1106_SetPixel Oled.new.device_ 7 20 1) 7 20 0 = Oled.new.device_ ↔
        Oled.new.device_.pixel 7 20 = false)) :=
  ⟨Oled_new_WF, by decide, by decide,
    C3_roundtrip_when_off Oled.new.device_ 7 20 Oled_new_WF (by decide) (by decide)⟩

/-- C4: for every prior device state (and every bus behaviour), after `SH1106_Clear` the
framebuffer is 1024 bytes `0x00` and every pixel of the 128x64 grid reads 0; after
`SH1106_Fill` it is 1024 bytes `0xFF` and every pixel reads 1. -/
theorem C4_Clear_Fill_framebuffer (hi2c : I2C_HandleTypeDef) (dev : SH1106_t)
    (log : I2C_Log) :
    (SH1106_Clear hi2c dev log).2.1.framebuffer = List.replicate 1024 0x00 ∧
    (∀ x y, x < 128 → y < 64 → (SH1106_Clear hi2c dev log).2.1.pixel x y = false) ∧
    (SH1106_Fill hi2c dev log).2.1.framebuffer = List.replicate 1024 0xFF ∧
    (∀ x y, x < 128 → y < 64 → (SH1106_Fill hi2c dev log).2.1.pixel x y = true) := by
  have hc : (SH1106_Clear hi2c dev log).2.1.framebuffer
      = List.replicate (SH1106_WIDTH * SH1106_PAGES) 0 := rfl
  have hf : (SH1106_Fill hi2c dev log).2.1.framebuffer
      = List.replicate (SH1106_WIDTH * SH1106_PAGES) 0xFF := rfl
  refine ⟨hc, ?_, hf, ?_⟩
  · intro x y hx hy
    rw [pixel_of_replicate _ 0 hc x y hx hy]
    simp
  · intro x y hx hy
    rw [pixel_of_replicate _ 0xFF hf x y hx hy]
    have : y % 8 < 8 := Nat.mod_lt _ (by decide)
    interval_cases (y % 8) <;> decide

/-- C4 on an absent device, starting from the all-on and the blank framebuffer. -/
theorem C4_Clear_Fill_framebuffer_witness :
    (SH1106_Clear absentBus filledDevice []).2.1.pixel 127 63 = false ∧
    (SH1106_Fill absentBus Oled.new.device_ []).2.1.pixel 0 0 = true :=
  ⟨(C4_Clear_Fill_framebuffer absentBus filledDevice []).2.1 127 63 (by decide) (by decide),
    (C4_Clear_Fill_framebuffer absentBus Oled.new.device_ []).2.2.2 0 0 (by decide)
      (by decide)⟩

/-! ### Transaction sequences -/

/-- On a bus where every call succeeds, `sendAll` sends the whole list. -/
theorem sendAll_all_ok (hi2c : I2C_HandleTypeDef) (hok : ∀ h c, hi2c h c = HAL_OK)
    (cs : List I2C_Call) (log : I2C_Log) : sendAll hi2c cs log = (HAL_OK, log ++ cs) := by
  induction cs generalizing log with
  | nil => simp [sendAll]
  | cons c cs ih => simp [sendAll, hok, ih]

/-- Running two lists one after the other, with the early return in between. -/
theorem sendAll_append (hi2c : I2C_HandleTypeDef) (as bs : List I2C_Call) (log : I2C_Log) :
    sendAll hi2c (as ++ bs) log =
      if (sendAll hi2c as log).1 ≠ HAL_OK then sendAll hi2c as log
      else sendAll hi2c bs (sendAll hi2c as log).2 := by
  induction as generalizing log with
  | nil => simp [sendAll]
  | cons a as ih =>
    simp only [List.cons_append, sendAll]
    by_cases h : hi2c log a ≠ HAL_OK
    · simp [h]
    · simp only [h, if_false]
      exact ih _

/-- If the calls before position `k` succeed and the call at position `k` is answered with
`s`, not `HAL_OK`, then `sendAll` returns `s` after exactly `k + 1` calls. -/
theorem sendAll_first_failure (hi2c : I2C_HandleTypeDef) (cs : List I2C_Call)
    (log : I2C_Log) (k : Nat) (s : HAL_StatusTypeDef) (hs : s ≠ HAL_OK)
    (hprev : ∀ j c, j < k → cs[j]? = some c → hi2c (log ++ cs.take j) c = HAL_OK)
    (hfail : ∃ c, cs[k]? = some c ∧ hi2c (log ++ cs.take k) c = s) :
    sendAll hi2c cs log = (s, log ++ cs.take (k + 1)) := by
  induction k generalizing cs log with
  | zero =>
    obtain ⟨c, hc, hcs⟩ := hfail
    cases cs with
    | nil => simp at hc
    | cons a as =>
      simp only [List.getElem?_cons_zero, Option.some.injEq] at hc
      subst hc
      simp only [List.take_zero, List.append_nil] at hcs
      simp [sendAll, hcs, hs]
  | succ k ih =>
    obtain ⟨c, hc, hcs⟩ := hfail
    cases cs with
    | nil => simp at hc
    | cons a as =>
      have ha : hi2c log a = HAL_OK := by
        have := hprev 0 a (Nat.succ_pos k) (by simp)
        simpa using this
      simp only [sendAll, ha, ne_eq, not_true_eq_false, if_false]
      rw [ih as (log ++ [a])]
      · simp
      · intro j c2 hj hc2
        have := hprev (j + 1) c2 (Nat.succ_lt_succ hj) (by simpa using hc2)
        simpa using this
      · refine ⟨c, by simpa using hc, ?_⟩
        simpa using hcs

/-- The slice `data[n .. n + k - 1]` of an array that is long enough, entry by entry. -/
theorem take_drop_eq_map_getD (l : List Nat) (n k : Nat) (h : n + k ≤ l.length) :
    (l.drop n).take k = (List.range k).map (fun i => l.getD (n + i) 0) := by
  apply List.ext_getElem
  · simp only [List.length_take, List.length_drop, List.length_map, List.length_range]
    omega
  · intro i h1 h2
    simp only [List.length_map, List.length_range] at h2
    rw [List.getElem_take, List.getElem_drop, List.getElem_map, List.getElem_range,
      List.getD_eq_getElem _ _ (by omega)]

/-- A single-chunk `SH1106_WriteData` is one `sendAll` step. -/
theorem SH1106_WriteData_small (hi2c : I2C_HandleTypeDef) (dev : SH1106_t) (data : List Nat)
    (len : Nat) (log : I2C_Log) (hlen : len ≤ 128) :
    SH1106_WriteData hi2c dev data len log =
      sendAll hi2c [.Master_Transmit dev.address (0x40 :: data.take len)] log := by
  unfold SH1106_WriteData
  rw [if_pos hlen]
  simp only [HAL_I2C_Master_Transmit, sendAll]
  split <;> simp_all

/-- A `SH1106_WriteCommand` is one `sendAll` step. -/
theorem SH1106_WriteCommand_eq (hi2c : I2C_HandleTypeDef) (dev : SH1106_t) (cmd : Nat)
    (log : I2C_Log) :
    SH1106_WriteCommand hi2c dev cmd log =
      sendAll hi2c [.Master_Transmit dev.address [0x80, cmd]] log := by
  simp only [SH1106_WriteCommand, HAL_I2C_Master_Transmit, sendAll]
  split <;> simp_all

/-- `x; if failed then return else y` on `sendAll` runs is `sendAll` on the concatenation. -/
theorem sendAll_seq (hi2c : I2C_HandleTypeDef) (as bs : List I2C_Call) (log : I2C_Log) :
    (if (sendAll hi2c as log).1 ≠ HAL_OK then sendAll hi2c as log
      else sendAll hi2c bs (sendAll hi2c as log).2) = sendAll hi2c (as ++ bs) log :=
  (sendAll_append hi2c as bs log).symm

/-- One page of `SH1106_UpdateScreen` sends the four transactions of that page. -/
theorem SH1106_UpdateScreen_page_eq (hi2c : I2C_HandleTypeDef) (dev : SH1106_t)
    (page : Nat) (log : I2C_Log)
    (hlen : dev.framebuffer.length = SH1106_WIDTH * SH1106_PAGES) (hpage : page < 8) :
    SH1106_UpdateScreen_page hi2c dev page log =
      sendAll hi2c (pageTransactions dev.address dev.framebuffer page) log := by
  have hbound : page * SH1106_WIDTH + SH1106_WIDTH ≤ dev.framebuffer.length := by
    rw [hlen]
    simp only [SH1106_WIDTH, SH1106_PAGES, SH1106_HEIGHT]
    omega
  have hslice : (dev.framebuffer.drop (page * SH1106_WIDTH)).take SH1106_WIDTH =
      (List.range 128).map (fun i => dev.framebuffer.getD (128 * page + i) 0) := by
    rw [take_drop_eq_map_getD _ _ _ hbound, Nat.mul_comm page SH1106_WIDTH]
  have hlow : SH1106_CMD_SET_COLUMN_ADDR_LOW ||| (SH1106_COLUMN_OFFSET &&& 0x0F) = 0x02 := by
    decide
  have hhigh : SH1106_CMD_SET_COLUMN_ADDR_HIGH ||| ((SH1106_COLUMN_OFFSET >>> 4) &&& 0x0F)
      = 0x10 := by decide
  unfold SH1106_UpdateScreen_page
  simp only [SH1106_WriteCommand_eq, SH1106_WriteData_small _ _ _ _ _ (Nat.le_refl 128),
    hslice, hlow, hhigh, sendAll_seq]
  rfl

/-- The page loop sends the transactions of its pages in order. -/
theorem SH1106_UpdateScreen_loop_eq (hi2c : I2C_HandleTypeDef) (dev : SH1106_t)
    (hlen : dev.framebuffer.length = SH1106_WIDTH * SH1106_PAGES)
    (pages : List Nat) (hpages : ∀ p ∈ pages, p < 8) (log : I2C_Log) :
    SH1106_UpdateScreen_loop hi2c dev pages log =
      sendAll hi2c (pages.flatMap (pageTransactions dev.address dev.framebuffer)) log := by
  induction pages generalizing log with
  | nil => simp [SH1106_UpdateScreen_loop, sendAll]
  | cons p ps ih =>
    have hps : ∀ q ∈ ps, q < 8 := fun q hq => hpages q (List.mem_cons_of_mem _ hq)
    simp only [SH1106_UpdateScreen_loop, List.flatMap_cons]
    rw [SH1106_UpdateScreen_page_eq hi2c dev p log hlen (hpages p (List.mem_cons_self _ _)),
      sendAll_append]
    by_cases h : (sendAll hi2c (pageTransactions dev.address dev.framebuffer p) log).1 ≠ HAL_OK
    · rw [if_pos h, if_pos h]
    · rw [if_neg h, if_neg h]
      exact ih hps _

/-- `SH1106_UpdateScreen` sends the 32 transactions of the screen in order, stops at the
first failing one, and returns the device state it was given. -/
theorem SH1106_UpdateScreen_eq (hi2c : I2C_HandleTypeDef) (dev : SH1106_t) (log : I2C_Log)
    (hlen : dev.framebuffer.length = SH1106_WIDTH * SH1106_PAGES) :
    SH1106_UpdateScreen hi2c dev log =
      ((sendAll hi2c (screenTransactions dev.address dev.framebuffer) log).1, dev,
        (sendAll hi2c (screenTransactions dev.address dev.framebuffer) log).2) := by
  unfold SH1106_UpdateScreen screenTransactions
  rw [SH1106_UpdateScreen_loop_eq hi2c dev hlen (List.range SH1106_PAGES)
    (fun p hp => by simpa using hp)]
  rfl

/-- A full transfer has 32 transactions. -/
theorem screenTransactions_length (addr : Nat) (fb : List Nat) :
    (screenTransactions addr fb).length = 32 := by
  simp [screenTransactions, pageTransactions, List.range_succ]

/-! ### C5 - C6: the page transfer -/

/-- C5: when every bus transaction succeeds, `SH1106_UpdateScreen` returns `HAL_OK` after
issuing exactly 32 transactions, which for page = 0, 1, ..., 7 in ascending order are
`[0x80, 0xB0 | page]`, `[0x80, 0x02]`, `[0x80, 0x10]` and `0x40` followed by the 128
framebuffer bytes `framebuffer[128 * page .. 128 * page + 127]` in order. -/
theorem C5_UpdateScreen_all_ok (hi2c : I2C_HandleTypeDef) (dev : SH1106_t) (log : I2C_Log)
    (hlen : dev.framebuffer.length = 1024) (hok : ∀ h c, hi2c h c = HAL_OK) :
    SH1106_UpdateScreen hi2c dev log =
      (HAL_OK, dev, log ++ screenTransactions dev.address dev.framebuffer) ∧
    (screenTransactions dev.address dev.framebuffer).length = 32 ∧
    ∀ page, page < 8 →
      ((screenTransactions dev.address dev.framebuffer).drop (4 * page)).take 4 =
        [ .Master_Transmit dev.address [0x80, 0xB0 ||| page],
          .Master_Transmit dev.address [0x80, 0x02],
          .Master_Transmit dev.address [0x80, 0x10],
          .Master_Transmit dev.address
            (0x40 :: (List.range 128).map (fun i => dev.framebuffer.getD (128 * page + i) 0)) ] := by
  refine ⟨?_, screenTransactions_length _ _, ?_⟩
  · rw [SH1106_UpdateScreen_eq hi2c dev log hlen, sendAll_all_ok hi2c hok]
  · intro page hpage
    interval_cases page <;> rfl

/-- C5 on a bus where every call succeeds, from the blank device and an empty log. -/
theorem C5_UpdateScreen_all_ok_witness :
    Oled.new.device_.framebuffer.length = 1024 ∧ (∀ h c, readyBus h c = HAL_OK) ∧
    SH1106_UpdateScreen readyBus Oled.new.device_ [] =
      (HAL_OK, Oled.new.device_,
        [] ++ screenTransactions Oled.new.device_.address Oled.new.device_.framebuffer) :=
  ⟨List.length_replicate _ _, fun _ _ => rfl,
    (C5_UpdateScreen_all_ok readyBus Oled.new.device_ [] (List.length_replicate _ _)
      (fun _ _ => rfl)).1⟩

/-- C6: if the `k`-th bus transaction (`1 <= k <= 32`) of an `SH1106_UpdateScreen` call is
the first one to fail, with status `s`, then `SH1106_UpdateScreen` returns `s`, the
transactions attempted are exactly the first `k` of the all-success sequence, and the device
state, framebuffer included, is the one before the call. -/
theorem C6_UpdateScreen_first_failure (hi2c : I2C_HandleTypeDef) (dev : SH1106_t)
    (log : I2C_Log) (k : Nat) (s : HAL_StatusTypeDef)
    (hlen : dev.framebuffer.length = 1024) (hk1 : 1 ≤ k) (hk : k ≤ 32) (hs : s ≠ HAL_OK)
    (hprev : ∀ j c, j + 1 < k → (screenTransactions dev.address dev.framebuffer)[j]? = some c →
      hi2c (log ++ (screenTransactions dev.address dev.framebuffer).take j) c = HAL_OK)
    (hfail : ∀ c, (screenTransactions dev.address dev.framebuffer)[k - 1]? = some c →
      hi2c (log ++ (screenTransactions dev.address dev.framebuffer).take (k - 1)) c = s) :
    SH1106_UpdateScreen hi2c dev log =
      (s, dev, log ++ (screenTransactions dev.address dev.framebuffer).take k) := by
  have hl := screenTransactions_length dev.address dev.framebuffer
  have hk' : k - 1 < (screenTransactions dev.address dev.framebuffer).length := by omega
  have hget : (screenTransactions dev.address dev.framebuffer)[k - 1]? =
      some ((screenTransactions dev.address dev.framebuffer)[k - 1]) :=
    List.getElem?_eq_getElem hk'
  have hsend := sendAll_first_failure hi2c (screenTransactions dev.address dev.framebuffer)
    log (k - 1) s hs (fun j c hj hc => hprev j c (by omega) hc) ⟨_, hget, hfail _ hget⟩
  rw [SH1106_UpdateScreen_eq hi2c dev log hlen, hsend]
  have : k - 1 + 1 = k := by omega
  rw [this]

/-- C6 on a bus whose sixth call times out (the column-low command of page 1), from the
all-on device and an empty log. -/
theorem C6_UpdateScreen_first_failure_witness :
    SH1106_UpdateScreen (timeoutAt 5) filledDevice [] =
      (HAL_TIMEOUT, filledDevice,
        [] ++ (screenTransactions filledDevice.address filledDevice.framebuffer).take 6) :=
  C6_UpdateScreen_first_failure (timeoutAt 5) filledDevice [] 6 HAL_TIMEOUT
    (List.length_replicate _ _) (by decide) (by decide) (by decide)
    (fun j c hj _ => by
      have hl := screenTransactions_length filledDevice.address filledDevice.framebuffer
      simp only [timeoutAt, List.nil_append, List.length_take, hl]
      rw [if_neg (by omega)])
    (fun c _ => by
      have hl := screenTransactions_length filledDevice.address filledDevice.framebuffer
      simp only [timeoutAt, List.nil_append, List.length_take, hl]
      rfl)

/-! ### The structure of `SH1106_Init` -/

/-- `SH1106_WriteCommands_loop` sends one single-command transaction per byte. -/
theorem SH1106_WriteCommands_loop_eq (hi2c : I2C_HandleTypeDef) (dev : SH1106_t)
    (cmds : List Nat) (log : I2C_Log) :
    SH1106_WriteCommands_loop hi2c dev cmds log =
      sendAll hi2c (commandTransactions dev.address cmds) log := by
  induction cmds generalizing log with
  | nil => rfl
  | cons c cs ih =>
    simp only [SH1106_WriteCommands_loop, commandTransactions, List.map_cons, sendAll,
      SH1106_WriteCommand, HAL_I2C_Master_Transmit]
    by_cases h : hi2c log (.Master_Transmit dev.address [SH1106_CONTROL_BYTE_CMD_SINGLE, c])
        ≠ HAL_OK
    · rw [if_pos h, if_pos h]
    · rw [if_neg h, if_neg h]
      exact ih _

/-- Two guarded steps in a row are one guarded step on the concatenated calls. -/
theorem orReturn_sendAll_fuse (hi2c : I2C_HandleTypeDef) (dev : SH1106_t)
    (as bs : List I2C_Call) (log : I2C_Log)
    (k : I2C_Log → HAL_StatusTypeDef × SH1106_t × I2C_Log) :
    orReturn dev (sendAll hi2c as log) (fun l => orReturn dev (sendAll hi2c bs l) k) =
      orReturn dev (sendAll hi2c (as ++ bs) log) k := by
  unfold orReturn
  rw [sendAll_append]
  by_cases h : (sendAll hi2c as log).1 = HAL_OK
  · simp [h]
  · simp [h]

/-- `SH1106_Init` written with `orReturn`: the same statements in the same order. -/
theorem SH1106_Init_unfold (hi2c : I2C_HandleTypeDef) (dev : SH1106_t) (log : I2C_Log) :
    SH1106_Init hi2c dev log =
      if !(SH1106_CheckDevice hi2c log).1 then
        (HAL_ERROR, initState dev, (SH1106_CheckDevice hi2c log).2)
      else
        orReturn (initState dev) (SH1106_WriteCommand hi2c (initState dev) 0xAE
          (SH1106_CheckDevice hi2c log).2) fun l =>
        orReturn (initState dev) (SH1106_WriteCommand hi2c (initState dev) 0xA4 l) fun l =>
        orReturn (initState dev) (SH1106_WriteCommands hi2c (initState dev) [0xD5, 0x50] 2 l) fun l =>
        orReturn (initState dev) (SH1106_WriteCommands hi2c (initState dev) [0xA8, 0x3F] 2 l) fun l =>
        orReturn (initState dev) (SH1106_WriteCommands hi2c (initState dev) [0xD3, 0x00] 2 l) fun l =>
        orReturn (initState dev) (SH1106_WriteCommand hi2c (initState dev) 0x40 l) fun l =>
        orReturn (initState dev) (SH1106_WriteCommands hi2c (initState dev) [0xAD, 0x8B] 2 l) fun l =>
        orReturn (initState dev) (SH1106_WriteCommands hi2c (initState dev) [0xD9, 0x22] 2 l) fun l =>
        orReturn (initState dev) (SH1106_WriteCommands hi2c (initState dev) [0xDB, 0x35] 2 l) fun l =>
        orReturn (initState dev) (SH1106_WriteCommand hi2c (initState dev) 0x32 l) fun l =>
        orReturn (initState dev) (SH1106_WriteCommands hi2c (initState dev) [0x81, 0xFF] 2 l) fun l =>
        orReturn (initState dev) (SH1106_WriteCommand hi2c (initState dev) 0xA6 l) fun l =>
        orReturn (initState dev) (SH1106_WriteCommands hi2c (initState dev) [0xDA, 0x12] 2 l) fun l =>
        orReturn (initState dev) (SH1106_WriteCommand hi2c (initState dev) 0xA1 l) fun l =>
        orReturn (initState dev) (SH1106_WriteCommand hi2c (initState dev) 0xC8 l) fun l =>
        orReturn (initState dev)
          ((SH1106_Clear hi2c (initState dev) l).1, (SH1106_Clear hi2c (initState dev) l).2.2) fun l =>
        orReturn (initState dev) (SH1106_WriteCommand hi2c (initState dev) 0xAF l) fun l =>
        (HAL_OK, { initState dev with initialized := true }, l) := by
  rfl

/-- The transfer inside `SH1106_Clear`, called on the state `SH1106_Init` has set up. -/
theorem SH1106_Clear_initState (hi2c : I2C_HandleTypeDef) (dev : SH1106_t) (log : I2C_Log) :
    ((SH1106_Clear hi2c (initState dev) log).1, (SH1106_Clear hi2c (initState dev) log).2.2) =
      sendAll hi2c (screenTransactions 0x78 (List.replicate 1024 0)) log := by
  have h : SH1106_Clear hi2c (initState dev) log
      = SH1106_UpdateScreen hi2c (initState dev) log := rfl
  rw [h, SH1106_UpdateScreen_eq hi2c (initState dev) log (List.length_replicate _ _)]
  rfl

/-- The structure of `SH1106_Init`: it resets the device state, probes the bus, returns
`HAL_ERROR` without transmitting if the probe fails, and otherwise sends the initialization
transactions in order, stopping at the first failing one; `initialized` becomes true only
when all of them succeeded. -/
theorem SH1106_Init_eq (hi2c : I2C_HandleTypeDef) (dev : SH1106_t) (log : I2C_Log) :
    SH1106_Init hi2c dev log =
      if hi2c log (.IsDeviceReady 0x78 3) ≠ HAL_OK then
        (HAL_ERROR, initState dev, log ++ [.IsDeviceReady 0x78 3])
      else
        orReturn (initState dev)
          (sendAll hi2c (initTransactionsOf initCommands) (log ++ [.IsDeviceReady 0x78 3]))
          (fun l => (HAL_OK, { initState dev with initialized := true }, l)) := by
  have haddr : (initState dev).address = 0x78 := rfl
  rw [SH1106_Init_unfold]
  simp only [SH1106_WriteCommand_eq, SH1106_WriteCommands, List.take, SH1106_Clear_initState,
    SH1106_WriteCommands_loop_eq, commandTransactions, List.map, haddr, orReturn_sendAll_fuse]
  have hA : SH1106_I2C_ADDR = 0x78 := rfl
  simp only [SH1106_CheckDevice, HAL_I2C_IsDeviceReady, hA]
  by_cases hp : hi2c log (.IsDeviceReady 0x78 3) = HAL_OK
  · simp only [hp, ne_eq, not_true_eq_false, if_false, beq_self_eq_true, Bool.not_true,
      Bool.false_eq_true]
    rfl
  · have hb : (hi2c log (.IsDeviceReady 0x78 3) == HAL_OK) = false := by simpa using hp
    simp only [hb, Bool.not_false, if_true, ne_eq, hp, not_false_eq_true]

/-- On a bus where every call succeeds, `SH1106_Init` returns `HAL_OK`, sets `initialized`,
and has sent the probe followed by all its initialization transactions. -/
theorem SH1106_Init_all_ok (hi2c : I2C_HandleTypeDef) (dev : SH1106_t) (log : I2C_Log)
    (hok : ∀ h c, hi2c h c = HAL_OK) :
    SH1106_Init hi2c dev log =
      (HAL_OK, { initState dev with initialized := true },
        log ++ [.IsDeviceReady 0x78 3] ++ initTransactionsOf initCommands) := by
  rw [SH1106_Init_eq, if_neg (by simp [hok]), sendAll_all_ok hi2c hok]
  simp [orReturn]

/-- If the presence probe fails, `SH1106_Init` returns `HAL_ERROR` and the probe is the only
call it has made. -/
theorem SH1106_Init_absent (hi2c : I2C_HandleTypeDef) (dev : SH1106_t) (log : I2C_Log)
    (hp : hi2c log (.IsDeviceReady 0x78 3) ≠ HAL_OK) :
    SH1106_Init hi2c dev log =
      (HAL_ERROR, initState dev, log ++ [.IsDeviceReady 0x78 3]) := by
  rw [SH1106_Init_eq, if_pos hp]

/-! ### C7 - C9: initialization and the facade -/

/-- C7 as stated fails: on a bus where every call succeeds, the 20th command byte
`SH1106_Init` transmits (log entry 20, after the probe at entry 0) is COM-Pins `0xDA`, where
the order of the specification has Segment-Remap `0xA1`; so the log is not the sequence the
specification lists. -/
theorem C7_Init_spec_order_counterexample :
    (∀ h c, readyBus h c = HAL_OK) ∧
    (SH1106_Init readyBus Oled.new.device_ []).2.2[20]?
      = some (.Master_Transmit 0x78 [0x80, 0xDA]) ∧
    ([I2C_Call.IsDeviceReady 0x78 3] ++ initTransactionsOf initCommands_spec)[20]?
      = some (.Master_Transmit 0x78 [0x80, 0xA1]) ∧
    (SH1106_Init readyBus Oled.new.device_ []).2.2
      ≠ [.IsDeviceReady 0x78 3] ++ initTransactionsOf initCommands_spec := by
  have hlog : (SH1106_Init readyBus Oled.new.device_ []).2.2
      = [.IsDeviceReady 0x78 3] ++ initTransactionsOf initCommands := by
    rw [SH1106_Init_all_ok readyBus Oled.new.device_ [] (fun _ _ => rfl)]
    rfl
  have h20 : ([I2C_Call.IsDeviceReady 0x78 3] ++ initTransactionsOf initCommands)[20]?
      = some (.Master_Transmit 0x78 [0x80, 0xDA]) := rfl
  have h20s : ([I2C_Call.IsDeviceReady 0x78 3] ++ initTransactionsOf initCommands_spec)[20]?
      = some (.Master_Transmit 0x78 [0x80, 0xA1]) := rfl
  refine ⟨fun _ _ => rfl, by rw [hlog]; exact h20, h20s, ?_⟩
  intro heq
  have h := congrArg (fun l => l[20]?) heq
  simp only at h
  rw [hlog, h20, h20s] at h
  exact absurd h (by decide)

/-- C7 (amended): when the presence probe and every bus transaction succeed, `SH1106_Init`
returns `HAL_OK` and the command bytes it transmits after the probe are, in this order,
0xAE, 0xA4, 0xD5 0x50, 0xA8 0x3F, 0xD3 0x00, 0x40, 0xAD 0x8B, 0xD9 0x22, 0xDB 0x35, 0x32,
0x81 0xFF, 0xA6 (Normal-Display), 0xDA 0x12 (COM-Pins), 0xA1 (Segment-Remap-127), 0xC8
(COM-Scan-Remap), each as a transaction `[0x80, cmd]`, then the 8-page transfer of an
all-zero framebuffer (Clear), then 0xAF (Display-On). -/
theorem C7_Init_command_order (hi2c : I2C_HandleTypeDef) (dev : SH1106_t) (log : I2C_Log)
    (hok : ∀ h c, hi2c h c = HAL_OK) :
    (SH1106_Init hi2c dev log).1 = HAL_OK ∧
    (SH1106_Init hi2c dev log).2.2 =
      log ++ [.IsDeviceReady 0x78 3]
        ++ commandTransactions 0x78
          [0xAE, 0xA4, 0xD5, 0x50, 0xA8, 0x3F, 0xD3, 0x00, 0x40, 0xAD, 0x8B, 0xD9, 0x22, 0xDB,
           0x35, 0x32, 0x81, 0xFF, 0xA6, 0xDA, 0x12, 0xA1, 0xC8]
        ++ screenTransactions 0x78 (List.replicate 1024 0)
        ++ [.Master_Transmit 0x78 [0x80, 0xAF]] := by
  rw [SH1106_Init_all_ok hi2c dev log hok]
  refine ⟨rfl, ?_⟩
  simp only [initTransactionsOf, initCommands, List.append_assoc]

/-- C7 (amended) on a bus where every call succeeds, from the blank device. -/
theorem C7_Init_command_order_witness :
    (∀ h c, readyBus h c = HAL_OK) ∧
    (SH1106_Init readyBus Oled.new.device_ []).1 = HAL_OK :=
  ⟨fun _ _ => rfl, (C7_Init_command_order readyBus Oled.new.device_ [] (fun _ _ => rfl)).1⟩

/-- C8: if the presence probe fails, `SH1106_Init` returns `HAL_ERROR` and `Oled::init`
returns false; the probe is the only bus call made (no transmit transaction), and the
`initialized` flag is false afterwards, so `isInitialized()` returns false. -/
theorem C8_Init_absent_device (hi2c : I2C_HandleTypeDef) (oled : Oled) (log : I2C_Log)
    (hp : hi2c log (.IsDeviceReady 0x78 3) ≠ HAL_OK) :
    (SH1106_Init hi2c oled.device_ log).1 = HAL_ERROR ∧
    (SH1106_Init hi2c oled.device_ log).2.2 = log ++ [.IsDeviceReady 0x78 3] ∧
    (SH1106_Init hi2c oled.device_ log).2.1.initialized = false ∧
    (Oled.init hi2c oled log).1 = false ∧
    (Oled.init hi2c oled log).2.2 = log ++ [.IsDeviceReady 0x78 3] ∧
    (Oled.init hi2c oled log).2.1.isInitialized = false := by
  unfold Oled.init Oled.isInitialized
  rw [SH1106_Init_absent hi2c oled.device_ log hp]
  exact ⟨rfl, rfl, rfl, rfl, rfl, rfl⟩

/-- C8 on a bus where nothing answers, for a facade whose device was marked initialized. -/
theorem C8_Init_absent_device_witness :
    absentBus [] (.IsDeviceReady 0x78 3) ≠ HAL_OK ∧
    (Oled.init absentBus { device_ := { filledDevice with initialized := true } } []).1
      = false ∧
    (Oled.init absentBus { device_ := { filledDevice with initialized := true } } []).2.2
      = [] ++ [.IsDeviceReady 0x78 3] ∧
    (Oled.init absentBus
      { device_ := { filledDevice with initialized := true } } []).2.1.isInitialized = false :=
  ⟨by decide,
    (C8_Init_absent_device absentBus { device_ := { filledDevice with initialized := true } }
      [] (by decide)).2.2.2⟩

/-- The first transaction of a full transfer is the page-select command of page 0. -/
theorem screenTransactions_head (addr : Nat) (fb : List Nat) :
    (screenTransactions addr fb)[0]? = some (.Master_Transmit addr [0x80, 0xB0]) := rfl

/-- After a failed probe, an `Oled::update` whose first transaction is answered with a
failure status has attempted exactly that transaction. -/
theorem Oled_update_after_absent (hi2c : I2C_HandleTypeDef) (oled : Oled) (log : I2C_Log)
    (s : HAL_StatusTypeDef) (hp : hi2c log (.IsDeviceReady 0x78 3) ≠ HAL_OK)
    (hs : s ≠ HAL_OK)
    (hfail : hi2c (log ++ [.IsDeviceReady 0x78 3]) (.Master_Transmit 0x78 [0x80, 0xB0]) = s) :
    (Oled.init hi2c oled log).1 = false ∧
    (Oled.init hi2c oled log).2.1.isInitialized = false ∧
    Oled.update hi2c (Oled.init hi2c oled log).2.1 (Oled.init hi2c oled log).2.2 =
      (false, (Oled.init hi2c oled log).2.1,
        (Oled.init hi2c oled log).2.2 ++ [.Master_Transmit 0x78 [0x80, 0xB0]]) := by
  have hinit : Oled.init hi2c oled log
      = (false, { device_ := initState oled.device_ }, log ++ [.IsDeviceReady 0x78 3]) := by
    unfold Oled.init
    rw [SH1106_Init_absent hi2c oled.device_ log hp]
    rfl
  rw [hinit]
  refine ⟨rfl, rfl, ?_⟩
  unfold Oled.update
  simp only
  rw [SH1106_UpdateScreen_eq hi2c (initState oled.device_) _ (List.length_replicate _ _)]
  have hsend := sendAll_first_failure hi2c
    (screenTransactions (initState oled.device_).address (initState oled.device_).framebuffer)
    (log ++ [.IsDeviceReady 0x78 3]) 0 s hs (fun j c hj _ => absurd hj (Nat.not_lt_zero j))
    ⟨_, screenTransactions_head _ _, by simpa using hfail⟩
  rw [hsend]
  cases s <;> first | exact absurd rfl hs | rfl

/-- C9 as stated fails: on a bus where nothing answers, `init()` fails and leaves
`isInitialized()` false, and the following `update()` returns failure, but it has issued a
bus transaction: the page-select command of page 0 is in the log. -/
theorem C9_update_transmits_counterexample :
    (Oled.init absentBus Oled.new []).1 = false ∧
    (Oled.init absentBus Oled.new []).2.1.isInitialized = false ∧
    (Oled.update absentBus (Oled.init absentBus Oled.new []).2.1
      (Oled.init absentBus Oled.new []).2.2).2.2
      = (Oled.init absentBus Oled.new []).2.2 ++ [.Master_Transmit 0x78 [0x80, 0xB0]] ∧
    (Oled.update absentBus (Oled.init absentBus Oled.new []).2.1
      (Oled.init absentBus Oled.new []).2.2).2.2
      ≠ (Oled.init absentBus Oled.new []).2.2 := by
  have h := Oled_update_after_absent absentBus Oled.new [] HAL_ERROR (by decide) (by decide) rfl
  refine ⟨h.1, h.2.1, ?_, ?_⟩
  · rw [h.2.2]
  · rw [h.2.2]
    simp

/-- C9 (amended): after `init()` has failed on an absent device (`isInitialized()` is
false), a subsequent `update()` does not consult the `initialized` flag: it attempts the
first transaction of the transfer, the page-select command `[0x80, 0xB0]` of page 0; when
that transaction fails, as on a device still absent, `update()` returns failure, that one
attempt is the only bus transaction it issues, and the device state is unchanged. -/
theorem C9_update_after_failed_init (hi2c : I2C_HandleTypeDef) (oled : Oled) (log : I2C_Log)
    (s : HAL_StatusTypeDef) (hp : hi2c log (.IsDeviceReady 0x78 3) ≠ HAL_OK)
    (hs : s ≠ HAL_OK)
    (hfail : hi2c (log ++ [.IsDeviceReady 0x78 3]) (.Master_Transmit 0x78 [0x80, 0xB0]) = s) :
    (Oled.init hi2c oled log).1 = false ∧
    (Oled.init hi2c oled log).2.1.isInitialized = false ∧
    Oled.update hi2c (Oled.init hi2c oled log).2.1 (Oled.init hi2c oled log).2.2 =
      (false, (Oled.init hi2c oled log).2.1,
        (Oled.init hi2c oled log).2.2 ++ [.Master_Transmit 0x78 [0x80, 0xB0]]) :=
  Oled_update_after_absent hi2c oled log s hp hs hfail

/-- C9 (amended) on a bus where nothing answers, from a newly constructed facade. -/
theorem C9_update_after_failed_init_witness :
    Oled.update absentBus (Oled.init absentBus Oled.new []).2.1
        (Oled.init absentBus Oled.new []).2.2 =
      (false, (Oled.init absentBus Oled.new []).2.1,
        (Oled.init absentBus Oled.new []).2.2 ++ [.Master_Transmit 0x78 [0x80, 0xB0]]) :=
  (C9_update_after_failed_init absentBus Oled.new [] HAL_ERROR (by decide) (by decide)
    rfl).2.2

/-! ### The glyph rasterizer -/

/-- The C test `column_data & (1 << row)` is the test of bit `row`. -/
theorem and_shiftLeft_ne_zero_iff (a row : Nat) :
    a &&& (1 <<< row) ≠ 0 ↔ a.testBit row = true := by
  rw [Nat.one_shiftLeft, Nat.and_two_pow]
  cases h : a.testBit row
  · simp
  · simp

/-- The colour written for a font bit: `color` where the bit is set, `!color` where it is
clear; the pixel ends up on exactly when "bit set" and "colour non-zero" agree. -/
theorem decide_glyph_color (a row color : Nat) :
    decide ((if a &&& (1 <<< row) ≠ 0 then color else lnot color) ≠ 0)
      = (a.testBit row == decide (color ≠ 0)) := by
  by_cases hbit : a &&& (1 <<< row) ≠ 0
  · rw [if_pos hbit, (and_shiftLeft_ne_zero_iff a row).mp hbit]
    by_cases hc : color = 0 <;> simp [hc]
  · rw [if_neg hbit]
    have : a.testBit row = false := by
      cases h : a.testBit row
      · rfl
      · exact absurd ((and_shiftLeft_ne_zero_iff a row).mpr h) hbit
    rw [this]
    by_cases hc : color = 0 <;> simp [hc, lnot]

/-- A run of `n` `SH1106_SetPixel` calls down column `px`, rows `y .. y + n - 1`, row `row`
written with colour `c row`: what a pixel of the grid reads afterwards. -/
theorem setPixel_rows (px y : Nat) (c : Nat → Nat) (n : Nat) (hy : y + n ≤ SH1106_HEIGHT)
    (dev : SH1106_t) (h : dev.WF) :
    ((List.range n).foldl (fun d row => SH1106_SetPixel d px ((y + row) % 256) (c row))
        dev).WF ∧
    ∀ p q, p < SH1106_WIDTH →
      ((List.range n).foldl (fun d row => SH1106_SetPixel d px ((y + row) % 256) (c row))
          dev).pixel p q =
        if px < SH1106_WIDTH ∧ p = px ∧ y ≤ q ∧ q < y + n then decide (c (q - y) ≠ 0)
        else dev.pixel p q := by
  induction n with
  | zero =>
    refine ⟨by simpa using h, ?_⟩
    intro p q _
    have : ¬ (px < SH1106_WIDTH ∧ p = px ∧ y ≤ q ∧ q < y + 0) := by omega
    rw [if_neg this]
    rfl
  | succ n ih =>
    have ih' := ih (by omega)
    rw [List.range_succ, List.foldl_append]
    simp only [List.foldl_cons, List.foldl_nil]
    refine ⟨SH1106_SetPixel_WF _ _ _ _ ih'.1, ?_⟩
    intro p q hp
    have hmod : (y + n) % 256 = y + n := Nat.mod_eq_of_lt (by
      simp only [SH1106_HEIGHT] at hy; omega)
    rw [SH1106_SetPixel_pixel _ _ _ _ ih'.1 p q hp, ih'.2 p q hp, hmod]
    by_cases h1 : px < SH1106_WIDTH ∧ y + n < SH1106_HEIGHT ∧ p = px ∧ q = y + n
    · rw [if_pos h1, if_pos (by omega)]
      have : q - y = n := by omega
      rw [this]
    · rw [if_neg h1]
      by_cases h2 : px < SH1106_WIDTH ∧ p = px ∧ y ≤ q ∧ q < y + n
      · rw [if_pos h2, if_pos (by omega)]
      · rw [if_neg h2, if_neg (by omega)]

/-- One glyph column: what `SH1106_DrawChar_column` leaves in the grid. -/
theorem SH1106_DrawChar_column_pixel (dev : SH1106_t) (x y col column_data color : Nat)
    (h : dev.WF) (hx : x + col < SH1106_WIDTH) (hy : y + FONT_HEIGHT ≤ SH1106_HEIGHT) :
    (SH1106_DrawChar_column dev x y col column_data color).WF ∧
    ∀ p q, p < SH1106_WIDTH →
      (SH1106_DrawChar_column dev x y col column_data color).pixel p q =
        if p = x + col ∧ y ≤ q ∧ q < y + FONT_HEIGHT then
          (column_data.testBit (q - y) == decide (color ≠ 0))
        else dev.pixel p q := by
  have hmod : (x + col) % 256 = x + col := Nat.mod_eq_of_lt (by
    simp only [SH1106_WIDTH] at hx; omega)
  have hbody : SH1106_DrawChar_column dev x y col column_data color =
      (List.range FONT_HEIGHT).foldl (fun d row => SH1106_SetPixel d (x + col) ((y + row) % 256)
        (if column_data &&& (1 <<< row) ≠ 0 then color else lnot color)) dev := by
    unfold SH1106_DrawChar_column
    congr 1
    funext d row
    rw [hmod]
    split <;> rfl
  rw [hbody]
  have hrows := setPixel_rows (x + col) y
    (fun row => if column_data &&& (1 <<< row) ≠ 0 then color else lnot color)
    FONT_HEIGHT hy dev h
  refine ⟨hrows.1, ?_⟩
  intro p q hp
  rw [hrows.2 p q hp]
  by_cases hc : p = x + col ∧ y ≤ q ∧ q < y + FONT_HEIGHT
  · rw [if_pos hc, if_pos ⟨hx, hc⟩]
    exact decide_glyph_color column_data (q - y) color
  · rw [if_neg hc, if_neg (fun h2 => hc h2.2)]

/-- The first `n` glyph columns: what the column loop of `SH1106_DrawChar` leaves in the
grid after `n` iterations. -/
theorem SH1106_DrawChar_columns_pixel (font : FontTable) (char_index x y color n : Nat)
    (hx : x + n ≤ SH1106_WIDTH) (hy : y + FONT_HEIGHT ≤ SH1106_HEIGHT)
    (dev : SH1106_t) (h : dev.WF) :
    ((List.range n).foldl (fun d col =>
        SH1106_DrawChar_column d x y col (font char_index col) color) dev).WF ∧
    ∀ p q, p < SH1106_WIDTH →
      ((List.range n).foldl (fun d col =>
          SH1106_DrawChar_column d x y col (font char_index col) color) dev).pixel p q =
        if x ≤ p ∧ p < x + n ∧ y ≤ q ∧ q < y + FONT_HEIGHT then
          ((font char_index (p - x)).testBit (q - y) == decide (color ≠ 0))
        else dev.pixel p q := by
  induction n with
  | zero =>
    refine ⟨by simpa using h, ?_⟩
    intro p q _
    have : ¬ (x ≤ p ∧ p < x + 0 ∧ y ≤ q ∧ q < y + FONT_HEIGHT) := by omega
    rw [if_neg this]
    rfl
  | succ n ih =>
    have ih' := ih (by omega)
    rw [List.range_succ, List.foldl_append]
    simp only [List.foldl_cons, List.foldl_nil]
    have hcol := SH1106_DrawChar_column_pixel _ x y n (font char_index n) color ih'.1
      (by omega) hy
    refine ⟨hcol.1, ?_⟩
    intro p q hp
    rw [hcol.2 p q hp, ih'.2 p q hp]
    by_cases h1 : p = x + n ∧ y ≤ q ∧ q < y + FONT_HEIGHT
    · rw [if_pos h1, if_pos (by omega)]
      have : p - x = n := by omega
      rw [this]
    · rw [if_neg h1]
      by_cases h2 : x ≤ p ∧ p < x + n ∧ y ≤ q ∧ q < y + FONT_HEIGHT
      · rw [if_pos h2, if_pos (by omega)]
      · rw [if_neg h2, if_neg (by omega)]

/-- The spacing column: what `SH1106_DrawChar_spacing` leaves in the grid.  At
`x + FONT_WIDTH = 128` every call is out of bounds and nothing is written. -/
theorem SH1106_DrawChar_spacing_pixel (dev : SH1106_t) (x y color : Nat) (h : dev.WF)
    (hx : x + FONT_WIDTH ≤ SH1106_WIDTH) (hy : y + FONT_HEIGHT ≤ SH1106_HEIGHT) :
    (SH1106_DrawChar_spacing dev x y color).WF ∧
    ∀ p q, p < SH1106_WIDTH →
      (SH1106_DrawChar_spacing dev x y color).pixel p q =
        if p = x + FONT_WIDTH ∧ y ≤ q ∧ q < y + FONT_HEIGHT then decide (color = 0)
        else dev.pixel p q := by
  have hmod : (x + FONT_WIDTH) % 256 = x + FONT_WIDTH := Nat.mod_eq_of_lt (by
    simp only [SH1106_WIDTH] at hx; omega)
  have hbody : SH1106_DrawChar_spacing dev x y color =
      (List.range FONT_HEIGHT).foldl (fun d row =>
        SH1106_SetPixel d (x + FONT_WIDTH) ((y + row) % 256) (lnot color)) dev := by
    unfold SH1106_DrawChar_spacing
    rw [hmod]
  rw [hbody]
  have hrows := setPixel_rows (x + FONT_WIDTH) y (fun _ => lnot color) FONT_HEIGHT hy dev h
  refine ⟨hrows.1, ?_⟩
  intro p q hp
  rw [hrows.2 p q hp]
  by_cases hc : p = x + FONT_WIDTH ∧ y ≤ q ∧ q < y + FONT_HEIGHT
  · rw [if_pos hc, if_pos ⟨by omega, hc⟩]
    by_cases hcol : color = 0 <;> simp [hcol, lnot]
  · rw [if_neg hc, if_neg (fun h2 => hc h2.2)]

/-- What `SH1106_DrawChar` returns and leaves in the grid when the glyph box fits. -/
theorem SH1106_DrawChar_pixel (font : FontTable) (dev : SH1106_t) (x y : Nat) (ch : Int)
    (color : Nat) (h : dev.WF) (hx : x + FONT_WIDTH ≤ SH1106_WIDTH)
    (hy : y + FONT_HEIGHT ≤ SH1106_HEIGHT) :
    (SH1106_DrawChar font dev x y ch color).1 = FONT_WIDTH + 1 ∧
    (SH1106_DrawChar font dev x y ch color).2.WF ∧
    ∀ p q, p < SH1106_WIDTH →
      (SH1106_DrawChar font dev x y ch color).2.pixel p q =
        if y ≤ q ∧ q < y + FONT_HEIGHT ∧ x ≤ p ∧ p ≤ x + FONT_WIDTH then
          (if p < x + FONT_WIDTH then
            ((font (SH1106_DrawChar_index ch) (p - x)).testBit (q - y) == decide (color ≠ 0))
          else decide (color = 0))
        else dev.pixel p q := by
  have hcols := SH1106_DrawChar_columns_pixel font (SH1106_DrawChar_index ch) x y color
    FONT_WIDTH hx hy dev h
  have hsp := SH1106_DrawChar_spacing_pixel _ x y color hcols.1 hx hy
  have hnot : ¬ (x + FONT_WIDTH > SH1106_WIDTH ∨ y + FONT_HEIGHT > SH1106_HEIGHT) := by omega
  unfold SH1106_DrawChar
  rw [if_neg hnot]
  refine ⟨rfl, hsp.1, ?_⟩
  intro p q hp
  simp only
  rw [hsp.2 p q hp, hcols.2 p q hp]
  by_cases h1 : p = x + FONT_WIDTH ∧ y ≤ q ∧ q < y + FONT_HEIGHT
  · rw [if_pos h1, if_pos (by omega), if_neg (by omega)]
  · rw [if_neg h1]
    by_cases h2 : x ≤ p ∧ p < x + FONT_WIDTH ∧ y ≤ q ∧ q < y + FONT_HEIGHT
    · rw [if_pos h2, if_pos (by omega), if_pos h2.2.1]
    · rw [if_neg h2, if_neg (by omega)]

/-- The glyph index of a character: the offset from `0x20` inside the font range, the index
of `?` outside it. -/
theorem SH1106_DrawChar_index_eq (ch : Int) :
    SH1106_DrawChar_index ch =
      if 0x20 ≤ ch ∧ ch ≤ 0x7E then (ch - 0x20).toNat else 31 := by
  unfold SH1106_DrawChar_index
  by_cases h : 0x20 ≤ ch ∧ ch ≤ 0x7E
  · have hn : ¬ (ch < FONT_FIRST_CHAR ∨ ch > FONT_LAST_CHAR) := by
      simp only [FONT_FIRST_CHAR, FONT_LAST_CHAR]; omega
    simp only [hn, if_false, if_pos h, FONT_FIRST_CHAR]
    congr 1
    omega
  · have hn : ch < FONT_FIRST_CHAR ∨ ch > FONT_LAST_CHAR := by
      simp only [FONT_FIRST_CHAR, FONT_LAST_CHAR]; omega
    simp only [hn, if_true, if_neg h]
    rfl

/-! ### C10: drawing one character -/

/-- C10: for every font table, framebuffer, character and colour, and every `(x, y)` with
`x + 5 <= 128` and `y + 7 <= 64`, `SH1106_DrawChar` returns 6 and overwrites the full cell:
for `col` in 0..4 and `row` in 0..6 pixel `(x + col, y + row)` becomes on iff (bit `row` of
the glyph's column byte `col` is set) = (`color != 0`), the glyph being the one at index
`ch - 0x20` for `ch` in `0x20 .. 0x7E` and the one of `?` (index 31) otherwise; the spacing
column `x + 5`, rows `y .. y + 6`, becomes on iff `color == 0` when `x + 5 < 128` (it is
dropped when `x + 5 = 128`); every pixel of the grid outside that 6x7 cell is unchanged. -/
theorem C10_DrawChar_cell (font : FontTable) (dev : SH1106_t) (x y : Nat) (ch : Int)
    (color : Nat) (h : dev.WF) (hx : x + 5 ≤ 128) (hy : y + 7 ≤ 64) :
    (SH1106_DrawChar font dev x y ch color).1 = 6 ∧
    SH1106_DrawChar_index ch = (if 0x20 ≤ ch ∧ ch ≤ 0x7E then (ch - 0x20).toNat else 31) ∧
    (∀ col row, col < 5 → row < 7 →
      (SH1106_DrawChar font dev x y ch color).2.pixel (x + col) (y + row) =
        ((font (SH1106_DrawChar_index ch) col).testBit row == decide (color ≠ 0))) ∧
    (∀ row, row < 7 → x + 5 < 128 →
      (SH1106_DrawChar font dev x y ch color).2.pixel (x + 5) (y + row) = decide (color = 0)) ∧
    (∀ p q, p < 128 → q < 64 → ¬ (x ≤ p ∧ p ≤ x + 5 ∧ y ≤ q ∧ q < y + 7) →
      (SH1106_DrawChar font dev x y ch color).2.pixel p q = dev.pixel p q) := by
  have hd := SH1106_DrawChar_pixel font dev x y ch color h hx hy
  refine ⟨hd.1, SH1106_DrawChar_index_eq ch, ?_, ?_, ?_⟩
  · intro col row hcol hrow
    rw [hd.2.2 (x + col) (y + row) (by simp only [SH1106_WIDTH]; omega),
      if_pos (by simp only [FONT_HEIGHT, FONT_WIDTH]; omega),
      if_pos (by simp only [FONT_WIDTH]; omega)]
    have h1 : x + col - x = col := by omega
    have h2 : y + row - y = row := by omega
    rw [h1, h2]
  · intro row hrow hx5
    rw [hd.2.2 (x + 5) (y + row) hx5,
      if_pos (by simp only [FONT_HEIGHT, FONT_WIDTH]; omega),
      if_neg (by simp only [FONT_WIDTH]; omega)]
  · intro p q hp _ hout
    rw [hd.2.2 p q hp, if_neg (by simp only [FONT_HEIGHT, FONT_WIDTH]; omega)]

/-- C10 for the letter `A` of the sample font, drawn in colour 1 at (0, 0) on the blank
device. -/
theorem C10_DrawChar_cell_witness :
    Oled.new.device_.WF ∧ 0 + 5 ≤ 128 ∧ 0 + 7 ≤ 64 ∧
    (SH1106_DrawChar sampleFont Oled.new.device_ 0 0 0x41 1).1 = 6 ∧
    (∀ col row, col < 5 → row < 7 →
      (SH1106_DrawChar sampleFont Oled.new.device_ 0 0 0x41 1).2.pixel (0 + col) (0 + row) =
        ((sampleFont (SH1106_DrawChar_index 0x41) col).testBit row
          == decide ((1 : Nat) ≠ 0))) :=
  ⟨Oled_new_WF, by decide, by decide,
    (C10_DrawChar_cell sampleFont Oled.new.device_ 0 0 0x41 1 Oled_new_WF (by decide)
      (by decide)).1,
    (C10_DrawChar_cell sampleFont Oled.new.device_ 0 0 0x41 1 Oled_new_WF (by decide)
      (by decide)).2.2.1⟩

/-! ### Text drawing: rejection, fallback glyph, strings -/

/-- `SH1106_DrawChar` rejects a glyph box that leaves the store: width 0, state untouched. -/
theorem SH1106_DrawChar_reject (font : FontTable) (dev : SH1106_t) (x y : Nat) (ch : Int)
    (color : Nat) (h : x + FONT_WIDTH > SH1106_WIDTH ∨ y + FONT_HEIGHT > SH1106_HEIGHT) :
    SH1106_DrawChar font dev x y ch color = (0, dev) := by
  unfold SH1106_DrawChar
  rw [if_pos h]

/-- `SH1106_DrawChar` returns 6 for a glyph box inside the store. -/
theorem SH1106_DrawChar_width (font : FontTable) (dev : SH1106_t) (x y : Nat) (ch : Int)
    (color : Nat) (h : ¬ (x + FONT_WIDTH > SH1106_WIDTH ∨ y + FONT_HEIGHT > SH1106_HEIGHT)) :
    (SH1106_DrawChar font dev x y ch color).1 = 6 := by
  unfold SH1106_DrawChar
  rw [if_neg h]

/-- Whatever its arguments, `SH1106_DrawChar` keeps the framebuffer well formed and changes
no pixel of the grid outside the 6x7 cell at `(x, y)`. -/
theorem SH1106_DrawChar_frame (font : FontTable) (dev : SH1106_t) (x y : Nat) (ch : Int)
    (color : Nat) (h : dev.WF) :
    (SH1106_DrawChar font dev x y ch color).2.WF ∧
    ∀ p q, p < SH1106_WIDTH → ¬ (x ≤ p ∧ p ≤ x + 5 ∧ y ≤ q ∧ q < y + 7) →
      (SH1106_DrawChar font dev x y ch color).2.pixel p q = dev.pixel p q := by
  by_cases hout : x + FONT_WIDTH > SH1106_WIDTH ∨ y + FONT_HEIGHT > SH1106_HEIGHT
  · rw [SH1106_DrawChar_reject font dev x y ch color hout]
    exact ⟨h, fun _ _ _ _ => rfl⟩
  · have hd := SH1106_DrawChar_pixel font dev x y ch color h (by omega) (by omega)
    refine ⟨hd.2.1, ?_⟩
    intro p q hp hcell
    rw [hd.2.2 p q hp, if_neg (by simp only [FONT_HEIGHT, FONT_WIDTH]; omega)]

/-- The string loop keeps the framebuffer well formed and changes no pixel to the left of
its start column or outside the text rows `y .. y + 6`. -/
theorem SH1106_DrawString_loop_frame (font : FontTable) (x y color : Nat) (str : List Int)
    (dev : SH1106_t) (current_x total_width : Nat) (h : dev.WF) (hx : x ≤ current_x) :
    (SH1106_DrawString_loop font y color str dev current_x total_width).2.WF ∧
    ∀ p q, p < SH1106_WIDTH → ¬ (x ≤ p ∧ y ≤ q ∧ q < y + 7) →
      (SH1106_DrawString_loop font y color str dev current_x total_width).2.pixel p q
        = dev.pixel p q := by
  induction str generalizing dev current_x total_width with
  | nil => exact ⟨h, fun _ _ _ _ => rfl⟩
  | cons ch str ih =>
    unfold SH1106_DrawString_loop
    by_cases hfit : current_x + FONT_WIDTH > SH1106_WIDTH
    · rw [if_pos hfit]
      exact ⟨h, fun _ _ _ _ => rfl⟩
    · rw [if_neg hfit]
      have hc := SH1106_DrawChar_frame font dev current_x y ch color h
      have hw : (SH1106_DrawChar font dev current_x y ch color).1 ≤ 6 := by
        by_cases hout : current_x + FONT_WIDTH > SH1106_WIDTH ∨ y + FONT_HEIGHT > SH1106_HEIGHT
        · rw [SH1106_DrawChar_reject font dev current_x y ch color hout]
          exact Nat.zero_le _
        · rw [SH1106_DrawChar_width font dev current_x y ch color hout]
      have hnext : x ≤ (current_x + (SH1106_DrawChar font dev current_x y ch color).1) % 256 := by
        simp only [FONT_WIDTH, SH1106_WIDTH] at hfit
        omega
      have hrec := ih (SH1106_DrawChar font dev current_x y ch color).2
        ((current_x + (SH1106_DrawChar font dev current_x y ch color).1) % 256)
        ((total_width + (SH1106_DrawChar font dev current_x y ch color).1) % 65536)
        hc.1 hnext
      refine ⟨hrec.1, ?_⟩
      intro p q hp hout
      rw [hrec.2 p q hp hout, hc.2 p q hp (by omega)]

/-- `fitCount x` counts the `j` with `x + 6 * j + 5 <= 128`. -/
theorem fitCount_spec (x j : Nat) : j < fitCount x ↔ x + 6 * j + 5 ≤ 128 := by
  unfold fitCount
  split <;> omega

/-- One more character fits exactly when the box at `x` fits. -/
theorem fitCount_step (x : Nat) :
    fitCount x = if x + FONT_WIDTH > SH1106_WIDTH then 0 else fitCount (x + 6) + 1 := by
  unfold fitCount
  simp only [FONT_WIDTH, SH1106_WIDTH]
  split_ifs <;> omega

/-- With the text rows on the display, the string loop draws the characters that fit, 6
columns apart, and adds 6 to the width for each. -/
theorem SH1106_DrawString_loop_eq (font : FontTable) (y color : Nat)
    (hy : y + FONT_HEIGHT ≤ SH1106_HEIGHT) (str : List Int) (dev : SH1106_t)
    (current_x total_width : Nat) (hw : total_width < 65536) :
    SH1106_DrawString_loop font y color str dev current_x total_width =
      ((total_width + 6 * min str.length (fitCount current_x)) % 65536,
        drawCharsFrom font y color (str.take (min str.length (fitCount current_x)))
          dev current_x) := by
  induction str generalizing dev current_x total_width with
  | nil =>
    simp only [SH1106_DrawString_loop, List.length_nil, Nat.zero_min, Nat.mul_zero,
      Nat.add_zero, List.take_nil, drawCharsFrom]
    rw [Nat.mod_eq_of_lt hw]
  | cons ch str ih =>
    unfold SH1106_DrawString_loop
    rw [fitCount_step current_x]
    by_cases hfit : current_x + FONT_WIDTH > SH1106_WIDTH
    · rw [if_pos hfit, if_pos hfit]
      simp only [Nat.min_zero, Nat.mul_zero, Nat.add_zero, List.take_zero, drawCharsFrom]
      rw [Nat.mod_eq_of_lt hw]
    · rw [if_neg hfit, if_neg hfit]
      have hwidth := SH1106_DrawChar_width font dev current_x y ch color (by omega)
      have hcx : (current_x + 6) % 256 = current_x + 6 := by
        simp only [FONT_WIDTH, SH1106_WIDTH] at hfit
        omega
      simp only [hwidth, hcx]
      rw [ih _ _ _ (Nat.mod_lt _ (by decide))]
      have hmin : min (ch :: str).length (fitCount (current_x + 6) + 1)
          = min str.length (fitCount (current_x + 6)) + 1 := by
        simp only [List.length_cons]
        omega
      rw [hmin, List.take_succ_cons]
      simp only [drawCharsFrom]
      congr 1
      omega

/-! ### C11 - C14: rejection, fallback glyph, strings -/

/-- C11: `SH1106_DrawChar` returns 0 and leaves the device state (the framebuffer with it)
unchanged if and only if the glyph box would leave the store, i.e. `x + 5 > 128` or
`y + 7 > 64`; in every other case it returns 6. -/
theorem C11_DrawChar_rejects_iff (font : FontTable) (dev : SH1106_t) (x y : Nat) (ch : Int)
    (color : Nat) :
    (((SH1106_DrawChar font dev x y ch color).1 = 0 ∧
        (SH1106_DrawChar font dev x y ch color).2 = dev) ↔ (x + 5 > 128 ∨ y + 7 > 64)) ∧
    (¬ (x + 5 > 128 ∨ y + 7 > 64) → (SH1106_DrawChar font dev x y ch color).1 = 6) := by
  constructor
  · constructor
    · intro h
      by_contra hin
      have hw := SH1106_DrawChar_width font dev x y ch color hin
      rw [h.1] at hw
      exact absurd hw (by decide)
    · intro hout
      rw [SH1106_DrawChar_reject font dev x y ch color hout]
      exact ⟨rfl, rfl⟩
  · intro hin
    exact SH1106_DrawChar_width font dev x y ch color hin

/-- C11 at the last column that takes a glyph (123) and the first that does not (124). -/
theorem C11_DrawChar_rejects_iff_witness :
    (SH1106_DrawChar sampleFont filledDevice 123 57 0x41 1).1 = 6 ∧
    (((SH1106_DrawChar sampleFont filledDevice 124 57 0x41 1).1 = 0 ∧
        (SH1106_DrawChar sampleFont filledDevice 124 57 0x41 1).2 = filledDevice) ↔
      (124 + 5 > 128 ∨ 57 + 7 > 64)) :=
  ⟨(C11_DrawChar_rejects_iff sampleFont filledDevice 123 57 0x41 1).2 (by decide),
    (C11_DrawChar_rejects_iff sampleFont filledDevice 124 57 0x41 1).1⟩

/-- C12: for every character code outside `0x20 .. 0x7E` (negative values of a signed `char`
included), every position, colour and device state, `SH1106_DrawChar` gives the same state
and the same return value as drawing the fallback character `?` (63) with the same
arguments. -/
theorem C12_DrawChar_fallback (font : FontTable) (dev : SH1106_t) (x y : Nat) (ch : Int)
    (color : Nat) (hout : ch < 0x20 ∨ ch > 0x7E) :
    SH1106_DrawChar font dev x y ch color = SH1106_DrawChar font dev x y 63 color := by
  have h1 : SH1106_DrawChar_index ch = 31 := by
    rw [SH1106_DrawChar_index_eq, if_neg (by omega)]
  have h2 : SH1106_DrawChar_index 63 = 31 := rfl
  unfold SH1106_DrawChar
  rw [h1, h2]

/-- C12 for the character code -3 (a negative `signed char`). -/
theorem C12_DrawChar_fallback_witness :
    ((-3 : Int) < 0x20 ∨ (-3 : Int) > 0x7E) ∧
    SH1106_DrawChar sampleFont Oled.new.device_ 10 20 (-3) 1
      = SH1106_DrawChar sampleFont Oled.new.device_ 10 20 63 1 :=
  ⟨by decide, C12_DrawChar_fallback sampleFont Oled.new.device_ 10 20 (-3) 1 (by decide)⟩

/-- C13: for every string, every start `x` (below 128 or not), every `y` and colour,
`SH1106_DrawString` keeps the framebuffer a 1024-byte array and changes no pixel of the grid
outside columns `x .. 127` and rows `y .. y + 6`; nothing is written at a column `>= 128`:
in particular no pixel of column 0 changes when `x > 0`, so the spacing column of a
character placed at 123 does not wrap into column 0 of the next page. -/
theorem C13_DrawString_frame (font : FontTable) (dev : SH1106_t) (x y : Nat)
    (str : List Int) (color : Nat) (h : dev.WF) :
    (SH1106_DrawString font dev x y str color).2.WF ∧
    (∀ p q, p < 128 → q < 64 → ¬ (x ≤ p ∧ y ≤ q ∧ q < y + 7) →
      (SH1106_DrawString font dev x y str color).2.pixel p q = dev.pixel p q) ∧
    (0 < x → ∀ q, q < 64 →
      (SH1106_DrawString font dev x y str color).2.pixel 0 q = dev.pixel 0 q) := by
  have hf := SH1106_DrawString_loop_frame font x y color str dev x 0 h (Nat.le_refl x)
  unfold SH1106_DrawString
  refine ⟨hf.1, fun p q hp _ hout => hf.2 p q hp hout, ?_⟩
  intro hx0 q _
  exact hf.2 0 q (by decide) (by omega)

/-- C13 for a two-character string started at column 123 on the all-on device. -/
theorem C13_DrawString_frame_witness :
    filledDevice.WF ∧
    (∀ q, q < 64 →
      (SH1106_DrawString sampleFont filledDevice 123 8 [0x41, 0x42] 0).2.pixel 0 q
        = filledDevice.pixel 0 q) :=
  ⟨filledDevice_WF,
    (C13_DrawString_frame sampleFont filledDevice 123 8 [0x41, 0x42] 0
      filledDevice_WF).2.2 (by decide)⟩

/-- C14: for every string of `n` characters, every `x` and every `y <= 57`,
`SH1106_DrawString` (a total function: the loop ends with the string at the latest) draws
exactly the first `k = min(n, K)` characters, left to right at columns
`x, x + 6, ..., x + 6 (k - 1)`, where `K = fitCount x` is the number of `j >= 0` with
`x + 6 j + 5 <= 128`; it draws none of the remaining characters and returns `6 * k`. -/
theorem C14_DrawString_draws_fitting (font : FontTable) (dev : SH1106_t) (x y : Nat)
    (str : List Int) (color : Nat) (hy : y ≤ 57) :
    (∀ j, j < fitCount x ↔ x + 6 * j + 5 ≤ 128) ∧
    SH1106_DrawString font dev x y str color =
      (6 * min str.length (fitCount x),
        drawCharsFrom font y color (str.take (min str.length (fitCount x))) dev x) := by
  refine ⟨fitCount_spec x, ?_⟩
  unfold SH1106_DrawString
  rw [SH1106_DrawString_loop_eq font y color (by simp only [FONT_HEIGHT, SH1106_HEIGHT]; omega)
    str dev x 0 (by decide)]
  have hk : min str.length (fitCount x) ≤ 21 := by
    have : fitCount x ≤ 21 := by
      unfold fitCount
      split <;> omega
    omega
  congr 1
  omega

/-- C14 for a five-character string started at column 110: three characters fit. -/
theorem C14_DrawString_draws_fitting_witness :
    57 ≤ 57 ∧
    SH1106_DrawString sampleFont Oled.new.device_ 110 57 [0x41, 0x42, 0x41, 0x43, 0x41] 1 =
      (18, drawCharsFrom sampleFont 57 1 [0x41, 0x42, 0x41] Oled.new.device_ 110) :=
  ⟨by decide,
    (C14_DrawString_draws_fitting sampleFont Oled.new.device_ 110 57
      [0x41, 0x42, 0x41, 0x43, 0x41] 1 (by decide)).2⟩

/-! ### Waveform drawing: the two line primitives -/

/-- `toInt16` is the identity on the range of `int16_t`. -/
theorem toInt16_of_range (v : Int) (h1 : -32768 ≤ v) (h2 : v ≤ 32767) : toInt16 v = v := by
  unfold toInt16
  omega

/-- `Oled::setPixel` is `SH1106_SetPixel` on the device. -/
theorem Oled.setPixel_device (self : Oled) (x y color : Nat) :
    (self.setPixel x y color).device_ = SH1106_SetPixel self.device_ x y color := rfl

/-- The row loop of a vertical edge whose larger row is below 255: started at row `py` with
enough fuel it ends, and it has written the rows `py .. max` of column `current_x` that lie
on the display. -/
theorem Oled.drawLogicSignal_vline_pixel (current_x : Int) (y_start y_end color : Nat)
    (hcx : 0 ≤ current_x ∧ current_x < SH1106_WIDTH)
    (hhi : (if y_start > y_end then y_start else y_end) < 255)
    (fuel : Nat) (self : Oled) (py : Nat) (h : self.device_.WF)
    (hpy : py ≤ (if y_start > y_end then y_start else y_end) + 1)
    (hfuel : (if y_start > y_end then y_start else y_end) + 2 ≤ fuel + py) :
    ∃ self', Oled.drawLogicSignal_vline current_x y_start y_end color fuel self py
        = some self' ∧ self'.device_.WF ∧
      ∀ p q, p < SH1106_WIDTH →
        self'.device_.pixel p q =
          if (p : Int) = current_x ∧ py ≤ q ∧
              q ≤ (if y_start > y_end then y_start else y_end) ∧ q < SH1106_HEIGHT then
            decide (color ≠ 0)
          else self.device_.pixel p q := by
  generalize hhidef : (if y_start > y_end then y_start else y_end) = hi at *
  induction fuel generalizing self py with
  | zero => omega
  | succ fuel ih =>
    unfold Oled.drawLogicSignal_vline
    rw [hhidef]
    by_cases hle : py ≤ hi
    · rw [if_pos hle]
      have hnext : (py + 1) % 256 = py + 1 := by omega
      rw [hnext]
      by_cases hrow : py < SH1106_HEIGHT
      · simp only [hrow, if_true]
        have hwf := SH1106_SetPixel_WF self.device_ (current_x % 256).toNat py color h
        obtain ⟨self', hs, hwf', hpix⟩ := ih (self.setPixel (current_x % 256).toNat py color)
          (py + 1) hwf (by omega) (by omega)
        refine ⟨self', hs, hwf', ?_⟩
        intro p q hp
        rw [hpix p q hp, Oled.setPixel_device,
          SH1106_SetPixel_pixel self.device_ _ py color h p q hp]
        have hcol : ((current_x % 256).toNat : Int) = current_x := by
          simp only [SH1106_WIDTH] at hcx
          omega
        have hcol2 : (current_x % 256).toNat < SH1106_WIDTH := by
          simp only [SH1106_WIDTH] at hcx ⊢
          omega
        by_cases h1 : (p : Int) = current_x ∧ py + 1 ≤ q ∧ q ≤ hi ∧ q < SH1106_HEIGHT
        · rw [if_pos h1, if_pos (by omega)]
        · rw [if_neg h1]
          by_cases h2 : (current_x % 256).toNat < SH1106_WIDTH ∧ py < SH1106_HEIGHT ∧
              p = (current_x % 256).toNat ∧ q = py
          · rw [if_pos h2, if_pos (by omega)]
          · rw [if_neg h2, if_neg (by omega)]
      · simp only [hrow, if_false]
        obtain ⟨self', hs, hwf', hpix⟩ := ih self (py + 1) h (by omega) (by omega)
        refine ⟨self', hs, hwf', ?_⟩
        intro p q hp
        rw [hpix p q hp]
        by_cases h1 : (p : Int) = current_x ∧ py + 1 ≤ q ∧ q ≤ hi ∧ q < SH1106_HEIGHT
        · rw [if_pos h1, if_pos (by omega)]
        · rw [if_neg h1, if_neg (by omega)]
    · rw [if_neg hle]
      refine ⟨self, rfl, h, ?_⟩
      intro p q _
      rw [if_neg (by omega)]

/-- A run of `n` guarded `setPixel` calls along row `y_level`, columns
`current_x .. current_x + n - 1`, with the `int16_t` column inside its range: what a pixel of
the grid reads afterwards. -/
theorem hline_fold_pixel (current_x : Int) (y_level color n : Nat)
    (hlo : -32768 ≤ current_x) (hhi : current_x + n ≤ 32768) (self : Oled)
    (h : self.device_.WF) :
    ((List.range n).foldl (fun self (dx : Nat) =>
        if toInt16 (current_x + (dx : Int)) ≥ 0 ∧ toInt16 (current_x + (dx : Int)) < SH1106_WIDTH ∧
            y_level < SH1106_HEIGHT then
          Oled.setPixel self (toInt16 (current_x + (dx : Int)) % 256).toNat y_level color
        else self) self).device_.WF ∧
    ∀ p q, p < SH1106_WIDTH →
      ((List.range n).foldl (fun self (dx : Nat) =>
          if toInt16 (current_x + (dx : Int)) ≥ 0 ∧ toInt16 (current_x + (dx : Int)) < SH1106_WIDTH ∧
              y_level < SH1106_HEIGHT then
            Oled.setPixel self (toInt16 (current_x + (dx : Int)) % 256).toNat y_level color
          else self) self).device_.pixel p q =
        if q = y_level ∧ y_level < SH1106_HEIGHT ∧ current_x ≤ p ∧ (p : Int) < current_x + n
        then decide (color ≠ 0)
        else self.device_.pixel p q := by
  induction n with
  | zero =>
    refine ⟨by simpa using h, ?_⟩
    intro p q _
    rw [if_neg (by omega)]
    rfl
  | succ n ih =>
    have ih' := ih (by omega)
    rw [List.range_succ, List.foldl_append]
    simp only [List.foldl_cons, List.foldl_nil]
    have hid : toInt16 (current_x + n) = current_x + n :=
      toInt16_of_range _ (by omega) (by omega)
    rw [hid]
    by_cases hdraw : current_x + (n : Int) ≥ 0 ∧ current_x + (n : Int) < SH1106_WIDTH ∧
        y_level < SH1106_HEIGHT
    · rw [if_pos hdraw]
      refine ⟨SH1106_SetPixel_WF _ _ _ _ ih'.1, ?_⟩
      intro p q hp
      rw [Oled.setPixel_device, SH1106_SetPixel_pixel _ _ _ _ ih'.1 p q hp, ih'.2 p q hp]
      have hcol : (((current_x + n) % 256).toNat : Int) = current_x + n := by
        simp only [SH1106_WIDTH] at hdraw
        omega
      by_cases h1 : ((current_x + n) % 256).toNat < SH1106_WIDTH ∧ y_level < SH1106_HEIGHT ∧
          p = ((current_x + n) % 256).toNat ∧ q = y_level
      · rw [if_pos h1, if_pos (by push_cast; omega)]
      · rw [if_neg h1]
        have hcol2 : ((current_x + n) % 256).toNat < SH1106_WIDTH := by
          simp only [SH1106_WIDTH] at hdraw ⊢
          omega
        by_cases h2 : q = y_level ∧ y_level < SH1106_HEIGHT ∧ current_x ≤ p ∧
            (p : Int) < current_x + n
        · rw [if_pos h2, if_pos (by push_cast; omega)]
        · rw [if_neg h2, if_neg (by push_cast; omega)]
    · rw [if_neg hdraw]
      refine ⟨ih'.1, ?_⟩
      intro p q hp
      rw [ih'.2 p q hp]
      by_cases h2 : q = y_level ∧ y_level < SH1106_HEIGHT ∧ current_x ≤ p ∧
          (p : Int) < current_x + n
      · rw [if_pos h2, if_pos (by push_cast; omega)]
      · rw [if_neg h2, if_neg (by
          simp only [SH1106_WIDTH] at hdraw hp
          push_cast
          omega)]

/-! ### Waveform drawing: the run loop -/

theorem runTotal_cons (b : Nat) (data : List Nat) :
    runTotal (b :: data) = runLength b + runTotal data := by
  simp [runTotal]

theorem runTotal_nil : runTotal [] = 0 := rfl

/-- `truncHalf` is monotone. -/
theorem truncHalf_mono {a b : Int} (h : a ≤ b) : truncHalf a ≤ truncHalf b := by
  unfold truncHalf
  split <;> split <;> omega

/-- The cursor of run `k + 1` of `b :: rest` is the cursor of run `k` of `rest`, started
after run `b`. -/
theorem cursorAt_cons_succ (zoom2 : Nat) (b : Nat) (rest : List Nat) (cur2 : Int) (k : Nat) :
    cursorAt zoom2 (b :: rest) cur2 (k + 1)
      = cursorAt zoom2 rest (cur2 + ((runLength b * zoom2 : Nat) : Int)) k := by
  unfold cursorAt
  rw [List.take_succ_cons, runTotal_cons]
  push_cast
  ring

theorem cursorAt_zero (zoom2 : Nat) (data : List Nat) (cur2 : Int) :
    cursorAt zoom2 data cur2 0 = cur2 := by
  simp [cursorAt, runTotal_nil]

/-- The cursor never moves left. -/
theorem cursorAt_ge (zoom2 : Nat) (data : List Nat) (cur2 : Int) (k : Nat) :
    cur2 ≤ cursorAt zoom2 data cur2 k := by
  unfold cursorAt
  omega

theorem prevLevel_cons_succ (b : Nat) (rest : List Nat) (cv k : Nat) :
    prevLevel (b :: rest) cv (k + 1) = prevLevel rest (runLevel b) k := by
  unfold prevLevel
  cases k with
  | zero => simp
  | succ k => simp

/-- Unfolding of `signalCoversFrom` along the loop, for a pixel of the grid: a pixel is
written by the edge or the line of the first run, or, if the loop goes on after the first
run, by the rest of the loop. -/
theorem signalCoversFrom_cons (y height zoom2 b : Nat) (rest : List Nat) (i : Nat)
    (cur2 : Int) (cv p q : Nat) (hp : p < SH1106_WIDTH) :
    signalCoversFrom y height zoom2 (b :: rest) i cur2 cv p q ↔
      (onEdge y height zoom2 (b :: rest) i cur2 cv 0 p q ∨
        onRun y height zoom2 (b :: rest) cur2 0 p q ∨
        (cur2 + ((runLength b * zoom2 : Nat) : Int) < 2 * SH1106_WIDTH ∧
          signalCoversFrom y height zoom2 rest (i + 1)
            (cur2 + ((runLength b * zoom2 : Nat) : Int)) (runLevel b) p q)) := by
  have hedge : ∀ k, onEdge y height zoom2 (b :: rest) i cur2 cv (k + 1) p q ↔
      onEdge y height zoom2 rest (i + 1) (cur2 + ((runLength b * zoom2 : Nat) : Int))
        (runLevel b) k p q := by
    intro k
    unfold onEdge
    rw [cursorAt_cons_succ, prevLevel_cons_succ, List.getD_cons_succ]
    have : i + (k + 1) = i + 1 + k := by omega
    rw [this]
  have hrun : ∀ k, onRun y height zoom2 (b :: rest) cur2 (k + 1) p q ↔
      onRun y height zoom2 rest (cur2 + ((runLength b * zoom2 : Nat) : Int)) k p q := by
    intro k
    unfold onRun
    rw [cursorAt_cons_succ, List.getD_cons_succ]
  have hreach : ∀ k, (onEdge y height zoom2 rest (i + 1)
        (cur2 + ((runLength b * zoom2 : Nat) : Int)) (runLevel b) k p q ∨
      onRun y height zoom2 rest (cur2 + ((runLength b * zoom2 : Nat) : Int)) k p q) →
      cur2 + ((runLength b * zoom2 : Nat) : Int) < 2 * SH1106_WIDTH := by
    intro k hk
    have hmono := truncHalf_mono
      (cursorAt_ge zoom2 rest (cur2 + ((runLength b * zoom2 : Nat) : Int)) k)
    have hcol : truncHalf (cursorAt zoom2 rest (cur2 + ((runLength b * zoom2 : Nat) : Int)) k)
        ≤ (p : Int) := by
      rcases hk with hk | hk
      · exact le_of_eq hk.2.2.1.symm
      · exact hk.2.1
    have h2 : truncHalf (cur2 + ((runLength b * zoom2 : Nat) : Int)) ≤ (p : Int) :=
      le_trans hmono hcol
    unfold truncHalf at h2
    simp only [SH1106_WIDTH] at hp ⊢
    split at h2 <;> omega
  constructor
  · rintro ⟨k, hk, hcov⟩
    cases k with
    | zero =>
      rcases hcov with hcov | hcov
      · exact Or.inl hcov
      · exact Or.inr (Or.inl hcov)
    | succ k =>
      rw [hedge, hrun] at hcov
      refine Or.inr (Or.inr ⟨hreach k hcov, k, ?_, hcov⟩)
      simpa using hk
  · rintro (hcov | hcov | ⟨_, k, hk, hcov⟩)
    · exact ⟨0, by simp, Or.inl hcov⟩
    · exact ⟨0, by simp, Or.inr hcov⟩
    · refine ⟨k + 1, by simpa using hk, ?_⟩
      rw [hedge, hrun]
      exact hcov

/-- The vertical transition of one run, for level rows below 255: it returns, and it has
written the rows between the two level rows at the cursor column exactly when the run is not
the first one, the level changes and the cursor column is on the display. -/
theorem Oled.drawLogicSignal_edge_pixel (self : Oled) (y height color i value cv : Nat)
    (current_x : Int) (h : self.device_.WF) (hy : y < 255)
    (hlow : (y + height + 255) % 256 < 255) :
    ∃ self', self.drawLogicSignal_edge y height color i value cv current_x = some self' ∧
      self'.device_.WF ∧
      ∀ p q, p < SH1106_WIDTH → q < SH1106_HEIGHT →
        self'.device_.pixel p q =
          if 0 < i ∧ value ≠ cv ∧ (p : Int) = current_x ∧
              min (levelRow y height cv) (levelRow y height value) ≤ q ∧
              q ≤ max (levelRow y height cv) (levelRow y height value) then
            decide (color ≠ 0)
          else self.device_.pixel p q := by
  have hrow : ∀ v, levelRow y height v < 255 := by
    intro v
    unfold levelRow
    split <;> omega
  unfold Oled.drawLogicSignal_edge
  by_cases hcond : i > 0 ∧ value ≠ cv
  · rw [if_pos hcond]
    by_cases hcx : current_x ≥ 0 ∧ current_x < SH1106_WIDTH
    · rw [if_pos hcx]
      have hs := hrow cv
      have he := hrow value
      have hvl := Oled.drawLogicSignal_vline_pixel current_x (levelRow y height cv)
        (levelRow y height value) color hcx (by split <;> omega) 256 self
        (if levelRow y height cv < levelRow y height value then levelRow y height cv
          else levelRow y height value) h (by split <;> split <;> omega)
        (by split <;> omega)
      obtain ⟨self', hs', hwf', hpix⟩ := hvl
      refine ⟨self', hs', hwf', ?_⟩
      intro p q hp hq
      rw [hpix p q hp]
      by_cases h1 : 0 < i ∧ value ≠ cv ∧ (p : Int) = current_x ∧
          min (levelRow y height cv) (levelRow y height value) ≤ q ∧
          q ≤ max (levelRow y height cv) (levelRow y height value)
      · rw [if_pos h1, if_pos (by
          refine ⟨h1.2.2.1, ?_, ?_, hq⟩
          · have := h1.2.2.2.1
            split <;> omega
          · have := h1.2.2.2.2
            split <;> omega)]
      · rw [if_neg h1, if_neg (by
          intro h2
          apply h1
          refine ⟨hcond.1, hcond.2, h2.1, ?_, ?_⟩
          · have := h2.2.1
            split at this <;> omega
          · have := h2.2.2.1
            split at this <;> omega)]
    · rw [if_neg hcx]
      refine ⟨self, rfl, h, ?_⟩
      intro p q hp _
      rw [if_neg (by
        intro h2
        apply hcx
        simp only [SH1106_WIDTH] at hp ⊢
        omega)]
  · rw [if_neg hcond]
    refine ⟨self, rfl, h, ?_⟩
    intro p q _ _
    rw [if_neg (fun h2 => hcond ⟨h2.1, h2.2.1⟩)]

/-- The horizontal line of one run, with the `int16_t` column inside its range. -/
theorem Oled.drawLogicSignal_hline_pixel (self : Oled) (current_x : Int)
    (y_level n color : Nat) (h : self.device_.WF) (hlo : -32768 ≤ current_x)
    (hhi : current_x + n ≤ 32768) :
    (self.drawLogicSignal_hline current_x y_level n color).device_.WF ∧
    ∀ p q, p < SH1106_WIDTH →
      (self.drawLogicSignal_hline current_x y_level n color).device_.pixel p q =
        if q = y_level ∧ y_level < SH1106_HEIGHT ∧ current_x ≤ p ∧ (p : Int) < current_x + n
        then decide (color ≠ 0)
        else self.device_.pixel p q := by
  have hf := hline_fold_pixel current_x y_level color n hlo hhi self h
  unfold Oled.drawLogicSignal_hline
  simp only [Int.toNat_ofNat]
  exact hf

/-- The run loop, for level rows below 255, a zoom factor of at most 128 and a cursor inside
the `int16_t` range: it returns, the framebuffer stays well formed, and a pixel of the grid
reads `color != 0` if it lies on an edge or a line of a run the loop reaches, and is
unchanged otherwise. -/
theorem Oled.drawLogicSignal_loop_pixel (y height zoom2 color : Nat) (hy : y < 255)
    (hlow : (y + height + 255) % 256 < 255) (hz : zoom2 ≤ 256) (data : List Nat) (i : Nat)
    (cur2 : Int) (cv : Nat) (self : Oled) (h : self.device_.WF) (hlo : -65536 ≤ cur2)
    (hhi : cur2 ≤ 510) :
    ∃ self', Oled.drawLogicSignal_loop y height zoom2 color data i cur2 cv self = some self' ∧
      self'.device_.WF ∧
      ∀ p q, p < SH1106_WIDTH → q < SH1106_HEIGHT →
        (signalCoversFrom y height zoom2 data i cur2 cv p q →
          self'.device_.pixel p q = decide (color ≠ 0)) ∧
        (¬ signalCoversFrom y height zoom2 data i cur2 cv p q →
          self'.device_.pixel p q = self.device_.pixel p q) := by
  induction data generalizing i cur2 cv self with
  | nil =>
    refine ⟨self, rfl, h, ?_⟩
    intro p q _ _
    refine ⟨?_, fun _ => rfl⟩
    rintro ⟨k, hk, _⟩
    simp at hk
  | cons b rest ih =>
    have hlen : runLength b ≤ 127 := by
      unfold runLength
      exact Nat.le_trans Nat.and_le_right (Nat.le_refl _)
    have hprod : runLength b * zoom2 ≤ 127 * 256 := Nat.mul_le_mul hlen hz
    have hcx : floatToInt16 cur2 = truncHalf cur2 := by
      unfold floatToInt16
      apply toInt16_of_range <;> unfold truncHalf <;> split <;> omega
    have hcxlo : -32768 ≤ truncHalf cur2 := by
      unfold truncHalf
      split <;> omega
    have hcxhi : truncHalf cur2 ≤ 255 := by
      unfold truncHalf
      split <;> omega
    have hn : (floatToInt16 (((b &&& 0x7F : Nat) : Int) * (zoom2 : Int))).toNat
        = runLength b * zoom2 / 2 := by
      have hnn : ((b &&& 0x7F : Nat) : Int) * (zoom2 : Int) = ((runLength b * zoom2 : Nat) : Int) := by
        unfold runLength
        push_cast
        rfl
      rw [hnn]
      unfold floatToInt16
      rw [toInt16_of_range _ (by unfold truncHalf; split <;> omega)
        (by unfold truncHalf; split <;> omega)]
      unfold truncHalf
      split <;> omega
    unfold Oled.drawLogicSignal_loop
    simp only []
    obtain ⟨self1, he, hwf1, hpix1⟩ := Oled.drawLogicSignal_edge_pixel self y height color i
      ((b &&& 0x80) >>> 7) cv (floatToInt16 cur2) h hy hlow
    rw [he]
    simp only []
    have hline := Oled.drawLogicSignal_hline_pixel self1 (truncHalf cur2)
      (levelRow y height (runLevel b)) (runLength b * zoom2 / 2) color hwf1 hcxlo (by omega)
    have hhl : self1.drawLogicSignal_hline (floatToInt16 cur2)
        (if (b &&& 0x80) >>> 7 = 0 then (y + height + 255) % 256 else y)
        (floatToInt16 (((b &&& 0x7F : Nat) : Int) * (zoom2 : Int))) color
        = self1.drawLogicSignal_hline (truncHalf cur2) (levelRow y height (runLevel b))
          ((runLength b * zoom2 / 2 : Nat) : Int) color := by
      unfold Oled.drawLogicSignal_hline
      rw [hn, hcx]
      simp only [Int.toNat_ofNat]
      rfl
    rw [hhl]
    have hnext : cur2 + ((b &&& 0x7F : Nat) : Int) * (zoom2 : Int)
        = cur2 + ((runLength b * zoom2 : Nat) : Int) := by
      unfold runLength
      push_cast
      rfl
    rw [hnext]
    -- what the first run has written
    have hhead : ∀ p q, p < SH1106_WIDTH → q < SH1106_HEIGHT →
        ((onEdge y height zoom2 (b :: rest) i cur2 cv 0 p q ∨
            onRun y height zoom2 (b :: rest) cur2 0 p q) →
          (self1.drawLogicSignal_hline (truncHalf cur2) (levelRow y height (runLevel b))
            ((runLength b * zoom2 / 2 : Nat) : Int) color).device_.pixel p q
            = decide (color ≠ 0)) ∧
        (¬ (onEdge y height zoom2 (b :: rest) i cur2 cv 0 p q ∨
            onRun y height zoom2 (b :: rest) cur2 0 p q) →
          (self1.drawLogicSignal_hline (truncHalf cur2) (levelRow y height (runLevel b))
            ((runLength b * zoom2 / 2 : Nat) : Int) color).device_.pixel p q
            = self.device_.pixel p q) := by
      intro p q hp hq
      have hE : onEdge y height zoom2 (b :: rest) i cur2 cv 0 p q ↔
          (0 < i ∧ (b &&& 0x80) >>> 7 ≠ cv ∧ (p : Int) = floatToInt16 cur2 ∧
            min (levelRow y height cv) (levelRow y height ((b &&& 0x80) >>> 7)) ≤ q ∧
            q ≤ max (levelRow y height cv) (levelRow y height ((b &&& 0x80) >>> 7))) := by
        unfold onEdge
        rw [cursorAt_zero, hcx]
        simp only [prevLevel, List.getD_cons_zero, Nat.add_zero, if_true]
        rfl
      have hR : onRun y height zoom2 (b :: rest) cur2 0 p q ↔
          (q = levelRow y height (runLevel b) ∧ levelRow y height (runLevel b) < SH1106_HEIGHT ∧
            truncHalf cur2 ≤ (p : Int) ∧
            (p : Int) < truncHalf cur2 + ((runLength b * zoom2 / 2 : Nat) : Int)) := by
        unfold onRun
        rw [cursorAt_zero]
        simp only [List.getD_cons_zero]
        constructor
        · intro hr
          exact ⟨hr.1, by rw [← hr.1]; exact hq, hr.2.1, hr.2.2⟩
        · intro hr
          exact ⟨hr.1, hr.2.2.1, hr.2.2.2⟩
      rw [hline.2 p q hp, hpix1 p q hp hq, hE, hR]
      constructor
      · rintro (hc | hc)
        · by_cases hr : q = levelRow y height (runLevel b) ∧
              levelRow y height (runLevel b) < SH1106_HEIGHT ∧ truncHalf cur2 ≤ (p : Int) ∧
              (p : Int) < truncHalf cur2 + ((runLength b * zoom2 / 2 : Nat) : Int)
          · rw [if_pos hr]
          · rw [if_neg hr, if_pos hc]
        · rw [if_pos hc]
      · intro hc
        rw [if_neg (fun hr => hc (Or.inr hr)), if_neg (fun he => hc (Or.inl he))]
    by_cases hbreak : cur2 + ((runLength b * zoom2 : Nat) : Int) ≥ 2 * (SH1106_WIDTH : Int)
    · rw [if_pos hbreak]
      refine ⟨_, rfl, hline.1, ?_⟩
      intro p q hp hq
      rw [signalCoversFrom_cons y height zoom2 b rest i cur2 cv p q hp]
      constructor
      · rintro (hc | hc | hc)
        · exact (hhead p q hp hq).1 (Or.inl hc)
        · exact (hhead p q hp hq).1 (Or.inr hc)
        · exact absurd hc.1 (by omega)
      · intro hc
        exact (hhead p q hp hq).2 (fun hc2 => hc (by
          rcases hc2 with hc2 | hc2
          · exact Or.inl hc2
          · exact Or.inr (Or.inl hc2)))
    · rw [if_neg hbreak]
      obtain ⟨self', hs', hwf', hpix'⟩ := ih (i + 1)
        (cur2 + ((runLength b * zoom2 : Nat) : Int)) ((b &&& 0x80) >>> 7)
        (self1.drawLogicSignal_hline (truncHalf cur2) (levelRow y height (runLevel b))
          ((runLength b * zoom2 / 2 : Nat) : Int) color) hline.1 (by omega)
        (by simp only [SH1106_WIDTH] at hbreak; omega)
      refine ⟨self', hs', hwf', ?_⟩
      intro p q hp hq
      rw [signalCoversFrom_cons y height zoom2 b rest i cur2 cv p q hp]
      have hrest := hpix' p q hp hq
      constructor
      · intro hc
        by_cases hr : signalCoversFrom y height zoom2 rest (i + 1)
            (cur2 + ((runLength b * zoom2 : Nat) : Int)) (runLevel b) p q
        · exact hrest.1 hr
        · rw [hrest.2 hr]
          rcases hc with hc | hc | hc
          · exact (hhead p q hp hq).1 (Or.inl hc)
          · exact (hhead p q hp hq).1 (Or.inr hc)
          · exact absurd hc.2 hr
      · intro hc
        have hr : ¬ signalCoversFrom y height zoom2 rest (i + 1)
            (cur2 + ((runLength b * zoom2 : Nat) : Int)) (runLevel b) p q := by
          intro hr
          exact hc (Or.inr (Or.inr ⟨by simp only [SH1106_WIDTH] at hbreak ⊢; omega, hr⟩))
        rw [hrest.2 hr]
        exact (hhead p q hp hq).2 (fun hc2 => hc (by
          rcases hc2 with hc2 | hc2
          · exact Or.inl hc2
          · exact Or.inr (Or.inl hc2)))

/-- `Oled::drawLogicSignal` with a non-null signal, for level rows below 255, a zoom factor
of at most 128 and a start cursor inside the `int16_t` range: it returns, the framebuffer
stays well formed, and a pixel of the grid reads `color != 0` if it lies on an edge or a
line of the signal, and is unchanged otherwise. -/
theorem Oled.drawLogicSignal_pixel (self : Oled) (x y : Nat) (data : List Nat)
    (data_length height x_offset zoom2 color : Nat) (h : self.device_.WF) (hx : x < 256)
    (hy : y < 255) (hlow : (y + height + 255) % 256 < 255) (hz : zoom2 ≤ 256)
    (hoff : x_offset ≤ x + 32768) :
    ∃ self', self.drawLogicSignal x y (some data) data_length height x_offset zoom2 color
        = some self' ∧ self'.device_.WF ∧
      ∀ p q, p < SH1106_WIDTH → q < SH1106_HEIGHT →
        (signalCoversFrom y height zoom2 (data.take data_length) 0
            (2 * (x : Int) - 2 * (x_offset : Int)) 0 p q →
          self'.device_.pixel p q = decide (color ≠ 0)) ∧
        (¬ signalCoversFrom y height zoom2 (data.take data_length) 0
            (2 * (x : Int) - 2 * (x_offset : Int)) 0 p q →
          self'.device_.pixel p q = self.device_.pixel p q) := by
  unfold Oled.drawLogicSignal
  simp only []
  by_cases hlen : data_length = 0
  · rw [if_pos hlen]
    refine ⟨self, rfl, h, ?_⟩
    intro p q _ _
    refine ⟨?_, fun _ => rfl⟩
    rintro ⟨k, hk, _⟩
    rw [hlen] at hk
    simp at hk
  · rw [if_neg hlen]
    exact Oled.drawLogicSignal_loop_pixel y height zoom2 color hy hlow hz
      (data.take data_length) 0 _ 0 self h (by omega) (by omega)

/-- The level of a run is 0 or 1. -/
theorem runLevel_le_one (b : Nat) : runLevel b ≤ 1 := by
  unfold runLevel
  have h : b &&& 0x80 ≤ 0x80 := Nat.and_le_right
  rw [Nat.shiftRight_eq_div_pow]
  omega

/-- The runs before `k` and the runs from `k` on make up the whole sequence. -/
theorem runTotal_take_add_drop (data : List Nat) (k : Nat) :
    runTotal (data.take k) + runTotal (data.drop k) = runTotal data := by
  unfold runTotal
  rw [← List.sum_append, ← List.map_append, List.take_append_drop]

/-- The runs up to and including run `k` are part of the whole sequence. -/
theorem runTotal_take_succ_le (data : List Nat) (k : Nat) :
    runTotal (data.take k) + runLength (data.getD k 0) ≤ runTotal data := by
  induction data generalizing k with
  | nil => simp [runTotal, runLength]
  | cons b rest ih =>
    cases k with
    | zero =>
      simp only [List.take_zero, runTotal_nil, List.getD_cons_zero, runTotal_cons]
      omega
    | succ k =>
      simp only [List.take_succ_cons, runTotal_cons, List.getD_cons_succ]
      have := ih k
      omega

/-- Every offset below the total length falls into exactly one run. -/
theorem exists_run_of_lt_runTotal (data : List Nat) (d : Nat) (h : d < runTotal data) :
    ∃ k, k < data.length ∧ runTotal (data.take k) ≤ d ∧
      d < runTotal (data.take k) + runLength (data.getD k 0) := by
  induction data generalizing d with
  | nil => simp [runTotal] at h
  | cons b rest ih =>
    rw [runTotal_cons] at h
    by_cases hd : d < runLength b
    · exact ⟨0, by simp, by simp [runTotal_nil], by simpa [runTotal_nil] using hd⟩
    · obtain ⟨k, hk, h1, h2⟩ := ih (d - runLength b) (by omega)
      refine ⟨k + 1, by simpa using hk, ?_, ?_⟩
      · simp only [List.take_succ_cons, runTotal_cons]
        omega
      · simp only [List.take_succ_cons, runTotal_cons, List.getD_cons_succ]
        omega

/-- At zoom 1.0 the integer cursor column of run `k` is the start column plus the lengths
of the runs before it. -/
theorem truncHalf_cursorAt_zoom1 (data : List Nat) (x k : Nat) :
    truncHalf (cursorAt 2 data (2 * (x : Int)) k) = ((x + runTotal (data.take k) : Nat) : Int) := by
  unfold cursorAt truncHalf
  push_cast
  split <;> omega

/-- The columns a waveform touches at zoom 1.0 and scroll 0, for level rows on the display:
the columns of its runs, and the column after the last run if an edge is drawn there. -/
theorem signalCovers_columns_zoom1 (x y height : Nat) (data : List Nat) (p : Nat)
    (hh : 1 ≤ height) (hy : y + height ≤ SH1106_HEIGHT) :
    (∃ q, q < SH1106_HEIGHT ∧ signalCoversFrom y height 2 data 0 (2 * (x : Int)) 0 p q) ↔
      ((x ≤ p ∧ p < x + runTotal data) ∨ (p = x + runTotal data ∧ trailingEdge data)) := by
  have hrow : ∀ v, levelRow y height v < SH1106_HEIGHT := by
    intro v
    unfold levelRow
    simp only [SH1106_HEIGHT] at hy ⊢
    split <;> omega
  constructor
  · rintro ⟨q, _, k, hk, hcov⟩
    have htd := runTotal_take_add_drop data k
    have hts := runTotal_take_succ_le data k
    rcases hcov with he | hr
    · obtain ⟨hik, hlev, hp, _, _⟩ := he
      rw [truncHalf_cursorAt_zoom1] at hp
      have hk0 : k ≠ 0 := by omega
      simp only [prevLevel, hk0, if_false] at hlev
      by_cases hend : runTotal (data.drop k) = 0
      · right
        exact ⟨by omega, k, by omega, hk, hlev, hend⟩
      · left
        omega
    · obtain ⟨_, h1, h2⟩ := hr
      rw [truncHalf_cursorAt_zoom1] at h1 h2
      left
      have : runLength (data.getD k 0) * 2 / 2 = runLength (data.getD k 0) := by omega
      rw [this] at h2
      omega
  · rintro (⟨h1, h2⟩ | ⟨h1, k, hk0, hk, hlev, hend⟩)
    · obtain ⟨k, hk, hk1, hk2⟩ := exists_run_of_lt_runTotal data (p - x) (by omega)
      refine ⟨levelRow y height (runLevel (data.getD k 0)), hrow _, k, hk, Or.inr ⟨rfl, ?_, ?_⟩⟩
      · rw [truncHalf_cursorAt_zoom1]
        omega
      · rw [truncHalf_cursorAt_zoom1]
        have : runLength (data.getD k 0) * 2 / 2 = runLength (data.getD k 0) := by omega
        rw [this]
        omega
    · have htd := runTotal_take_add_drop data k
      refine ⟨levelRow y height (runLevel (data.getD k 0)), hrow _, k, hk, Or.inl ?_⟩
      have hk0' : k ≠ 0 := by omega
      refine ⟨by omega, ?_, ?_, Nat.min_le_right _ _, Nat.le_max_right _ _⟩
      · simp only [prevLevel, hk0', if_false]
        exact hlev
      · rw [truncHalf_cursorAt_zoom1]
        omega

theorem signalCoversFrom_nil (y height zoom2 i : Nat) (cur2 : Int) (cv p q : Nat) :
    ¬ signalCoversFrom y height zoom2 [] i cur2 cv p q := by
  rintro ⟨k, hk, _⟩
  simp at hk

/-- A cleared framebuffer is well formed and all its pixels are off. -/
theorem cleared_pixel (dev : SH1106_t)
    (h : dev.framebuffer = List.replicate (SH1106_WIDTH * SH1106_PAGES) 0) :
    dev.WF ∧ ∀ p q, p < SH1106_WIDTH → q < SH1106_HEIGHT → dev.pixel p q = false := by
  refine ⟨WF_of_replicate dev 0 (by decide) h, ?_⟩
  intro p q hp hq
  rw [pixel_of_replicate dev 0 h p q hp hq]
  simp

/-- On a cleared framebuffer and with colour 1, the pixels `Oled::drawLogicSignal` leaves on
are the pixels it has written. -/
theorem Oled.drawLogicSignal_lit (self : Oled) (x y : Nat) (data : List Nat)
    (data_length height x_offset zoom2 : Nat)
    (hclear : self.device_.framebuffer = List.replicate (SH1106_WIDTH * SH1106_PAGES) 0)
    (hx : x < 256) (hy : y < 255) (hlow : (y + height + 255) % 256 < 255) (hz : zoom2 ≤ 256)
    (hoff : x_offset ≤ x + 32768) :
    ∃ self', self.drawLogicSignal x y (some data) data_length height x_offset zoom2 1
        = some self' ∧
      ∀ p q, p < SH1106_WIDTH → q < SH1106_HEIGHT →
        (self'.device_.pixel p q = true ↔
          signalCoversFrom y height zoom2 (data.take data_length) 0
            (2 * (x : Int) - 2 * (x_offset : Int)) 0 p q) := by
  have hc := cleared_pixel self.device_ hclear
  obtain ⟨self', hs, _, hpix⟩ := Oled.drawLogicSignal_pixel self x y data data_length height
    x_offset zoom2 1 hc.1 hx hy hlow hz hoff
  refine ⟨self', hs, ?_⟩
  intro p q hp hq
  constructor
  · intro hlit
    by_contra hcov
    rw [(hpix p q hp hq).2 hcov, hc.2 p q hp hq] at hlit
    exact absurd hlit (by decide)
  · intro hcov
    rw [(hpix p q hp hq).1 hcov]
    decide

/-- At zoom 1.0 and scroll 0, on a cleared framebuffer, with colour 1 and level rows on the
display: the columns in which `Oled::drawLogicSignal` leaves a pixel on. -/
theorem Oled.drawLogicSignal_lit_columns (self : Oled) (x y height : Nat) (data : List Nat)
    (hclear : self.device_.framebuffer = List.replicate (SH1106_WIDTH * SH1106_PAGES) 0)
    (hx : x < 128) (hh : 1 ≤ height) (hy : y + height ≤ 64) :
    ∃ self', self.drawLogicSignal x y (some data) data.length height 0 2 1 = some self' ∧
      ∀ p, p < 128 →
        ((∃ q, q < 64 ∧ self'.device_.pixel p q = true) ↔
          ((x ≤ p ∧ p < x + min (runTotal data) (128 - x)) ∨
            (p = x + runTotal data ∧ trailingEdge data))) := by
  obtain ⟨self', hs, hlit⟩ := Oled.drawLogicSignal_lit self x y data data.length height 0 2
    hclear (by omega) (by omega) (by omega) (by decide) (by omega)
  refine ⟨self', hs, ?_⟩
  intro p hp
  have hcols := signalCovers_columns_zoom1 x y height data p hh hy
  rw [List.take_length] at hlit
  have hcur : (2 * (x : Int) - 2 * ((0 : Nat) : Int)) = 2 * (x : Int) := by simp
  rw [hcur] at hlit
  constructor
  · rintro ⟨q, hq, hpix⟩
    rcases hcols.mp ⟨q, hq, (hlit p q hp hq).mp hpix⟩ with ⟨h1, h2⟩ | h1
    · exact Or.inl ⟨h1, by omega⟩
    · exact Or.inr h1
  · intro hc
    have hc' : (x ≤ p ∧ p < x + runTotal data) ∨ (p = x + runTotal data ∧ trailingEdge data) := by
      rcases hc with ⟨h1, h2⟩ | h1
      · exact Or.inl ⟨h1, by omega⟩
      · exact Or.inr h1
    obtain ⟨q, hq, hcov⟩ := hcols.mpr hc'
    exact ⟨q, hq, (hlit p q hp hq).mpr hcov⟩

/-! ### C15 - C17: one waveform -/

/-- C15 as stated fails: for the run sequence LOW 5, HIGH 0 (`[0x05, 0x80]`) drawn at
`x = 0`, `y = 0`, `height = 10`, zoom 1.0, scroll 0, colour 1 on the cleared framebuffer,
column 5 holds lit pixels (the edge in front of the empty HIGH run), although the sum of the
run lengths is 5 and the claimed columns are `0 .. 4`. -/
theorem C15_lit_columns_counterexample :
    ∃ self', Oled.drawLogicSignal Oled.new 0 0 (some [0x05, 0x80]) 2 10 0 2 1 = some self' ∧
      (∃ q, q < 64 ∧ self'.device_.pixel 5 q = true) ∧
      runTotal [0x05, 0x80] = 5 ∧
      ¬ (0 ≤ 5 ∧ 5 < 0 + min (runTotal [0x05, 0x80]) (128 - 0)) := by
  obtain ⟨self', hs, hcols⟩ := Oled.drawLogicSignal_lit_columns Oled.new 0 0 10 [0x05, 0x80]
    rfl (by decide) (by decide) (by decide)
  have hsum : runTotal [0x05, 0x80] = 5 := by decide
  refine ⟨self', hs, ?_, hsum, ?_⟩
  · apply (hcols 5 (by decide)).mpr
    right
    refine ⟨by rw [hsum], 1, by decide, by decide, by decide, by decide⟩
  · rw [hsum]
    decide

/-- C15 (amended): on a cleared framebuffer, for every run sequence, every start `x < 128`
and every `y`, `height` with `height >= 1` and `y + height <= 64`, `drawLogicSignal` with
zoom 1.0, `x_offset = 0` and colour 1 returns, and the columns in which it leaves lit pixels
are the columns `x .. x + min(S, 128 - x) - 1`, `S` being the sum of the low-7-bit run
lengths, and in addition column `x + S` when `x + S < 128` and the sequence has a level
change at a run other than the first from which on every run has length 0. -/
theorem C15_lit_columns (self : Oled) (x y height : Nat) (data : List Nat)
    (hclear : self.device_.framebuffer = List.replicate 1024 0)
    (hx : x < 128) (hh : 1 ≤ height) (hy : y + height ≤ 64) :
    ∃ self', self.drawLogicSignal x y (some data) data.length height 0 2 1 = some self' ∧
      ∀ p, p < 128 →
        ((∃ q, q < 64 ∧ self'.device_.pixel p q = true) ↔
          ((x ≤ p ∧ p < x + min (runTotal data) (128 - x)) ∨
            (p = x + runTotal data ∧ trailingEdge data))) :=
  Oled.drawLogicSignal_lit_columns self x y height data hclear hx hh hy

/-- C15 (amended) for the sequence LOW 20, HIGH 30, LOW 10 drawn at (3, 4) with height 10
on a newly constructed display. -/
theorem C15_lit_columns_witness :
    ∃ self', Oled.drawLogicSignal Oled.new 3 4 (some [0x14, 0x9E, 0x0A]) 3 10 0 2 1
        = some self' ∧
      ∀ p, p < 128 →
        ((∃ q, q < 64 ∧ self'.device_.pixel p q = true) ↔
          ((3 ≤ p ∧ p < 3 + min (runTotal [0x14, 0x9E, 0x0A]) (128 - 3)) ∨
            (p = 3 + runTotal [0x14, 0x9E, 0x0A] ∧ trailingEdge [0x14, 0x9E, 0x0A]))) :=
  C15_lit_columns Oled.new 3 4 10 [0x14, 0x9E, 0x0A] rfl (by decide) (by decide) (by decide)

/-- The pixels the scenario signal LOW 20, HIGH 30, LOW 10 covers at (0, 0), height 10,
zoom 1.0, scroll 0. -/
theorem signalCovers_scenario (p q : Nat) (hp : p < SH1106_WIDTH) :
    signalCoversFrom 0 10 2 [0x14, 0x9E, 0x0A] 0 0 0 p q ↔
      ((q = 9 ∧ p < 20) ∨ (p = 20 ∧ q ≤ 9) ∨ (q = 0 ∧ 20 ≤ p ∧ p < 50) ∨
        (p = 50 ∧ q ≤ 9) ∨ (q = 9 ∧ 50 ≤ p ∧ p < 60)) := by
  have l0 : runLevel 0x14 = 0 := by decide
  have l1 : runLevel 0x9E = 1 := by decide
  have l2 : runLevel 0x0A = 0 := by decide
  have n0 : runLength 0x14 = 20 := by decide
  have n1 : runLength 0x9E = 30 := by decide
  have n2 : runLength 0x0A = 10 := by decide
  have r0 : levelRow 0 10 0 = 9 := by decide
  have r1 : levelRow 0 10 1 = 0 := by decide
  rw [signalCoversFrom_cons _ _ _ _ _ _ _ _ _ _ hp, signalCoversFrom_cons _ _ _ _ _ _ _ _ _ _ hp,
    signalCoversFrom_cons _ _ _ _ _ _ _ _ _ _ hp]
  simp only [onEdge, onRun, cursorAt_zero, prevLevel, List.getD_cons_zero, l0, l1, l2, n0, n1,
    n2, r0, r1, signalCoversFrom_nil, and_false, or_false, if_true]
  unfold truncHalf
  simp only [SH1106_WIDTH] at hp ⊢
  norm_num
  omega

/-- For a geometry whose row arithmetic does not wrap, the edge in front of run `k` of a
whole signal spans the rows `y .. y + height - 1`. -/
theorem onEdge_iff (y height zoom2 : Nat) (data : List Nat) (cur2 : Int) (k p q : Nat)
    (hh : 1 ≤ height) (hy : y + height ≤ 256) :
    onEdge y height zoom2 data 0 cur2 0 k p q ↔
      (0 < k ∧ runLevel (data.getD k 0) ≠ runLevel (data.getD (k - 1) 0) ∧
        (p : Int) = truncHalf (cursorAt zoom2 data cur2 k) ∧ y ≤ q ∧ q ≤ y + height - 1) := by
  have hlow : (y + height + 255) % 256 = y + height - 1 := by omega
  have h1 := runLevel_le_one (data.getD k 0)
  have h2 := runLevel_le_one (data.getD (k - 1) 0)
  unfold onEdge
  constructor
  · rintro ⟨hk, hlev, hp, hmin, hmax⟩
    have hk0 : k ≠ 0 := by omega
    simp only [prevLevel, hk0, if_false] at hlev hmin hmax
    refine ⟨by omega, hlev, hp, ?_, ?_⟩
    · unfold levelRow at hmin
      rw [hlow] at hmin
      split at hmin <;> split at hmin <;> omega
    · unfold levelRow at hmax
      rw [hlow] at hmax
      split at hmax <;> split at hmax <;> omega
  · rintro ⟨hk, hlev, hp, hmin, hmax⟩
    have hk0 : k ≠ 0 := by omega
    simp only [prevLevel, hk0, if_false]
    refine ⟨by omega, hlev, hp, ?_, ?_⟩
    · unfold levelRow
      rw [hlow]
      split <;> split <;> omega
    · unfold levelRow
      rw [hlow]
      split <;> split <;> omega

/-- A run line lies on one of the two level rows. -/
theorem onRun_row (y height zoom2 : Nat) (data : List Nat) (cur2 : Int) (k p q : Nat)
    (hh : 1 ≤ height) (hy : y + height ≤ 256)
    (h : onRun y height zoom2 data cur2 k p q) : q = y ∨ q = y + height - 1 := by
  have hlow : (y + height + 255) % 256 = y + height - 1 := by omega
  have hq := h.1
  unfold levelRow at hq
  rw [hlow] at hq
  split at hq <;> omega

/-- C16: for the signal bytes `[0x14, 0x9E, 0x0A]` (LOW 20, HIGH 30, LOW 10) drawn by
`drawLogicSignal` on a cleared framebuffer with `x = 0`, `y = 0`, `height = 10`,
`x_offset = 0`, zoom 1.0, colour 1, the call returns and the lit pixels are exactly: row 9
for columns 0..19, column 20 for rows 0..9, row 0 for columns 20..49, column 50 for rows
0..9, and row 9 for columns 50..59; the columns holding a lit pixel are exactly 0..59, a
horizontal extent of 60 columns. -/
theorem C16_scenario_pixels (self : Oled)
    (hclear : self.device_.framebuffer = List.replicate 1024 0) :
    ∃ self', self.drawLogicSignal 0 0 (some [0x14, 0x9E, 0x0A]) 3 10 0 2 1 = some self' ∧
      (∀ p q, p < 128 → q < 64 →
        (self'.device_.pixel p q = true ↔
          ((q = 9 ∧ p < 20) ∨ (p = 20 ∧ q ≤ 9) ∨ (q = 0 ∧ 20 ≤ p ∧ p < 50) ∨
            (p = 50 ∧ q ≤ 9) ∨ (q = 9 ∧ 50 ≤ p ∧ p < 60)))) ∧
      (∀ p, p < 128 → ((∃ q, q < 64 ∧ self'.device_.pixel p q = true) ↔ p < 60)) := by
  obtain ⟨self', hs, hlit⟩ := Oled.drawLogicSignal_lit self 0 0 [0x14, 0x9E, 0x0A] 3 10 0 2
    hclear (by decide) (by decide) (by decide) (by decide) (by decide)
  have hpix : ∀ p q, p < 128 → q < 64 →
      (self'.device_.pixel p q = true ↔
        ((q = 9 ∧ p < 20) ∨ (p = 20 ∧ q ≤ 9) ∨ (q = 0 ∧ 20 ≤ p ∧ p < 50) ∨
          (p = 50 ∧ q ≤ 9) ∨ (q = 9 ∧ 50 ≤ p ∧ p < 60))) := by
    intro p q hp hq
    rw [hlit p q hp hq]
    exact signalCovers_scenario p q hp
  refine ⟨self', hs, hpix, ?_⟩
  intro p hp
  constructor
  · rintro ⟨q, hq, hpq⟩
    have := (hpix p q hp hq).mp hpq
    omega
  · intro hp60
    by_cases h20 : p < 20
    · exact ⟨9, by decide, (hpix p 9 hp (by decide)).mpr (by omega)⟩
    · by_cases h50 : p < 50
      · exact ⟨0, by decide, (hpix p 0 hp (by decide)).mpr (by omega)⟩
      · exact ⟨9, by decide, (hpix p 9 hp (by decide)).mpr (by omega)⟩

/-- C16 on a newly constructed display: pixel (20, 5) of the first edge is lit, pixel
(21, 5) next to it is not. -/
theorem C16_scenario_pixels_witness :
    Oled.new.device_.framebuffer = List.replicate 1024 0 ∧
    ∃ self', Oled.drawLogicSignal Oled.new 0 0 (some [0x14, 0x9E, 0x0A]) 3 10 0 2 1
        = some self' ∧
      self'.device_.pixel 20 5 = true ∧ self'.device_.pixel 21 5 = false := by
  obtain ⟨self', hs, hpix, _⟩ := C16_scenario_pixels Oled.new rfl
  refine ⟨rfl, self', hs, (hpix 20 5 (by decide) (by decide)).mpr (by decide), ?_⟩
  cases hv : self'.device_.pixel 21 5
  · rfl
  · exact absurd ((hpix 21 5 (by decide) (by decide)).mp hv) (by decide)

/-- C17: in `drawLogicSignal`, for a geometry whose rows do not wrap (`height >= 1`,
`y + height <= 255`), a zoom factor of at most 8 and a start cursor in the `int16_t` range,
the call returns and a vertical segment is drawn for run `k` exactly when `k > 0`, the level
bit of run `k` differs from that of run `k - 1`, and the integer cursor column of run `k`
is a column `p` of the display: such a segment writes every display row from `y` to
`y + height - 1` of column `p`, and a pixel of a row strictly between the two level rows
(rows no run line touches) is left unchanged unless such a run `k` exists for its column.
The first run never produces a segment: a one-run signal, whatever its level, changes no
pixel strictly between the level rows. -/
theorem C17_vertical_segments (self : Oled) (x y : Nat) (data : List Nat)
    (height x_offset zoom2 color : Nat) (h : self.device_.WF) (hx : x < 256)
    (hh : 1 ≤ height) (hy : y + height ≤ 255) (hz : zoom2 ≤ 16)
    (hoff : x_offset ≤ x + 32768) :
    ∃ self', self.drawLogicSignal x y (some data) data.length height x_offset zoom2 color
        = some self' ∧
      (∀ (k p q : Nat), 0 < k → k < data.length →
        runLevel (data.getD k 0) ≠ runLevel (data.getD (k - 1) 0) →
        p < 128 → (p : Int) = truncHalf (cursorAt zoom2 data (2 * (x : Int) - 2 * (x_offset : Int)) k) →
        y ≤ q → q ≤ y + height - 1 → q < 64 →
        self'.device_.pixel p q = decide (color ≠ 0)) ∧
      (∀ (p q : Nat), p < 128 → q < 64 → y < q → q < y + height - 1 →
        (¬ ∃ k, 0 < k ∧ k < data.length ∧
          runLevel (data.getD k 0) ≠ runLevel (data.getD (k - 1) 0) ∧
          (p : Int) = truncHalf (cursorAt zoom2 data (2 * (x : Int) - 2 * (x_offset : Int)) k)) →
        self'.device_.pixel p q = self.device_.pixel p q) ∧
      (data.length = 1 → ∀ (p q : Nat), p < 128 → q < 64 → y < q → q < y + height - 1 →
        self'.device_.pixel p q = self.device_.pixel p q) := by
  obtain ⟨self', hs, _, hpix⟩ := Oled.drawLogicSignal_pixel self x y data data.length height
    x_offset zoom2 color h hx (by omega) (by omega) (by omega) hoff
  rw [List.take_length] at hpix
  have hinner : ∀ (p q : Nat), p < 128 → q < 64 → y < q → q < y + height - 1 →
      (¬ ∃ k, 0 < k ∧ k < data.length ∧
        runLevel (data.getD k 0) ≠ runLevel (data.getD (k - 1) 0) ∧
        (p : Int) = truncHalf (cursorAt zoom2 data (2 * (x : Int) - 2 * (x_offset : Int)) k)) →
      self'.device_.pixel p q = self.device_.pixel p q := by
    intro p q hp hq hq1 hq2 hno
    apply (hpix p q hp hq).2
    rintro ⟨k, hk, hcov⟩
    rcases hcov with he | hr
    · have he' := (onEdge_iff y height zoom2 data _ k p q hh (by omega)).mp he
      exact hno ⟨k, he'.1, hk, he'.2.1, he'.2.2.1⟩
    · have := onRun_row y height zoom2 data _ k p q hh (by omega) hr
      omega
  refine ⟨self', hs, ?_, hinner, ?_⟩
  · intro k p q hk0 hk hlev hp hcol hq1 hq2 hq
    apply (hpix p q hp hq).1
    exact ⟨k, hk, Or.inl ((onEdge_iff y height zoom2 data _ k p q hh (by omega)).mpr
      ⟨hk0, hlev, hcol, hq1, hq2⟩)⟩
  · intro hlen p q hp hq hq1 hq2
    apply hinner p q hp hq hq1 hq2
    rintro ⟨k, hk0, hk, _⟩
    omega

/-- C17 for a signal that starts HIGH and then goes LOW (`[0x85, 0x05]`), drawn at (8, 2)
with height 12: the edge in front of run 1 is at column 13 and row 7 of it is written. -/
theorem C17_vertical_segments_witness :
    ∃ self', Oled.drawLogicSignal Oled.new 8 2 (some [0x85, 0x05]) 2 12 0 2 1 = some self' ∧
      self'.device_.pixel 13 7 = true :=
  (C17_vertical_segments Oled.new 8 2 [0x85, 0x05] 12 0 2 1 Oled_new_WF (by decide)
    (by decide) (by decide) (by decide) (by decide)).imp
    (fun _ hs => ⟨hs.1, hs.2.1 1 13 7 (by decide) (by decide) (by decide) (by decide)
      (by decide) (by decide) (by decide) (by decide)⟩)

/-! ### Drawing steps as stamps -/

/-- Doing nothing is a stamp. -/
theorem Stamp.id (lo hi : Nat) : Stamp lo hi (fun s => some s) :=
  ⟨fun _ _ => False, fun _ _ => false, fun _ _ h => h.elim,
    fun self h => ⟨self, rfl, h, fun _ _ _ _ => ⟨fun h => h.elim, fun _ => rfl⟩⟩⟩

/-- A step that agrees with a stamp on every state is a stamp. -/
theorem Stamp.congr {lo hi : Nat} {T T' : Oled → Option Oled} (h : ∀ s, T s = T' s)
    (hT : Stamp lo hi T') : Stamp lo hi T := by
  have : T = T' := funext h
  rw [this]
  exact hT

/-- A stamp on rows `lo .. hi` is a stamp on any larger row range. -/
theorem Stamp.mono {lo hi lo' hi' : Nat} {T : Oled → Option Oled} (hlo : lo' ≤ lo)
    (hhi : hi ≤ hi') (hT : Stamp lo hi T) : Stamp lo' hi' T := by
  obtain ⟨M, V, hrows, hT⟩ := hT
  exact ⟨M, V, fun p q hm => ⟨le_trans hlo (hrows p q hm).1, le_trans (hrows p q hm).2 hhi⟩, hT⟩

/-- Two stamps one after the other are a stamp. -/
theorem Stamp.bind {lo hi : Nat} {T1 T2 : Oled → Option Oled} (h1 : Stamp lo hi T1)
    (h2 : Stamp lo hi T2) : Stamp lo hi (fun s => (T1 s).bind T2) := by
  classical
  obtain ⟨M1, V1, hrows1, hT1⟩ := h1
  obtain ⟨M2, V2, hrows2, hT2⟩ := h2
  refine ⟨fun p q => M1 p q ∨ M2 p q, fun p q => if M2 p q then V2 p q else V1 p q, ?_, ?_⟩
  · rintro p q (hm | hm)
    · exact hrows1 p q hm
    · exact hrows2 p q hm
  · intro self hwf
    obtain ⟨s1, hs1, hwf1, hp1⟩ := hT1 self hwf
    obtain ⟨s2, hs2, hwf2, hp2⟩ := hT2 s1 hwf1
    refine ⟨s2, by simp only [hs1, Option.bind, hs2], hwf2, ?_⟩
    intro p q hp hq
    by_cases hm2 : M2 p q
    · refine ⟨fun _ => ?_, fun hno => absurd (Or.inr hm2) hno⟩
      dsimp only
      rw [(hp2 p q hp hq).1 hm2, if_pos hm2]
    · constructor
      · rintro (hm1 | hm)
        · dsimp only
          rw [(hp2 p q hp hq).2 hm2, (hp1 p q hp hq).1 hm1, if_neg hm2]
        · exact absurd hm hm2
      · intro hno
        rw [(hp2 p q hp hq).2 hm2, (hp1 p q hp hq).2 (fun hm1 => hno (Or.inl hm1))]

/-- A `setPixel` call on a row in `lo .. hi` is a stamp. -/
theorem Stamp.setPixel (lo hi x y color : Nat) (hy : lo ≤ y ∧ y ≤ hi) :
    Stamp lo hi (fun s => some (s.setPixel x y color)) := by
  refine ⟨fun p q => x < SH1106_WIDTH ∧ y < SH1106_HEIGHT ∧ p = x ∧ q = y,
    fun _ _ => decide (color ≠ 0), ?_, ?_⟩
  · rintro p q ⟨_, _, _, hq⟩
    omega
  · intro self hwf
    refine ⟨_, rfl, SH1106_SetPixel_WF _ _ _ _ hwf, ?_⟩
    intro p q hp _
    rw [Oled.setPixel_device, SH1106_SetPixel_pixel _ _ _ _ hwf p q hp]
    constructor
    · intro hm
      rw [if_pos hm]
    · intro hm
      rw [if_neg hm]

/-- A step chosen by a test that does not look at the state is a stamp if both branches
are. -/
theorem Stamp.ite {lo hi : Nat} (T1 T2 : Oled → Option Oled) (c : Prop) [Decidable c]
    (h1 : Stamp lo hi T1) (h2 : Stamp lo hi T2) :
    Stamp lo hi (fun s => if c then T1 s else T2 s) := by
  by_cases hc : c
  · exact Stamp.congr (fun s => by rw [if_pos hc]) h1
  · exact Stamp.congr (fun s => by rw [if_neg hc]) h2

/-- Two states that agree on a pixel still agree on it after the same stamp. -/
theorem Stamp.agree {lo hi : Nat} {T : Oled → Option Oled} (hT : Stamp lo hi T)
    {s1 s2 t1 t2 : Oled} (h1 : s1.device_.WF) (h2 : s2.device_.WF) (ht1 : T s1 = some t1)
    (ht2 : T s2 = some t2) (p q : Nat) (hp : p < SH1106_WIDTH) (hq : q < SH1106_HEIGHT)
    (hpq : s1.device_.pixel p q = s2.device_.pixel p q) :
    t1.device_.pixel p q = t2.device_.pixel p q := by
  obtain ⟨M, V, _, hT⟩ := hT
  obtain ⟨t1', ht1', _, hp1⟩ := hT s1 h1
  obtain ⟨t2', ht2', _, hp2⟩ := hT s2 h2
  rw [ht1] at ht1'
  rw [ht2] at ht2'
  cases ht1'
  cases ht2'
  by_cases hm : M p q
  · rw [(hp1 p q hp hq).1 hm, (hp2 p q hp hq).1 hm]
  · rw [(hp1 p q hp hq).2 hm, (hp2 p q hp hq).2 hm, hpq]

/-- A stamp on rows `lo .. hi` returns, keeps the state well formed and changes no pixel
outside these rows. -/
theorem Stamp.frame {lo hi : Nat} {T : Oled → Option Oled} (hT : Stamp lo hi T) (s : Oled)
    (h : s.device_.WF) :
    ∃ t, T s = some t ∧ t.device_.WF ∧
      ∀ p q, p < SH1106_WIDTH → q < SH1106_HEIGHT → ¬ (lo ≤ q ∧ q ≤ hi) →
        t.device_.pixel p q = s.device_.pixel p q := by
  obtain ⟨M, V, hrows, hT⟩ := hT
  obtain ⟨t, ht, hwf, hpix⟩ := hT s h
  exact ⟨t, ht, hwf, fun p q hp hq hout => (hpix p q hp hq).2 (fun hm => hout (hrows p q hm))⟩

/-- A left fold of stamp steps over a list is a stamp. -/
theorem Stamp.foldl {lo hi : Nat} (f : Oled → Nat → Oled)
    (hf : ∀ a, Stamp lo hi (fun s => some (f s a))) (l : List Nat) :
    Stamp lo hi (fun s => some (l.foldl f s)) := by
  induction l with
  | nil => exact Stamp.id lo hi
  | cons a l ih =>
    exact Stamp.congr (fun s => by simp only [List.foldl_cons, Option.bind])
      (Stamp.bind (hf a) ih)

/-- The horizontal line of a run is a stamp on its row, whatever the cursor. -/
theorem Stamp.hline (current_x : Int) (y_level : Nat) (zoomed_delta_int : Int) (color : Nat) :
    Stamp y_level y_level
      (fun s => some (s.drawLogicSignal_hline current_x y_level zoomed_delta_int color)) := by
  unfold Oled.drawLogicSignal_hline
  apply Stamp.foldl
  intro dx
  have h := Stamp.ite (fun s => some (Oled.setPixel s
      (toInt16 (current_x + (dx : Int)) % 256).toNat y_level color))
    (fun s => some s)
    (toInt16 (current_x + (dx : Int)) ≥ 0 ∧ toInt16 (current_x + (dx : Int)) < SH1106_WIDTH ∧
      y_level < SH1106_HEIGHT)
    (Stamp.setPixel y_level y_level _ y_level color ⟨Nat.le_refl _, Nat.le_refl _⟩)
    (Stamp.id y_level y_level)
  refine Stamp.congr (fun s => ?_) h
  dsimp only
  split <;> rfl

/-- A level row is `y` or the `uint8_t` value of `y + height - 1`. -/
theorem levelRow_cases (y height v : Nat) :
    levelRow y height v = y ∨ levelRow y height v = (y + height + 255) % 256 := by
  unfold levelRow
  split
  · exact Or.inr rfl
  · exact Or.inl rfl

/-- The vertical transition of a run is a stamp on the rows between the two level rows, if
these are below 255. -/
theorem Stamp.edge (y height color i value cv : Nat) (current_x : Int) (hy : y < 255)
    (hlow : (y + height + 255) % 256 < 255) :
    Stamp (min y ((y + height + 255) % 256)) (max y ((y + height + 255) % 256))
      (fun s => s.drawLogicSignal_edge y height color i value cv current_x) := by
  refine ⟨fun p q => 0 < i ∧ value ≠ cv ∧ (p : Int) = current_x ∧
      min (levelRow y height cv) (levelRow y height value) ≤ q ∧
      q ≤ max (levelRow y height cv) (levelRow y height value),
    fun _ _ => decide (color ≠ 0), ?_, ?_⟩
  · rintro p q ⟨_, _, _, h1, h2⟩
    rcases levelRow_cases y height cv with hc | hc <;>
      rcases levelRow_cases y height value with hv | hv <;>
      rw [hc, hv] at h1 h2 <;> omega
  · intro self hwf
    obtain ⟨self', hs, hwf', hpix⟩ := Oled.drawLogicSignal_edge_pixel self y height color i
      value cv current_x hwf hy hlow
    refine ⟨self', hs, hwf', ?_⟩
    intro p q hp hq
    rw [hpix p q hp hq]
    constructor
    · intro hm
      rw [if_pos hm]
    · intro hm
      rw [if_neg hm]

/-- The run loop is a stamp on the rows between the two level rows, if these are below 255:
for every zoom factor and every cursor. -/
theorem Stamp.signal_loop (y height zoom2 color : Nat) (hy : y < 255)
    (hlow : (y + height + 255) % 256 < 255) (data : List Nat) (i : Nat) (cur2 : Int)
    (cv : Nat) :
    Stamp (min y ((y + height + 255) % 256)) (max y ((y + height + 255) % 256))
      (fun s => Oled.drawLogicSignal_loop y height zoom2 color data i cur2 cv s) := by
  induction data generalizing i cur2 cv with
  | nil => exact Stamp.id _ _
  | cons b rest ih =>
    have hrow : min y ((y + height + 255) % 256)
          ≤ (if (b &&& 0x80) >>> 7 = 0 then (y + height + 255) % 256 else y) ∧
        (if (b &&& 0x80) >>> 7 = 0 then (y + height + 255) % 256 else y)
          ≤ max y ((y + height + 255) % 256) := by
      split <;> omega
    have hE := Stamp.edge y height color i ((b &&& 0x80) >>> 7) cv (floatToInt16 cur2) hy hlow
    have hH := Stamp.mono hrow.1 hrow.2 (Stamp.hline (floatToInt16 cur2)
      (if (b &&& 0x80) >>> 7 = 0 then (y + height + 255) % 256 else y)
      (floatToInt16 (((b &&& 0x7F : Nat) : Int) * (zoom2 : Int))) color)
    have hR := Stamp.ite
      (fun s => some s)
      (fun s => Oled.drawLogicSignal_loop y height zoom2 color rest (i + 1)
        (cur2 + ((b &&& 0x7F : Nat) : Int) * (zoom2 : Int)) ((b &&& 0x80) >>> 7) s)
      (cur2 + ((b &&& 0x7F : Nat) : Int) * (zoom2 : Int) ≥ 2 * (SH1106_WIDTH : Int))
      (Stamp.id _ _) (ih (i + 1) _ _)
    refine Stamp.congr (fun s => ?_) (Stamp.bind hE (Stamp.bind hH hR))
    conv_lhs => rw [Oled.drawLogicSignal_loop]
    dsimp only
    cases Oled.drawLogicSignal_edge s y height color i ((b &&& 0x80) >>> 7) cv
      (floatToInt16 cur2) with
    | none => rfl
    | some s1 =>
      simp only [Option.bind]

/-- `Oled::drawLogicSignal` is a stamp on the rows between the two level rows, if these are
below 255: for every signal pointer, length, scroll offset and zoom factor. -/
theorem Stamp.drawLogicSignal (x y : Nat) (signal_data : Option (List Nat))
    (data_length height x_offset zoom2 color : Nat) (hy : y < 255)
    (hlow : (y + height + 255) % 256 < 255) :
    Stamp (min y ((y + height + 255) % 256)) (max y ((y + height + 255) % 256))
      (fun s => s.drawLogicSignal x y signal_data data_length height x_offset zoom2 color) := by
  cases signal_data with
  | none => exact Stamp.id _ _
  | some data =>
    by_cases hlen : data_length = 0
    · refine Stamp.congr (fun s => ?_) (Stamp.id _ _)
      simp only [Oled.drawLogicSignal, hlen, if_true]
    · refine Stamp.congr (fun s => ?_) (Stamp.signal_loop y height zoom2 color hy hlow
        (data.take data_length) 0 (2 * (x : Int) - 2 * (x_offset : Int)) 0)
      simp only [Oled.drawLogicSignal, hlen, if_false]

/-- The loop of `drawDottedLine50` with a spacing in `1 .. 128` is a stamp on row `y`: with
enough fuel to reach column 128 it ends. -/
theorem Stamp.dotted_loop (x y width spacing color : Nat) (hs1 : 1 ≤ spacing)
    (hs2 : spacing ≤ 128) (fuel px : Nat) (hfuel : 1 ≤ fuel)
    (hreach : px < 128 → 129 ≤ px + fuel) :
    Stamp y y (fun s => Oled.drawDottedLine50_loop x y width spacing color fuel s px) := by
  induction fuel generalizing px with
  | zero => omega
  | succ fuel ih =>
    by_cases hcond : px < x + width ∧ px < SH1106_WIDTH
    · have hpx : px < 128 := hcond.2
      have hnext : (px + spacing) % 256 = px + spacing := by omega
      have hstep : Stamp y y (fun s => some
          (if (((px : Int) - x).tdiv spacing).tmod 2 = 0 then
            (if y < SH1106_HEIGHT then Oled.setPixel s px y color else s)
          else s)) := by
        have h1 := Stamp.ite (fun s => some (Oled.setPixel s px y color))
          (fun s => some s) (y < SH1106_HEIGHT)
          (Stamp.setPixel y y px y color ⟨Nat.le_refl _, Nat.le_refl _⟩) (Stamp.id y y)
        have h2 := Stamp.ite _ (fun s => some s)
          ((((px : Int) - x).tdiv spacing).tmod 2 = 0) h1 (Stamp.id y y)
        refine Stamp.congr (fun s => ?_) h2
        dsimp only
        split <;> [split <;> rfl; rfl]
      have hrec := ih (px + spacing) (by omega) (by omega)
      refine Stamp.congr (fun s => ?_) (Stamp.bind hstep hrec)
      conv_lhs => rw [Oled.drawDottedLine50_loop]
      rw [if_pos hcond, hnext]
      simp only [Option.bind]
    · refine Stamp.congr (fun s => ?_) (Stamp.id y y)
      conv_lhs => rw [Oled.drawDottedLine50_loop]
      rw [if_neg hcond]

/-- `Oled::drawDottedLine50` with a spacing in `1 .. 128` is a stamp on row `y`. -/
theorem Stamp.drawDottedLine50 (x y width spacing color : Nat) (hs1 : 1 ≤ spacing)
    (hs2 : spacing ≤ 128) :
    Stamp y y (fun s => s.drawDottedLine50 x y width spacing color) := by
  unfold Oled.drawDottedLine50
  exact Stamp.dotted_loop x y width spacing color hs1 hs2 256 x (by decide) (by omega)

/-- The width `SH1106_DrawChar` returns does not depend on the state. -/
theorem SH1106_DrawChar_fst (font : FontTable) (dev : SH1106_t) (x y : Nat) (ch : Int)
    (color : Nat) :
    (SH1106_DrawChar font dev x y ch color).1
      = if x + FONT_WIDTH > SH1106_WIDTH ∨ y + FONT_HEIGHT > SH1106_HEIGHT then 0 else 6 := by
  unfold SH1106_DrawChar
  split <;> rfl

/-- `SH1106_DrawChar` is a stamp on the text rows `y .. y + 6`. -/
theorem Stamp.drawChar (font : FontTable) (x y : Nat) (ch : Int) (color : Nat) :
    Stamp y (y + 6)
      (fun s => some { device_ := (SH1106_DrawChar font s.device_ x y ch color).2 }) := by
  by_cases hout : x + FONT_WIDTH > SH1106_WIDTH ∨ y + FONT_HEIGHT > SH1106_HEIGHT
  · refine Stamp.congr (fun s => ?_) (Stamp.id _ _)
    rw [SH1106_DrawChar_reject font s.device_ x y ch color hout]
  · refine ⟨fun p q => y ≤ q ∧ q < y + FONT_HEIGHT ∧ x ≤ p ∧ p ≤ x + FONT_WIDTH,
      fun p q => if p < x + FONT_WIDTH then
          ((font (SH1106_DrawChar_index ch) (p - x)).testBit (q - y) == decide (color ≠ 0))
        else decide (color = 0), ?_, ?_⟩
    · rintro p q ⟨h1, h2, _, _⟩
      simp only [FONT_HEIGHT] at h2
      omega
    · intro self hwf
      have hd := SH1106_DrawChar_pixel font self.device_ x y ch color hwf (by omega) (by omega)
      refine ⟨_, rfl, hd.2.1, ?_⟩
      intro p q hp _
      dsimp only
      rw [hd.2.2 p q hp]
      constructor
      · intro hm
        rw [if_pos hm]
      · intro hm
        rw [if_neg hm]

/-- The string loop is a stamp on the text rows `y .. y + 6`. -/
theorem Stamp.drawString_loop (font : FontTable) (y color : Nat) (str : List Int)
    (current_x total_width : Nat) :
    Stamp y (y + 6) (fun s => some { device_ :=
      (SH1106_DrawString_loop font y color str s.device_ current_x total_width).2 }) := by
  induction str generalizing current_x total_width with
  | nil => exact Stamp.id _ _
  | cons ch str ih =>
    by_cases hfit : current_x + FONT_WIDTH > SH1106_WIDTH
    · refine Stamp.congr (fun s => ?_) (Stamp.id _ _)
      conv_lhs => rw [SH1106_DrawString_loop]
      rw [if_pos hfit]
    · have hrec := ih
        ((current_x + (if current_x + FONT_WIDTH > SH1106_WIDTH ∨
            y + FONT_HEIGHT > SH1106_HEIGHT then 0 else 6)) % 256)
        ((total_width + (if current_x + FONT_WIDTH > SH1106_WIDTH ∨
            y + FONT_HEIGHT > SH1106_HEIGHT then 0 else 6)) % 65536)
      refine Stamp.congr (fun s => ?_)
        (Stamp.bind (Stamp.drawChar font current_x y ch color) hrec)
      conv_lhs => rw [SH1106_DrawString_loop]
      rw [if_neg hfit]
      simp only [Option.bind, SH1106_DrawChar_fst]

/-- `Oled::drawString` is a stamp on the text rows `y .. y + 6`. -/
theorem Stamp.drawString (font : FontTable) (x y : Nat) (str : List Int) (color : Nat) :
    Stamp y (y + 6) (fun s => some (s.drawString font x y str color).2) :=
  Stamp.drawString_loop font y color str x 0

/-- The body of the channel loop is a stamp on the band of its channel, for a channel height
of at least 11 and a band on the display: for every signal, scroll offset and zoom factor. -/
theorem Stamp.channel (font : FontTable) (channel_data : List (Option (List Nat)))
    (data_lengths : List Nat) (start_y channel_height x_offset zoom2 color ch y_pos : Nat)
    (hpos : y_pos = start_y + ch * channel_height) (hh : 11 ≤ channel_height)
    (hband : y_pos + channel_height ≤ 64) :
    Stamp y_pos (y_pos + channel_height - 1)
      (fun s => s.drawLogicChannels_channel font channel_data data_lengths start_y
        channel_height x_offset zoom2 color ch) := by
  have hypos : (start_y + ch * channel_height) % 256 = y_pos := by
    rw [← hpos]
    omega
  have h4 : (y_pos + 4) % 256 = y_pos + 4 := by omega
  have h2 : (y_pos + 2) % 256 = y_pos + 2 := by omega
  have hb : (y_pos + channel_height + 252) % 256 = y_pos + channel_height - 4 := by omega
  have hht : (channel_height + 252) % 256 = channel_height - 4 := by omega
  have hlow : (y_pos + 2 + (channel_height - 4) + 255) % 256 = y_pos + channel_height - 3 := by
    omega
  have hS : Stamp y_pos (y_pos + channel_height - 1)
      (fun s => some (s.drawString font 0 (y_pos + 4) [48 + (ch : Int)] color).2) :=
    Stamp.mono (by omega) (by omega)
      (Stamp.drawString font 0 (y_pos + 4) [48 + (ch : Int)] color)
  have hD : Stamp y_pos (y_pos + channel_height - 1)
      (fun s => s.drawDottedLine50 8 (y_pos + channel_height - 4) (SH1106_WIDTH - 8) 4
        color) :=
    Stamp.mono (by omega) (by omega)
      (Stamp.drawDottedLine50 8 (y_pos + channel_height - 4) (SH1106_WIDTH - 8) 4
        color (by decide) (by decide))
  have hL : ∀ data, Stamp y_pos (y_pos + channel_height - 1)
      (fun s => s.drawLogicSignal 8 (y_pos + 2) (some data) (data_lengths.getD ch 0)
        (channel_height - 4) x_offset zoom2 color) := by
    intro data
    exact Stamp.mono (by rw [hlow]; omega) (by rw [hlow]; omega)
      (Stamp.drawLogicSignal 8 (y_pos + 2) (some data) (data_lengths.getD ch 0)
        (channel_height - 4) x_offset zoom2 color (by omega) (by rw [hlow]; omega))
  have hT3 : Stamp y_pos (y_pos + channel_height - 1)
      (fun s => match channel_data.getD ch none with
        | none => some s
        | some data =>
          if data_lengths.getD ch 0 > 0 then
            s.drawLogicSignal 8 (y_pos + 2) (some data) (data_lengths.getD ch 0)
              (channel_height - 4) x_offset zoom2 color
          else some s) := by
    cases channel_data.getD ch none with
    | none => exact Stamp.id _ _
    | some data => exact Stamp.ite _ _ _ (hL data) (Stamp.id _ _)
  refine Stamp.congr (fun s => ?_) (Stamp.bind (Stamp.bind hS hD) hT3)
  unfold Oled.drawLogicChannels_channel
  simp only [hypos, h4, h2, hb, hht, Option.bind]
  cases (s.drawString font 0 (y_pos + 4) [48 + (ch : Int)] color).2.drawDottedLine50 8
    (y_pos + channel_height - 4) (SH1106_WIDTH - 8) 4 color <;> rfl

/-! ### Channels with and without a signal -/

/-- The channel loop returns and keeps the state well formed, for a channel height of at
least 11 and channels whose bands lie on the display. -/
theorem Oled.drawLogicChannels_loop_some (font : FontTable)
    (cd : List (Option (List Nat))) (dl : List Nat)
    (start_y channel_height x_offset zoom2 color : Nat) (hh : 11 ≤ channel_height)
    (chs : List Nat) (hchs : ∀ ch ∈ chs, start_y + ch * channel_height + channel_height ≤ 64)
    (s : Oled) (h : s.device_.WF) :
    ∃ t, Oled.drawLogicChannels_loop font cd dl start_y channel_height x_offset zoom2 color
        chs s = some t ∧ t.device_.WF := by
  induction chs generalizing s with
  | nil => exact ⟨s, rfl, h⟩
  | cons ch rest ih =>
    obtain ⟨s1, hs1, hwf1, _⟩ := (Stamp.channel font cd dl start_y channel_height x_offset
      zoom2 color ch _ rfl hh (hchs ch (List.mem_cons_self _ _))).frame s h
    obtain ⟨t, ht, hwft⟩ := ih (fun c hc => hchs c (List.mem_cons_of_mem _ hc)) s1 hwf1
    refine ⟨t, ?_, hwft⟩
    rw [Oled.drawLogicChannels_loop, hs1]
    exact ht

/-- Removing the signal of channel `k` changes nothing outside the band of channel `k`
(channels of height 16 from row 0): two runs of the channel loop, one with and one without
the signal of channel `k`, started from states that agree outside that band, end in states
that agree outside that band. -/
theorem Oled.drawLogicChannels_loop_other_bands (font : FontTable)
    (cd : List (Option (List Nat))) (dl : List Nat) (x_offset zoom2 color k : Nat)
    (chs : List Nat) (hchs : ∀ ch ∈ chs, ch < 4) (sA sB : Oled) (hA : sA.device_.WF)
    (hB : sB.device_.WF)
    (hagree : ∀ p q, p < SH1106_WIDTH → q < SH1106_HEIGHT → q / 16 ≠ k →
      sB.device_.pixel p q = sA.device_.pixel p q) :
    ∃ a b, Oled.drawLogicChannels_loop font cd dl 0 16 x_offset zoom2 color chs sA = some a ∧
      Oled.drawLogicChannels_loop font (cd.set k none) dl 0 16 x_offset zoom2 color chs sB
        = some b ∧
      ∀ p q, p < SH1106_WIDTH → q < SH1106_HEIGHT → q / 16 ≠ k →
        b.device_.pixel p q = a.device_.pixel p q := by
  induction chs generalizing sA sB with
  | nil => exact ⟨sA, sB, rfl, rfl, hagree⟩
  | cons ch rest ih =>
    have hch : ch < 4 := hchs ch (List.mem_cons_self _ _)
    have hstA := Stamp.channel font cd dl 0 16 x_offset zoom2 color ch (0 + ch * 16) rfl
      (by decide) (by omega)
    have hstB := Stamp.channel font (cd.set k none) dl 0 16 x_offset zoom2 color ch
      (0 + ch * 16) rfl (by decide) (by omega)
    obtain ⟨a1, ha1, hwfa, hfa⟩ := hstA.frame sA hA
    obtain ⟨b1, hb1, hwfb, hfb⟩ := hstB.frame sB hB
    have hagree1 : ∀ p q, p < SH1106_WIDTH → q < SH1106_HEIGHT → q / 16 ≠ k →
        b1.device_.pixel p q = a1.device_.pixel p q := by
      intro p q hp hq hqk
      by_cases hck : ch = k
      · rw [hfb p q hp hq (by omega), hfa p q hp hq (by omega)]
        exact hagree p q hp hq hqk
      · have hsame : Oled.drawLogicChannels_channel font sB (cd.set k none) dl 0 16 x_offset
            zoom2 color ch = Oled.drawLogicChannels_channel font sB cd dl 0 16 x_offset
            zoom2 color ch := by
          unfold Oled.drawLogicChannels_channel
          have hget : (cd.set k none).getD ch none = cd.getD ch none := by
            rw [List.getD_eq_getElem?_getD, List.getD_eq_getElem?_getD,
              List.getElem?_set_ne (fun h => hck h.symm)]
          rw [hget]
        rw [hsame] at hb1
        exact hstA.agree hB hA hb1 ha1 p q hp hq (hagree p q hp hq hqk)
    obtain ⟨a, b, ha, hb, hab⟩ := ih (fun c hc => hchs c (List.mem_cons_of_mem _ hc)) a1 b1
      hwfa hwfb hagree1
    refine ⟨a, b, ?_, ?_, hab⟩
    · rw [Oled.drawLogicChannels_loop, ha1]
      exact ha
    · rw [Oled.drawLogicChannels_loop, hb1]
      exact hb

/-- In a run of the channel loop (channels of height 16 from row 0) the band of channel `k`
ends up as the body of channel `k` alone leaves it. -/
theorem Oled.drawLogicChannels_loop_own_band (font : FontTable)
    (cd : List (Option (List Nat))) (dl : List Nat) (x_offset zoom2 color k : Nat)
    (self base : Oled) (hself : self.device_.WF)
    (hbase : self.drawLogicChannels_channel font cd dl 0 16 x_offset zoom2 color k
      = some base)
    (chs : List Nat) (hchs : ∀ ch ∈ chs, ch < 4) (hnodup : chs.Nodup) (s : Oled)
    (h : s.device_.WF)
    (hinv : (k ∈ chs ∧ ∀ p q, p < SH1106_WIDTH → q < SH1106_HEIGHT → q / 16 = k →
        s.device_.pixel p q = self.device_.pixel p q) ∨
      (k ∉ chs ∧ ∀ p q, p < SH1106_WIDTH → q < SH1106_HEIGHT → q / 16 = k →
        s.device_.pixel p q = base.device_.pixel p q)) :
    ∃ t, Oled.drawLogicChannels_loop font cd dl 0 16 x_offset zoom2 color chs s = some t ∧
      ∀ p q, p < SH1106_WIDTH → q < SH1106_HEIGHT → q / 16 = k →
        t.device_.pixel p q = base.device_.pixel p q := by
  induction chs generalizing s with
  | nil =>
    rcases hinv with ⟨hk, _⟩ | ⟨_, hs⟩
    · simp at hk
    · exact ⟨s, rfl, hs⟩
  | cons ch rest ih =>
    have hch : ch < 4 := hchs ch (List.mem_cons_self _ _)
    have hst := Stamp.channel font cd dl 0 16 x_offset zoom2 color ch (0 + ch * 16) rfl
      (by decide) (by omega)
    obtain ⟨s1, hs1, hwf1, hf1⟩ := hst.frame s h
    have hnd := List.nodup_cons.mp hnodup
    have hinv1 : (k ∈ rest ∧ ∀ p q, p < SH1106_WIDTH → q < SH1106_HEIGHT → q / 16 = k →
          s1.device_.pixel p q = self.device_.pixel p q) ∨
        (k ∉ rest ∧ ∀ p q, p < SH1106_WIDTH → q < SH1106_HEIGHT → q / 16 = k →
          s1.device_.pixel p q = base.device_.pixel p q) := by
      by_cases hck : ch = k
      · right
        subst hck
        refine ⟨hnd.1, ?_⟩
        intro p q hp hq hqk
        rcases hinv with ⟨_, hs⟩ | ⟨hk, _⟩
        · exact hst.agree h hself hs1 hbase p q hp hq (hs p q hp hq hqk)
        · exact absurd (List.mem_cons_self _ _) hk
      · rcases hinv with ⟨hk, hs⟩ | ⟨hk, hs⟩
        · left
          refine ⟨?_, ?_⟩
          · rcases List.mem_cons.mp hk with hk | hk
            · exact absurd hk.symm hck
            · exact hk
          · intro p q hp hq hqk
            rw [hf1 p q hp hq (by omega)]
            exact hs p q hp hq hqk
        · right
          refine ⟨fun hmem => hk (List.mem_cons_of_mem _ hmem), ?_⟩
          intro p q hp hq hqk
          rw [hf1 p q hp hq (by omega)]
          exact hs p q hp hq hqk
    obtain ⟨t, ht, htb⟩ := ih (fun c hc => hchs c (List.mem_cons_of_mem _ hc)) hnd.2 s1 hwf1
      hinv1
    refine ⟨t, ?_, htb⟩
    rw [Oled.drawLogicChannels_loop, hs1]
    exact ht

/-! ### C18 - C19: malformed input and missing channels -/

/-- C18: `drawLogicSignal` with `signal_data = null` or `data_length = 0` returns the state
it was given, and `drawLogicChannels` with `channel_data = null`, `data_lengths = null` or
`num_channels = 0` returns the state it was given, for every other argument value. -/
theorem C18_null_inputs_are_noops (font : FontTable) (self : Oled) :
    (∀ x y data_length height x_offset zoom2 color,
      self.drawLogicSignal x y none data_length height x_offset zoom2 color = some self) ∧
    (∀ x y signal_data height x_offset zoom2 color,
      self.drawLogicSignal x y signal_data 0 height x_offset zoom2 color = some self) ∧
    (∀ data_lengths num_channels start_y channel_height x_offset zoom2 color,
      self.drawLogicChannels font none data_lengths num_channels start_y channel_height
        x_offset zoom2 color = some self) ∧
    (∀ channel_data num_channels start_y channel_height x_offset zoom2 color,
      self.drawLogicChannels font channel_data none num_channels start_y channel_height
        x_offset zoom2 color = some self) ∧
    (∀ channel_data data_lengths start_y channel_height x_offset zoom2 color,
      self.drawLogicChannels font channel_data data_lengths 0 start_y channel_height
        x_offset zoom2 color = some self) := by
  refine ⟨fun _ _ _ _ _ _ _ => rfl, ?_, fun _ _ _ _ _ _ _ => rfl, ?_, ?_⟩
  · intro x y signal_data height x_offset zoom2 color
    cases signal_data <;> rfl
  · intro channel_data num_channels start_y channel_height x_offset zoom2 color
    cases channel_data <;> rfl
  · intro channel_data data_lengths start_y channel_height x_offset zoom2 color
    cases channel_data <;> cases data_lengths <;> rfl

/-- C19: for a 4-channel `drawLogicChannels` call (`start_y = 0`, `channel_height = 16`) in
which the pointer of exactly one channel `k` is null, the call returns (the null pointer is
never read), the 16-row bands of the three other channels contain exactly the pixels they
contain when all four channels are present, and the band of channel `k` contains exactly
what its label and its dotted baseline leave there: no waveform pixel. -/
theorem C19_null_channel_skipped (font : FontTable) (self : Oled) (d0 d1 d2 d3 : List Nat)
    (data_lengths : List Nat) (x_offset zoom2 color k : Nat) (h : self.device_.WF)
    (hk : k < 4) :
    ∃ full part base,
      self.drawLogicChannels font (some [some d0, some d1, some d2, some d3])
        (some data_lengths) 4 0 16 x_offset zoom2 color = some full ∧
      self.drawLogicChannels font (some ([some d0, some d1, some d2, some d3].set k none))
        (some data_lengths) 4 0 16 x_offset zoom2 color = some part ∧
      (self.drawString font 0 (16 * k + 4) [48 + (k : Int)] color).2.drawDottedLine50 8
        (16 * k + 12) 120 4 color = some base ∧
      (∀ p q, p < 128 → q < 64 → q / 16 ≠ k →
        part.device_.pixel p q = full.device_.pixel p q) ∧
      (∀ p q, p < 128 → q < 64 → q / 16 = k →
        part.device_.pixel p q = base.device_.pixel p q) := by
  have hrange : ∀ ch ∈ List.range 4, ch < 4 := fun ch hc => List.mem_range.mp hc
  obtain ⟨full, part, hfull, hpart, hother⟩ := Oled.drawLogicChannels_loop_other_bands font
    [some d0, some d1, some d2, some d3] data_lengths x_offset zoom2 color k (List.range 4)
    hrange self self h h (fun _ _ _ _ _ => rfl)
  obtain ⟨s1, hs1, hwf1, _⟩ :=
    (Stamp.drawString font 0 (16 * k + 4) [48 + (k : Int)] color).frame self h
  cases hs1
  obtain ⟨base, hbase, _, _⟩ :=
    (Stamp.drawDottedLine50 8 (16 * k + 12) 120 4 color (by decide) (by decide)).frame _ hwf1
  have hchan : self.drawLogicChannels_channel font
      ([some d0, some d1, some d2, some d3].set k none) data_lengths 0 16 x_offset zoom2
      color k = some base := by
    have hget : ([some d0, some d1, some d2, some d3].set k none).getD k none = none := by
      interval_cases k <;> rfl
    have h1 : ((0 + k * 16) % 256 + 4) % 256 = 16 * k + 4 := by omega
    have h2 : ((0 + k * 16) % 256 + 16 + 252) % 256 = 16 * k + 12 := by omega
    unfold Oled.drawLogicChannels_channel
    simp only [h1, h2, hget]
    rw [show SH1106_WIDTH - 8 = 120 from rfl, hbase]
  obtain ⟨part', hpart', hown⟩ := Oled.drawLogicChannels_loop_own_band font
    ([some d0, some d1, some d2, some d3].set k none) data_lengths x_offset zoom2 color k
    self base h hchan (List.range 4) hrange (List.nodup_range 4) self h
    (Or.inl ⟨List.mem_range.mpr hk, fun _ _ _ _ _ => rfl⟩)
  rw [hpart] at hpart'
  cases hpart'
  exact ⟨full, part, base, hfull, hpart, hbase, hother, hown⟩

/-- C19 for a newly constructed display with channel 1 missing. -/
theorem C19_null_channel_skipped_witness :
    Oled.new.device_.WF ∧ 1 < 4 ∧
    ∃ full part base,
      Oled.new.drawLogicChannels sampleFont
        (some [some [0x14, 0x9E], some [0x85, 0x05], some [0x7F], some [0x0A, 0x8A]])
        (some [2, 2, 1, 2]) 4 0 16 0 2 1 = some full ∧
      Oled.new.drawLogicChannels sampleFont
        (some ([some [0x14, 0x9E], some [0x85, 0x05], some [0x7F], some [0x0A, 0x8A]].set 1
          none))
        (some [2, 2, 1, 2]) 4 0 16 0 2 1 = some part ∧
      (Oled.new.drawString sampleFont 0 (16 * 1 + 4) [48 + ((1 : Nat) : Int)] 1).2.drawDottedLine50
        8 (16 * 1 + 12) 120 4 1 = some base ∧
      (∀ p q, p < 128 → q < 64 → q / 16 ≠ 1 →
        part.device_.pixel p q = full.device_.pixel p q) ∧
      (∀ p q, p < 128 → q < 64 → q / 16 = 1 →
        part.device_.pixel p q = base.device_.pixel p q) :=
  ⟨Oled_new_WF, by decide,
    C19_null_channel_skipped sampleFont Oled.new [0x14, 0x9E] [0x85, 0x05] [0x7F] [0x0A, 0x8A]
      [2, 2, 1, 2] 0 2 1 1 Oled_new_WF (by decide)⟩

/-! ### C20: zoom and scroll range -/

/-- The 16-bit length of `n` equal runs. -/
theorem calculateSignalLength_replicate (n b : Nat) :
    calculateSignalLength (List.replicate n b) n = (n * (b &&& 0x7F)) % 65536 := by
  have hfold : ∀ m acc, acc < 65536 →
      (List.replicate m b).foldl (fun total_length c => (total_length + (c &&& 0x7F)) % 65536) acc
        = (acc + m * (b &&& 0x7F)) % 65536 := by
    intro m
    induction m with
    | zero =>
      intro acc hacc
      simp only [List.replicate_zero, List.foldl_nil, Nat.zero_mul, Nat.add_zero]
      omega
    | succ m ih =>
      intro acc hacc
      rw [List.replicate_succ, List.foldl_cons, ih _ (Nat.mod_lt _ (by decide))]
      rw [Nat.succ_mul]
      omega
  unfold calculateSignalLength
  rw [List.take_of_length_le (by simp), hfold n 0 (by decide), Nat.zero_add]

/-- C20 as stated fails: for the signal of 259 runs of length 127 the 16-bit total is 32893;
both zoomed lengths exceed the visible width of 120, yet the scroll range at zoom 2.0 is
130, below the 32773 at zoom 1.0, because `(uint16_t)(32893 * 2.0)` does not fit 16 bits. -/
theorem C20_zoom_monotone_counterexample :
    calculateSignalLength (List.replicate 259 0x7F) 259 = 32893 ∧
    (32893 * 2 / 2) % 65536 > 120 ∧ (32893 * 4 / 2) % 65536 > 120 ∧
    testTask_max_scroll 32893 2 = 32773 ∧ testTask_max_scroll 32893 4 = 130 ∧
    ¬ (testTask_max_scroll (calculateSignalLength (List.replicate 259 0x7F) 259) 4
        ≥ testTask_max_scroll (calculateSignalLength (List.replicate 259 0x7F) 259) 2) := by
  have hlen : calculateSignalLength (List.replicate 259 0x7F) 259 = 32893 := by
    rw [calculateSignalLength_replicate]
    decide
  rw [hlen]
  decide

/-- C20 (amended): for every signal whose length, computed by `calculateSignalLength` as a
16-bit sum, still fits 16 bits when doubled (`2 * total <= 65535`), the scroll range
`testTask` computes at zoom 2.0 is at least the one at zoom 1.0, and strictly greater
whenever the signal exceeds the 120-pixel visible width; the range at zoom 1.0 is the one
computed at start-up. -/
theorem C20_zoom_monotone (signal_data : List Nat) (data_length : Nat)
    (hfit : 2 * calculateSignalLength signal_data data_length ≤ 65535) :
    testTask_max_scroll (calculateSignalLength signal_data data_length) 4
      ≥ testTask_max_scroll (calculateSignalLength signal_data data_length) 2 ∧
    (calculateSignalLength signal_data data_length > 120 →
      testTask_max_scroll (calculateSignalLength signal_data data_length) 4
        > testTask_max_scroll (calculateSignalLength signal_data data_length) 2) ∧
    testTask_max_scroll (calculateSignalLength signal_data data_length) 2
      = testTask_max_scroll_initial (calculateSignalLength signal_data data_length) := by
  generalize calculateSignalLength signal_data data_length = total at hfit
  unfold testTask_max_scroll testTask_max_scroll_initial
  have h1 : total * 2 / 2 % 65536 = total := by omega
  have h2 : total * 4 / 2 % 65536 = 2 * total := by omega
  simp only [h1, h2]
  refine ⟨?_, ?_, trivial⟩
  · split <;> split <;> omega
  · intro hbig
    rw [if_pos (by omega), if_pos hbig]
    omega

/-- C20 (amended) for the signal LOW 100, HIGH 100 (total 200). -/
theorem C20_zoom_monotone_witness :
    2 * calculateSignalLength [0x64, 0xE4] 2 ≤ 65535 ∧
    testTask_max_scroll (calculateSignalLength [0x64, 0xE4] 2) 4
      > testTask_max_scroll (calculateSignalLength [0x64, 0xE4] 2) 2 :=
  ⟨by decide, (C20_zoom_monotone [0x64, 0xE4] 2 (by decide)).2.1 (by decide)⟩

/-! ### C21: the scroll offset stays inside the scroll range -/

/-- The zoom branch leaves the offset inside the (recomputed) range. -/
theorem testTask_zoom_inv (total : Nat) (delta : Int) (s : TestTaskState)
    (h : s.scroll_offset ≤ s.max_scroll) :
    (testTask_zoom total delta s).scroll_offset ≤ (testTask_zoom total delta s).max_scroll := by
  unfold testTask_zoom
  dsimp only
  generalize (if delta > 0 then
      (if (s.current_zoom_index : Int) < (num_zoom_levels : Int) - 1 then
        (s.current_zoom_index : Int) + 1 else (s.current_zoom_index : Int))
    else (if (s.current_zoom_index : Int) > 0 then (s.current_zoom_index : Int) - 1
      else (s.current_zoom_index : Int))) = n
  split_ifs <;> first | omega | (dsimp only; omega)

/-- The scroll branch leaves the offset inside the range, for every delta. -/
theorem testTask_scroll_inv (delta : Int) (s : TestTaskState)
    (h : s.scroll_offset ≤ s.max_scroll) (hm : s.max_scroll < 65536) :
    (testTask_scroll delta s).scroll_offset ≤ (testTask_scroll delta s).max_scroll ∧
    (testTask_scroll delta s).max_scroll = s.max_scroll := by
  unfold testTask_scroll
  dsimp only
  generalize toInt16 ((s.scroll_offset : Int) + delta * 4) = v
  split_ifs <;> first | omega | (dsimp only; omega)

/-- The scroll range is a 16-bit value. -/
theorem testTask_max_scroll_lt (total zoom2 : Nat) : testTask_max_scroll total zoom2 < 65536 := by
  unfold testTask_max_scroll
  dsimp only
  split <;> omega

/-- The zoom branch keeps the range a 16-bit value. -/
theorem testTask_zoom_max_lt (total : Nat) (delta : Int) (s : TestTaskState)
    (hm : s.max_scroll < 65536) : (testTask_zoom total delta s).max_scroll < 65536 := by
  unfold testTask_zoom
  dsimp only
  generalize (if delta > 0 then
      (if (s.current_zoom_index : Int) < (num_zoom_levels : Int) - 1 then
        (s.current_zoom_index : Int) + 1 else (s.current_zoom_index : Int))
    else (if (s.current_zoom_index : Int) > 0 then (s.current_zoom_index : Int) - 1
      else (s.current_zoom_index : Int))) = n
  split_ifs
  all_goals first | exact hm | exact testTask_max_scroll_lt _ _

/-- Every event keeps `scroll_offset <= max_scroll < 65536`. -/
theorem testTask_step_inv (total : Nat) (s : TestTaskState) (e : TestTaskEvent)
    (h : s.scroll_offset ≤ s.max_scroll) (hm : s.max_scroll < 65536) :
    (testTask_step total s e).scroll_offset ≤ (testTask_step total s e).max_scroll ∧
    (testTask_step total s e).max_scroll < 65536 := by
  cases e with
  | showAnalyzer => simp only [testTask_step]; split_ifs <;> exact ⟨h, hm⟩
  | press => simp only [testTask_step]; split_ifs <;> exact ⟨h, hm⟩
  | longPress => simp only [testTask_step]; split_ifs <;> exact ⟨h, hm⟩
  | rotate delta =>
    simp only [testTask_step, testTask_handleRotation]
    split_ifs
    · exact ⟨testTask_zoom_inv total delta s h, testTask_zoom_max_lt total delta s hm⟩
    · have := testTask_scroll_inv delta s h hm
      exact ⟨this.1, by rw [this.2]; exact hm⟩
    · exact ⟨h, hm⟩

/-- The invariant along any run from any state that has it. -/
theorem testTask_foldl_inv (total : Nat) (events : List TestTaskEvent) (s : TestTaskState)
    (h : s.scroll_offset ≤ s.max_scroll) (hm : s.max_scroll < 65536) :
    (events.foldl (testTask_step total) s).scroll_offset
      ≤ (events.foldl (testTask_step total) s).max_scroll ∧
    (events.foldl (testTask_step total) s).max_scroll < 65536 := by
  induction events generalizing s with
  | nil => exact ⟨h, hm⟩
  | cons e es ih =>
    rw [List.foldl_cons]
    exact ih _ (testTask_step_inv total s e h hm).1 (testTask_step_inv total s e h hm).2

/-- The start-up range is a 16-bit value. -/
theorem testTask_start_inv (signal_data : List Nat) (data_length : Nat) :
    (testTask_start signal_data data_length).scroll_offset
      ≤ (testTask_start signal_data data_length).max_scroll ∧
    (testTask_start signal_data data_length).max_scroll < 65536 := by
  have hlen : ∀ (l : List Nat) (acc : Nat), acc < 65536 →
      l.foldl (fun total_length b => (total_length + (b &&& 0x7F)) % 65536) acc < 65536 := by
    intro l
    induction l with
    | nil => intro acc h; exact h
    | cons b l ih => intro acc _; exact ih _ (Nat.mod_lt _ (by decide))
  have := hlen (signal_data.take data_length) 0 (by decide)
  unfold testTask_start testTask_max_scroll_initial calculateSignalLength
  dsimp only
  refine ⟨Nat.zero_le _, ?_⟩
  split <;> omega

/-- C21: in the scroll / zoom state machine of `testTask`, `0 <= scroll_offset <= max_scroll`
(both 16-bit unsigned values) holds initially and after every sequence of events, for every
reference signal and every rotation delta, positive or negative.  A rotation handled in
scroll mode keeps the range and, when `scroll_offset + 4 * delta` fits the `int16_t` it is
stored in, sets the offset to that sum clamped to `[0, max_scroll]`; a zoom change
recomputes `max_scroll` and clamps `scroll_offset` down to it. -/
theorem C21_scroll_offset_in_range (signal_data : List Nat) (data_length : Nat)
    (events : List TestTaskEvent) :
    (0 ≤ (testTask_run signal_data data_length events).scroll_offset ∧
      (testTask_run signal_data data_length events).scroll_offset
        ≤ (testTask_run signal_data data_length events).max_scroll ∧
      (testTask_run signal_data data_length events).max_scroll < 65536) ∧
    (∀ (delta : Int) (s : TestTaskState), s.scroll_offset ≤ s.max_scroll →
      s.max_scroll < 65536 →
      -32768 ≤ (s.scroll_offset : Int) + 4 * delta →
      (s.scroll_offset : Int) + 4 * delta ≤ 32767 →
      (testTask_scroll delta s).max_scroll = s.max_scroll ∧
      ((testTask_scroll delta s).scroll_offset : Int)
        = max 0 (min ((s.scroll_offset : Int) + 4 * delta) s.max_scroll)) ∧
    (∀ (total : Nat) (delta : Int) (s : TestTaskState),
      (testTask_zoom total delta s).current_zoom_index ≠ s.current_zoom_index →
      (testTask_zoom total delta s).max_scroll
        = testTask_max_scroll total (testTask_zoom total delta s).zoom_level ∧
      (testTask_zoom total delta s).scroll_offset
        = min s.scroll_offset (testTask_zoom total delta s).max_scroll) := by
  refine ⟨?_, ?_, ?_⟩
  · have h0 := testTask_start_inv signal_data data_length
    have := testTask_foldl_inv (calculateSignalLength signal_data data_length) events
      (testTask_start signal_data data_length) h0.1 h0.2
    exact ⟨Nat.zero_le _, this.1, this.2⟩
  · intro delta s h hm hlo hhi
    refine ⟨(testTask_scroll_inv delta s h hm).2, ?_⟩
    unfold testTask_scroll
    dsimp only
    rw [toInt16_of_range _ (by omega) (by omega)]
    split_ifs <;> first | omega | (dsimp only; omega)
  · intro total delta s hne
    unfold testTask_zoom at hne ⊢
    dsimp only at hne ⊢
    generalize (if delta > 0 then
        (if (s.current_zoom_index : Int) < (num_zoom_levels : Int) - 1 then
          (s.current_zoom_index : Int) + 1 else (s.current_zoom_index : Int))
      else (if (s.current_zoom_index : Int) > 0 then (s.current_zoom_index : Int) - 1
        else (s.current_zoom_index : Int))) = n at hne ⊢
    by_cases hc : n ≠ (s.current_zoom_index : Int)
    · rw [if_pos hc]
      dsimp only
      refine ⟨rfl, ?_⟩
      split <;> omega
    · rw [if_neg hc] at hne
      exact absurd rfl hne

/-- C21 on a run that scrolls right past the end, enters zoom mode and zooms out: the
offset is clamped to the range each time. -/
theorem C21_scroll_offset_in_range_witness :
    (testTask_run [0x64, 0xE4] 2
        [.showAnalyzer, .rotate 30, .longPress, .rotate (-1)]).scroll_offset = 0 ∧
    (testTask_run [0x64, 0xE4] 2 [.showAnalyzer, .rotate 30]).scroll_offset = 80 ∧
    (testTask_run [0x64, 0xE4] 2 [.showAnalyzer, .rotate 30]).scroll_offset
      ≤ (testTask_run [0x64, 0xE4] 2 [.showAnalyzer, .rotate 30]).max_scroll :=
  ⟨by decide, by decide,
    (C21_scroll_offset_in_range [0x64, 0xE4] 2 [.showAnalyzer, .rotate 30]).1.2.1⟩

/-! ### C22: the row loop of a vertical segment -/

/-- When the larger of the two level rows is 255 the row loop of a vertical segment does not
end: the `uint8_t` counter never exceeds 255, so no amount of fuel gives a result. -/
theorem Oled.drawLogicSignal_vline_255 (current_x : Int) (y_start y_end color : Nat)
    (hmax : (if y_start > y_end then y_start else y_end) = 255) (fuel : Nat) (self : Oled)
    (py : Nat) (hpy : py ≤ 255) :
    Oled.drawLogicSignal_vline current_x y_start y_end color fuel self py = none := by
  induction fuel generalizing self py with
  | zero => rfl
  | succ fuel ih =>
    unfold Oled.drawLogicSignal_vline
    rw [hmax, if_pos hpy]
    exact ih _ _ (by omega)

/-- C22 fails on the code: for `y = 60`, `height = 196` (level rows 60 and 255) and the
signal LOW 1, HIGH 1 drawn at `x = 0`, zoom 1.0, scroll 0, the row loop of the vertical
segment in front of the second run starts at row 60 and runs to row 255 inclusive; its
8-bit counter wraps from 255 to 0, so the loop returns for no amount of fuel, and
`drawLogicSignal` does not return. -/
theorem C22_vertical_segment_never_ends :
    (∀ (fuel : Nat) (self : Oled),
      Oled.drawLogicSignal_vline 1 255 60 1 fuel self 60 = none) ∧
    Oled.drawLogicSignal Oled.new 0 60 (some [0x01, 0x81]) 2 196 0 2 1 = none := by
  refine ⟨fun fuel self => Oled.drawLogicSignal_vline_255 1 255 60 1 (by decide) fuel self 60
    (by decide), ?_⟩
  have hstep : ∀ s : Oled, Oled.drawLogicSignal_loop 60 196 2 1 [0x81] 1 2 0 s = none := by
    intro s
    rw [Oled.drawLogicSignal_loop]
    have hedge : s.drawLogicSignal_edge 60 196 1 1 ((0x81 &&& 0x80) >>> 7) 0 (floatToInt16 2)
        = none := by
      unfold Oled.drawLogicSignal_edge
      rw [if_pos (by decide), if_pos (by decide)]
      exact Oled.drawLogicSignal_vline_255 _ _ _ _ (by decide) 256 s _ (by decide)
    simp only [hedge]
  unfold Oled.drawLogicSignal
  simp only [List.take, if_neg (by decide : ¬ (2 = 0))]
  rw [Oled.drawLogicSignal_loop]
  have hedge0 : ∀ s : Oled, s.drawLogicSignal_edge 60 196 1 0 ((0x01 &&& 0x80) >>> 7) 0
      (floatToInt16 (2 * ((0 : Nat) : Int) - 2 * ((0 : Nat) : Int))) = some s := by
    intro s
    unfold Oled.drawLogicSignal_edge
    rw [if_neg (by decide)]
  simp only [hedge0]
  rw [if_neg (by decide)]
  exact hstep _

/-! ### C23: the drawing functions touch the framebuffer only -/

/-- Replacing the other fields commutes with `SH1106_SetPixel`. -/
theorem SH1106_SetPixel_withFields (dev : SH1106_t) (x y color a : Nat) (p : List Nat)
    (i : Bool) :
    SH1106_SetPixel (dev.withFields a p i) x y color
      = (SH1106_SetPixel dev x y color).withFields a p i := by
  unfold SH1106_SetPixel SH1106_SetPixel_checked SH1106_t.withFields
  dsimp only
  split_ifs <;> rfl

/-- Replacing the other fields commutes with a fold of steps that commute with it. -/
theorem foldl_withFields {β : Type} (f : SH1106_t → β → SH1106_t) (a : Nat) (p : List Nat)
    (i : Bool) (hf : ∀ d b, f (d.withFields a p i) b = (f d b).withFields a p i)
    (l : List β) (dev : SH1106_t) :
    l.foldl f (dev.withFields a p i) = (l.foldl f dev).withFields a p i := by
  induction l generalizing dev with
  | nil => rfl
  | cons b l ih => rw [List.foldl_cons, List.foldl_cons, hf, ih]

/-- Replacing the other fields commutes with `SH1106_DrawChar`. -/
theorem SH1106_DrawChar_withFields (font : FontTable) (dev : SH1106_t) (x y : Nat) (ch : Int)
    (color a : Nat) (p : List Nat) (i : Bool) :
    SH1106_DrawChar font (dev.withFields a p i) x y ch color
      = ((SH1106_DrawChar font dev x y ch color).1,
          (SH1106_DrawChar font dev x y ch color).2.withFields a p i) := by
  have hcol : ∀ (d : SH1106_t) (col : Nat),
      SH1106_DrawChar_column (d.withFields a p i) x y col
          (font (SH1106_DrawChar_index ch) col) color
        = (SH1106_DrawChar_column d x y col (font (SH1106_DrawChar_index ch) col)
            color).withFields a p i := by
    intro d col
    unfold SH1106_DrawChar_column
    apply foldl_withFields
    intro d b
    split <;> exact SH1106_SetPixel_withFields _ _ _ _ _ _ _
  have hsp : ∀ d : SH1106_t, SH1106_DrawChar_spacing (d.withFields a p i) x y color
      = (SH1106_DrawChar_spacing d x y color).withFields a p i := by
    intro d
    unfold SH1106_DrawChar_spacing
    apply foldl_withFields
    intro d b
    exact SH1106_SetPixel_withFields _ _ _ _ _ _ _
  unfold SH1106_DrawChar
  split
  · rfl
  · dsimp only
    rw [foldl_withFields _ a p i hcol, hsp]

/-- Replacing the other fields commutes with the loop of `SH1106_DrawString`. -/
theorem SH1106_DrawString_loop_withFields (font : FontTable) (y color : Nat) (str : List Int)
    (dev : SH1106_t) (current_x total_width a : Nat) (p : List Nat) (i : Bool) :
    SH1106_DrawString_loop font y color str (dev.withFields a p i) current_x total_width
      = ((SH1106_DrawString_loop font y color str dev current_x total_width).1,
          (SH1106_DrawString_loop font y color str dev current_x total_width).2.withFields
            a p i) := by
  induction str generalizing dev current_x total_width with
  | nil => rfl
  | cons ch str ih =>
    unfold SH1106_DrawString_loop
    split
    · rfl
    · dsimp only
      rw [SH1106_DrawChar_withFields]
      exact ih _ _ _

/-- A step that commutes with replacing the other fields, and keeps them, is
framebuffer-only. -/
theorem FramebufferOnly.of_comm (T : Oled → Option Oled)
    (h : ∀ (self : Oled) (a : Nat) (p : List Nat) (i : Bool),
      T (self.withFields a p i) = (T self).map (fun s => s.withFields a p i)) :
    FramebufferOnly T := by
  intro self a p i
  refine ⟨h self a p i, ?_⟩
  intro self' hs
  have hself : self.withFields self.device_.address self.device_.prev_framebuffer
      self.device_.initialized = self := rfl
  have h2 := h self self.device_.address self.device_.prev_framebuffer
    self.device_.initialized
  rw [hself, hs] at h2
  simp only [Option.map_some', Option.some.injEq] at h2
  rw [h2]
  exact ⟨rfl, rfl, rfl⟩

/-- A total framebuffer-only function, as a step. -/
theorem FramebufferOnly.total (f : Oled → Oled)
    (h : ∀ (self : Oled) (a : Nat) (p : List Nat) (i : Bool),
      f (self.withFields a p i) = (f self).withFields a p i) :
    FramebufferOnly (fun s => some (f s)) :=
  FramebufferOnly.of_comm _ (fun self a p i => by rw [h]; rfl)

/-- Two framebuffer-only steps in sequence. -/
theorem FramebufferOnly.keeps_bind {T1 T2 : Oled → Option Oled} (h1 : FramebufferOnly T1)
    (h2 : FramebufferOnly T2) : FramebufferOnly (fun s => (T1 s).bind T2) := by
  apply FramebufferOnly.of_comm
  intro self a p i
  dsimp only
  rw [(h1 self a p i).1]
  cases T1 self with
  | none => rfl
  | some s1 =>
    simp only [Option.map_some', Option.some_bind]
    exact (h2 s1 a p i).1

/-- A choice between two framebuffer-only steps on a condition that is not on the state. -/
theorem FramebufferOnly.keeps_ite (T1 T2 : Oled → Option Oled) (c : Prop) [Decidable c]
    (h1 : FramebufferOnly T1) (h2 : FramebufferOnly T2) :
    FramebufferOnly (fun s => if c then T1 s else T2 s) := by
  by_cases hc : c
  · simp only [hc, if_true]
    exact h1
  · simp only [hc, if_false]
    exact h2

/-- Doing nothing is framebuffer-only. -/
theorem FramebufferOnly.keeps_id : FramebufferOnly (fun s => some s) :=
  FramebufferOnly.total (fun s => s) (fun _ _ _ _ => rfl)

/-- `Oled::setPixel` is framebuffer-only. -/
theorem FramebufferOnly.keeps_setPixel (x y color : Nat) :
    FramebufferOnly (fun s => some (Oled.setPixel s x y color)) :=
  FramebufferOnly.total _ (fun self a p i => by
    unfold Oled.setPixel Oled.withFields
    rw [SH1106_SetPixel_withFields])

/-- A fold of framebuffer-only total steps. -/
theorem FramebufferOnly.keeps_foldl {β : Type} (f : Oled → β → Oled)
    (hf : ∀ b, FramebufferOnly (fun s => some (f s b))) (l : List β) :
    FramebufferOnly (fun s => some (l.foldl f s)) := by
  apply FramebufferOnly.total
  intro self a p i
  induction l generalizing self with
  | nil => rfl
  | cons b l ih =>
    rw [List.foldl_cons, List.foldl_cons]
    have := ((hf b) self a p i).1
    simp only [Option.map_some', Option.some.injEq] at this
    rw [this, ih]

/-- `Oled::drawChar` is framebuffer-only and returns the same width. -/
theorem Oled.drawChar_withFields (font : FontTable) (self : Oled) (x y : Nat) (ch : Int)
    (color a : Nat) (p : List Nat) (i : Bool) :
    (self.withFields a p i).drawChar font x y ch color
      = ((self.drawChar font x y ch color).1,
          (self.drawChar font x y ch color).2.withFields a p i) := by
  unfold Oled.drawChar Oled.withFields
  dsimp only
  rw [SH1106_DrawChar_withFields]

/-- `Oled::drawString` is framebuffer-only and returns the same width. -/
theorem Oled.drawString_withFields (font : FontTable) (self : Oled) (x y : Nat)
    (str : List Int) (color a : Nat) (p : List Nat) (i : Bool) :
    (self.withFields a p i).drawString font x y str color
      = ((self.drawString font x y str color).1,
          (self.drawString font x y str color).2.withFields a p i) := by
  unfold Oled.drawString Oled.withFields SH1106_DrawString
  dsimp only
  rw [SH1106_DrawString_loop_withFields]

/-- The loop of `drawDottedLine50` is framebuffer-only. -/
theorem FramebufferOnly.keeps_dotted_loop (x y width spacing color : Nat) (fuel px : Nat) :
    FramebufferOnly (fun s => Oled.drawDottedLine50_loop x y width spacing color fuel s px) := by
  induction fuel generalizing px with
  | zero =>
    apply FramebufferOnly.of_comm
    intro self a p i
    rfl
  | succ fuel ih =>
    by_cases hc : px < x + width ∧ px < SH1106_WIDTH
    · have h1 := FramebufferOnly.keeps_ite (fun s => some (Oled.setPixel s px y color))
        (fun s => some s) (y < SH1106_HEIGHT) (FramebufferOnly.keeps_setPixel px y color)
        FramebufferOnly.keeps_id
      have h2 := FramebufferOnly.keeps_ite _ (fun s => some s)
        ((((px : Int) - x).tdiv spacing).tmod 2 = 0) h1 FramebufferOnly.keeps_id
      have h3 := FramebufferOnly.keeps_bind h2 (ih ((px + spacing) % 256))
      apply FramebufferOnly.of_comm
      intro self a p i
      have := (h3 self a p i).1
      dsimp only at this
      unfold Oled.drawDottedLine50_loop
      rw [if_pos hc, if_pos hc]
      dsimp only
      split_ifs at this ⊢ <;> simpa using this
    · apply FramebufferOnly.of_comm
      intro self a p i
      unfold Oled.drawDottedLine50_loop
      rw [if_neg hc, if_neg hc]
      rfl

/-- The row loop of a vertical segment is framebuffer-only. -/
theorem FramebufferOnly.keeps_vline (current_x : Int) (y_start y_end color : Nat) (fuel py : Nat) :
    FramebufferOnly
      (fun s => Oled.drawLogicSignal_vline current_x y_start y_end color fuel s py) := by
  induction fuel generalizing py with
  | zero =>
    apply FramebufferOnly.of_comm
    intro self a p i
    rfl
  | succ fuel ih =>
    by_cases hc : py ≤ (if y_start > y_end then y_start else y_end)
    · have h1 := FramebufferOnly.keeps_ite
        (fun s => some (Oled.setPixel s (current_x % 256).toNat py color))
        (fun s => some s) (py < SH1106_HEIGHT)
        (FramebufferOnly.keeps_setPixel (current_x % 256).toNat py color) FramebufferOnly.keeps_id
      have h3 := FramebufferOnly.keeps_bind h1 (ih ((py + 1) % 256))
      apply FramebufferOnly.of_comm
      intro self a p i
      have := (h3 self a p i).1
      dsimp only at this
      unfold Oled.drawLogicSignal_vline
      rw [if_pos hc, if_pos hc]
      dsimp only
      split_ifs at this ⊢ <;> simpa using this
    · apply FramebufferOnly.of_comm
      intro self a p i
      unfold Oled.drawLogicSignal_vline
      rw [if_neg hc, if_neg hc]
      rfl

/-- A step that agrees with a framebuffer-only step on every state is framebuffer-only. -/
theorem FramebufferOnly.keeps_congr {T T' : Oled → Option Oled} (h : ∀ s, T' s = T s)
    (hT : FramebufferOnly T) : FramebufferOnly T' := by
  have : T' = T := funext h
  rw [this]
  exact hT

/-- The vertical transition of a run is framebuffer-only. -/
theorem FramebufferOnly.keeps_edge (y height color i value cv : Nat) (current_x : Int) :
    FramebufferOnly (fun s => s.drawLogicSignal_edge y height color i value cv current_x) := by
  unfold Oled.drawLogicSignal_edge
  dsimp only
  exact FramebufferOnly.keeps_ite _ _ _
    (FramebufferOnly.keeps_ite _ _ _ (FramebufferOnly.keeps_vline _ _ _ _ _ _) FramebufferOnly.keeps_id)
    FramebufferOnly.keeps_id

/-- The horizontal line of a run is framebuffer-only. -/
theorem FramebufferOnly.keeps_hline (current_x : Int) (y_level : Nat) (zoomed_delta_int : Int)
    (color : Nat) :
    FramebufferOnly
      (fun s => some (s.drawLogicSignal_hline current_x y_level zoomed_delta_int color)) := by
  unfold Oled.drawLogicSignal_hline
  apply FramebufferOnly.keeps_foldl
  intro dx
  have h := FramebufferOnly.keeps_ite (fun s => some (Oled.setPixel s
      (toInt16 (current_x + (dx : Int)) % 256).toNat y_level color))
    (fun s => some s)
    (toInt16 (current_x + (dx : Int)) ≥ 0 ∧ toInt16 (current_x + (dx : Int)) < SH1106_WIDTH ∧
      y_level < SH1106_HEIGHT)
    (FramebufferOnly.keeps_setPixel _ y_level color) FramebufferOnly.keeps_id
  refine FramebufferOnly.keeps_congr (fun s => ?_) h
  dsimp only
  split <;> rfl

/-- The run loop is framebuffer-only. -/
theorem FramebufferOnly.keeps_signal_loop (y height zoom2 color : Nat) (data : List Nat) (i : Nat)
    (cur2 : Int) (cv : Nat) :
    FramebufferOnly
      (fun s => Oled.drawLogicSignal_loop y height zoom2 color data i cur2 cv s) := by
  induction data generalizing i cur2 cv with
  | nil => exact FramebufferOnly.keeps_id
  | cons b rest ih =>
    have hE := FramebufferOnly.keeps_edge y height color i ((b &&& 0x80) >>> 7) cv
      (floatToInt16 cur2)
    have hH := FramebufferOnly.keeps_hline (floatToInt16 cur2)
      (if (b &&& 0x80) >>> 7 = 0 then (y + height + 255) % 256 else y)
      (floatToInt16 (((b &&& 0x7F : Nat) : Int) * (zoom2 : Int))) color
    have hR := FramebufferOnly.keeps_ite
      (fun s => some s)
      (fun s => Oled.drawLogicSignal_loop y height zoom2 color rest (i + 1)
        (cur2 + ((b &&& 0x7F : Nat) : Int) * (zoom2 : Int)) ((b &&& 0x80) >>> 7) s)
      (cur2 + ((b &&& 0x7F : Nat) : Int) * (zoom2 : Int) ≥ 2 * (SH1106_WIDTH : Int))
      FramebufferOnly.keeps_id (ih (i + 1) _ _)
    refine FramebufferOnly.keeps_congr (fun s => ?_)
      (FramebufferOnly.keeps_bind hE (FramebufferOnly.keeps_bind hH hR))
    conv_lhs => rw [Oled.drawLogicSignal_loop]
    dsimp only
    cases Oled.drawLogicSignal_edge s y height color i ((b &&& 0x80) >>> 7) cv
      (floatToInt16 cur2) with
    | none => rfl
    | some s1 =>
      simp only [Option.bind]

/-- `Oled::drawLogicSignal` is framebuffer-only. -/
theorem FramebufferOnly.keeps_drawLogicSignal (x y : Nat) (signal_data : Option (List Nat))
    (data_length height x_offset zoom2 color : Nat) :
    FramebufferOnly
      (fun s => s.drawLogicSignal x y signal_data data_length height x_offset zoom2 color) := by
  cases signal_data with
  | none => exact FramebufferOnly.keeps_id
  | some data =>
    by_cases hlen : data_length = 0
    · refine FramebufferOnly.keeps_congr (fun s => ?_) FramebufferOnly.keeps_id
      simp only [Oled.drawLogicSignal, hlen, if_true]
    · refine FramebufferOnly.keeps_congr (fun s => ?_) (FramebufferOnly.keeps_signal_loop y height zoom2
        color (data.take data_length) 0 (2 * (x : Int) - 2 * (x_offset : Int)) 0)
      simp only [Oled.drawLogicSignal, hlen, if_false]

/-- `Oled::drawString`, as a step, is framebuffer-only. -/
theorem FramebufferOnly.keeps_drawString (font : FontTable) (x y : Nat) (str : List Int)
    (color : Nat) :
    FramebufferOnly (fun s => some (s.drawString font x y str color).2) :=
  FramebufferOnly.total _ (fun self a p i => by rw [Oled.drawString_withFields])

/-- `Oled::drawChar`, as a step, is framebuffer-only. -/
theorem FramebufferOnly.keeps_drawChar (font : FontTable) (x y : Nat) (ch : Int) (color : Nat) :
    FramebufferOnly (fun s => some (s.drawChar font x y ch color).2) :=
  FramebufferOnly.total _ (fun self a p i => by rw [Oled.drawChar_withFields])

/-- `Oled::drawDottedLine50` is framebuffer-only. -/
theorem FramebufferOnly.keeps_drawDottedLine50 (x y width spacing color : Nat) :
    FramebufferOnly (fun s => s.drawDottedLine50 x y width spacing color) :=
  FramebufferOnly.keeps_dotted_loop x y width spacing color 256 x

/-- The drawing of one channel is framebuffer-only. -/
theorem FramebufferOnly.keeps_channel (font : FontTable) (channel_data : List (Option (List Nat)))
    (data_lengths : List Nat) (start_y channel_height x_offset zoom2 color ch : Nat) :
    FramebufferOnly
      (fun s => s.drawLogicChannels_channel font channel_data data_lengths start_y
        channel_height x_offset zoom2 color ch) := by
  have hS := FramebufferOnly.keeps_drawString font 0 (((start_y + ch * channel_height) % 256 + 4) % 256)
    [48 + (ch : Int)] color
  have hD := FramebufferOnly.keeps_drawDottedLine50 8
    (((start_y + ch * channel_height) % 256 + channel_height + 252) % 256) (SH1106_WIDTH - 8)
    4 color
  have hT3 : FramebufferOnly
      (fun s => match channel_data.getD ch none with
        | none => some s
        | some data =>
          if data_lengths.getD ch 0 > 0 then
            s.drawLogicSignal 8 (((start_y + ch * channel_height) % 256 + 2) % 256) (some data)
              (data_lengths.getD ch 0) ((channel_height + 252) % 256) x_offset zoom2 color
          else some s) := by
    cases channel_data.getD ch none with
    | none => exact FramebufferOnly.keeps_id
    | some data =>
      exact FramebufferOnly.keeps_ite _ _ _ (FramebufferOnly.keeps_drawLogicSignal _ _ _ _ _ _ _ _)
        FramebufferOnly.keeps_id
  refine FramebufferOnly.keeps_congr (fun s => ?_)
    (FramebufferOnly.keeps_bind (FramebufferOnly.keeps_bind hS hD) hT3)
  unfold Oled.drawLogicChannels_channel
  simp only [Option.bind]
  cases (s.drawString font 0 (((start_y + ch * channel_height) % 256 + 4) % 256)
    [48 + (ch : Int)] color).2.drawDottedLine50 8
    (((start_y + ch * channel_height) % 256 + channel_height + 252) % 256)
    (SH1106_WIDTH - 8) 4 color <;> rfl

/-- The channel loop is framebuffer-only. -/
theorem FramebufferOnly.keeps_channels_loop (font : FontTable) (cd : List (Option (List Nat)))
    (dl : List Nat) (start_y channel_height x_offset zoom2 color : Nat) (chs : List Nat) :
    FramebufferOnly
      (fun s => Oled.drawLogicChannels_loop font cd dl start_y channel_height x_offset zoom2
        color chs s) := by
  induction chs with
  | nil => exact FramebufferOnly.keeps_id
  | cons ch rest ih =>
    refine FramebufferOnly.keeps_congr (fun s => ?_)
      (FramebufferOnly.keeps_bind (FramebufferOnly.keeps_channel font cd dl start_y channel_height
        x_offset zoom2 color ch) ih)
    conv_lhs => rw [Oled.drawLogicChannels_loop]
    cases s.drawLogicChannels_channel font cd dl start_y channel_height x_offset zoom2 color
      ch <;> rfl

/-- `Oled::drawLogicChannels` is framebuffer-only. -/
theorem FramebufferOnly.keeps_drawLogicChannels (font : FontTable)
    (channel_data : Option (List (Option (List Nat)))) (data_lengths : Option (List Nat))
    (num_channels start_y channel_height x_offset zoom2 color : Nat) :
    FramebufferOnly
      (fun s => s.drawLogicChannels font channel_data data_lengths num_channels start_y
        channel_height x_offset zoom2 color) := by
  cases channel_data with
  | none =>
    refine FramebufferOnly.keeps_congr (fun s => ?_) FramebufferOnly.keeps_id
    cases data_lengths <;> rfl
  | some cd =>
    cases data_lengths with
    | none =>
      refine FramebufferOnly.keeps_congr (fun s => ?_) FramebufferOnly.keeps_id
      rfl
    | some dl =>
      by_cases hn : num_channels = 0
      · refine FramebufferOnly.keeps_congr (fun s => ?_) FramebufferOnly.keeps_id
        simp only [Oled.drawLogicChannels, hn, if_true]
      · refine FramebufferOnly.keeps_congr (fun s => ?_) (FramebufferOnly.keeps_channels_loop font cd dl
          start_y channel_height x_offset zoom2 color
          (List.range (if num_channels > 4 then 4 else num_channels)))
        simp only [Oled.drawLogicChannels, hn, if_false]

/-- C23: `setPixel`, `drawChar`, `drawString`, `drawDottedLine50`, `drawLogicSignal` and
`drawLogicChannels` read and write the framebuffer only.  None of them takes the bus or
returns a log (their source makes no HAL call), so they issue no bus transaction; the
device fields `address`, `initialized` and `prev_framebuffer` come out as they went in; and
with these fields replaced beforehand, `initialized` set or cleared among them, each function
gives the same result (and `drawChar` / `drawString` the same width) with the fields
replaced. -/
theorem C23_drawing_touches_framebuffer_only (font : FontTable) :
    (∀ x y color, FramebufferOnly (fun s => some (Oled.setPixel s x y color))) ∧
    (∀ x y ch color, FramebufferOnly (fun s => some (Oled.drawChar font s x y ch color).2) ∧
      ∀ (s : Oled) a p i, ((s.withFields a p i).drawChar font x y ch color).1
        = (s.drawChar font x y ch color).1) ∧
    (∀ x y str color, FramebufferOnly (fun s => some (Oled.drawString font s x y str color).2) ∧
      ∀ (s : Oled) a p i, ((s.withFields a p i).drawString font x y str color).1
        = (s.drawString font x y str color).1) ∧
    (∀ x y width spacing color,
      FramebufferOnly (fun s => Oled.drawDottedLine50 s x y width spacing color)) ∧
    (∀ x y signal_data data_length height x_offset zoom2 color,
      FramebufferOnly (fun s => Oled.drawLogicSignal s x y signal_data data_length height
        x_offset zoom2 color)) ∧
    (∀ channel_data data_lengths num_channels start_y channel_height x_offset zoom2 color,
      FramebufferOnly (fun s => Oled.drawLogicChannels font s channel_data data_lengths
        num_channels start_y channel_height x_offset zoom2 color)) := by
  refine ⟨FramebufferOnly.keeps_setPixel, ?_, ?_, FramebufferOnly.keeps_drawDottedLine50,
    FramebufferOnly.keeps_drawLogicSignal, FramebufferOnly.keeps_drawLogicChannels font⟩
  · intro x y ch color
    exact ⟨FramebufferOnly.keeps_drawChar font x y ch color,
      fun s a p i => by rw [Oled.drawChar_withFields]⟩
  · intro x y str color
    exact ⟨FramebufferOnly.keeps_drawString font x y str color,
      fun s a p i => by rw [Oled.drawString_withFields]⟩

/-- C23 on a newly constructed display: a character drawn before and after the
`initialized` flag is set gives the same framebuffer, and keeps the flag. -/
theorem C23_drawing_touches_framebuffer_only_witness :
    ((Oled.new.withFields 0x78 [] true).drawChar sampleFont 10 20 0x41 1).2
      = (Oled.new.drawChar sampleFont 10 20 0x41 1).2.withFields 0x78 [] true ∧
    ((Oled.new.withFields 0x78 [] true).drawChar sampleFont 10 20 0x41 1).2.device_.initialized
      = true := by
  have h := ((C23_drawing_touches_framebuffer_only sampleFont).2.1 10 20 0x41 1).1
  have h1 := (h Oled.new 0x78 [] true).1
  have h2 := (h (Oled.new.withFields 0x78 [] true) 0x78 [] true).2 _ rfl
  simp only [Option.map_some', Option.some.injEq] at h1
  exact ⟨h1, h2.2.2⟩

/-! ### C24 - C25: what a sequence of transactions leaves on the bus -/

/-- A sequence is sent completely with `HAL_OK` exactly when every one of its calls is
answered `HAL_OK`. -/
theorem sendAll_ok_iff (hi2c : I2C_HandleTypeDef) (cs : List I2C_Call) (log : I2C_Log) :
    (sendAll hi2c cs log).1 = HAL_OK ↔
      ∀ j c, cs[j]? = some c → hi2c (log ++ cs.take j) c = HAL_OK := by
  induction cs generalizing log with
  | nil =>
    constructor
    · intro _ j c hj
      simp at hj
    · intro _
      rfl
  | cons c cs ih =>
    unfold sendAll
    by_cases hc : hi2c log c ≠ HAL_OK
    · rw [if_pos hc]
      constructor
      · intro h
        exact absurd h hc
      · intro h
        have := h 0 c (List.getElem?_cons_zero ..)
        simp only [List.take_zero, List.append_nil] at this
        exact absurd this hc
    · rw [if_neg hc, ih]
      have hc' : hi2c log c = HAL_OK := not_not.mp hc
      constructor
      · intro h j c' hj
        cases j with
        | zero =>
          simp only [List.getElem?_cons_zero, Option.some.injEq] at hj
          subst hj
          simpa using hc'
        | succ j =>
          simp only [List.getElem?_cons_succ] at hj
          have := h j c' hj
          simpa [List.append_assoc] using this
      · intro h j c' hj
        have := h (j + 1) c' (by simpa using hj)
        simpa [List.append_assoc] using this

/-- What a sequence leaves in the log is the old log and a prefix of the sequence: the whole
sequence when the status is `HAL_OK`. -/
theorem sendAll_log (hi2c : I2C_HandleTypeDef) (cs : List I2C_Call) (log : I2C_Log) :
    ∃ k, k ≤ cs.length ∧ (sendAll hi2c cs log).2 = log ++ cs.take k ∧
      ((sendAll hi2c cs log).1 = HAL_OK → k = cs.length) := by
  induction cs generalizing log with
  | nil => exact ⟨0, Nat.le_refl _, by simp [sendAll], fun _ => rfl⟩
  | cons c cs ih =>
    unfold sendAll
    by_cases hc : hi2c log c ≠ HAL_OK
    · rw [if_pos hc]
      exact ⟨1, by simp, by simp, fun h => absurd h hc⟩
    · rw [if_neg hc]
      obtain ⟨k, hk, hlog, hok⟩ := ih (log ++ [c])
      refine ⟨k + 1, by simpa using hk, ?_, ?_⟩
      · rw [hlog]
        simp [List.append_assoc]
      · intro h
        rw [hok h]
        rfl

/-- The payloads of a full transfer do not depend on the address. -/
theorem screenTransactions_pData (a1 a2 : Nat) (fb : List Nat) :
    (screenTransactions a1 fb).map I2C_Call.pData
      = (screenTransactions a2 fb).map I2C_Call.pData := by
  unfold screenTransactions
  simp only [List.map_flatMap]
  rfl

/-- C24: `update()` is idempotent with respect to the store.  For every bus, `update()`
returns the display object as it was (the framebuffer with it), and what it transmits is a
prefix of the 32 transactions determined by the device address and the framebuffer, all 32
when it reports success; the bytes of a successful transfer are the same for any two
displays with equal framebuffers; and two consecutive `update()` calls that both report
success transmit the same 32 transactions each. -/
theorem C24_update_idempotent (hi2c : I2C_HandleTypeDef) (self : Oled) (log : I2C_Log)
    (hlen : self.device_.framebuffer.length = 1024) :
    (Oled.update hi2c self log).2.1 = self ∧
    (∃ k, k ≤ 32 ∧
      (Oled.update hi2c self log).2.2
        = log ++ (screenTransactions self.device_.address self.device_.framebuffer).take k ∧
      ((Oled.update hi2c self log).1 = true → k = 32)) ∧
    (∀ (hi2c2 : I2C_HandleTypeDef) (other : Oled) (log2 : I2C_Log),
      other.device_.framebuffer = self.device_.framebuffer →
      (Oled.update hi2c self log).1 = true → (Oled.update hi2c2 other log2).1 = true →
      ((Oled.update hi2c2 other log2).2.2.drop log2.length).map I2C_Call.pData
        = ((Oled.update hi2c self log).2.2.drop log.length).map I2C_Call.pData) ∧
    ((Oled.update hi2c self log).1 = true →
      (Oled.update hi2c (Oled.update hi2c self log).2.1 (Oled.update hi2c self log).2.2).1
        = true →
      (Oled.update hi2c self log).2.2
        = log ++ screenTransactions self.device_.address self.device_.framebuffer ∧
      (Oled.update hi2c (Oled.update hi2c self log).2.1 (Oled.update hi2c self log).2.2).2.2
        = (Oled.update hi2c self log).2.2
          ++ screenTransactions self.device_.address self.device_.framebuffer) := by
  have hupd : ∀ (h : I2C_HandleTypeDef) (o : Oled) (l : I2C_Log),
      o.device_.framebuffer.length = 1024 →
      Oled.update h o l
        = ((sendAll h (screenTransactions o.device_.address o.device_.framebuffer) l).1
              == HAL_OK, o,
            (sendAll h (screenTransactions o.device_.address o.device_.framebuffer) l).2) := by
    intro h o l ho
    unfold Oled.update
    rw [SH1106_UpdateScreen_eq h o.device_ l ho]
  have hfull : ∀ (h : I2C_HandleTypeDef) (o : Oled) (l : I2C_Log),
      o.device_.framebuffer.length = 1024 → (Oled.update h o l).1 = true →
      (Oled.update h o l).2.2
        = l ++ screenTransactions o.device_.address o.device_.framebuffer := by
    intro h o l ho hok
    rw [hupd h o l ho] at hok ⊢
    obtain ⟨k, _, hlog, hk⟩ := sendAll_log h
      (screenTransactions o.device_.address o.device_.framebuffer) l
    have hst : (sendAll h (screenTransactions o.device_.address o.device_.framebuffer) l).1
        = HAL_OK := by simpa using hok
    dsimp only
    rw [hlog, hk hst, List.take_length]
  refine ⟨by rw [hupd hi2c self log hlen], ?_, ?_, ?_⟩
  · obtain ⟨k, hk, hlog, hok⟩ := sendAll_log hi2c
      (screenTransactions self.device_.address self.device_.framebuffer) log
    rw [screenTransactions_length] at hk hok
    refine ⟨k, hk, by rw [hupd hi2c self log hlen]; exact hlog, ?_⟩
    intro h
    rw [hupd hi2c self log hlen] at h
    exact hok (by simpa using h)
  · intro hi2c2 other log2 hfb h1 h2
    rw [hfull hi2c self log hlen h1, hfull hi2c2 other log2 (by rw [hfb]; exact hlen) h2,
      List.drop_left, List.drop_left, hfb]
    exact screenTransactions_pData _ _ _
  · intro h1 h2
    have hself : (Oled.update hi2c self log).2.1 = self := by rw [hupd hi2c self log hlen]
    rw [hself] at h2 ⊢
    exact ⟨hfull hi2c self log hlen h1, hfull hi2c self _ hlen h2⟩

/-- C24 on the all-on display and a bus on which every call succeeds: the second `update()`
appends the same 32 transactions again. -/
theorem C24_update_idempotent_witness :
    filledDevice.framebuffer.length = 1024 ∧
    (Oled.update readyBus (Oled.update readyBus ⟨filledDevice⟩ []).2.1
        (Oled.update readyBus ⟨filledDevice⟩ []).2.2).2.2
      = (Oled.update readyBus ⟨filledDevice⟩ []).2.2
        ++ screenTransactions filledDevice.address filledDevice.framebuffer := by
  have hlen : filledDevice.framebuffer.length = 1024 := by
    simp only [filledDevice, List.length_replicate]
    rfl
  have hok : ∀ (o : Oled) (l : I2C_Log), o.device_.framebuffer.length = 1024 →
      (Oled.update readyBus o l).1 = true := by
    intro o l ho
    unfold Oled.update
    rw [SH1106_UpdateScreen_eq readyBus o.device_ l ho, sendAll_all_ok readyBus (fun _ _ => rfl)]
    rfl
  have h := (C24_update_idempotent readyBus ⟨filledDevice⟩ [] hlen).2.2.2 (hok _ _ hlen)
    (hok _ _ (by rw [(C24_update_idempotent readyBus ⟨filledDevice⟩ [] hlen).1]; exact hlen))
  exact ⟨hlen, h.2⟩

/-- C25: `SH1106_Init` returns `HAL_OK` exactly when the presence probe and every one of
its bus transactions are answered `HAL_OK`, and `initialized` is true afterwards exactly
when it returned `HAL_OK`.  If the probe succeeds and transaction `k` is the first that
fails, with status `s`, Init returns `s`, the log ends with that transaction (nothing
further is sent), and the state returned is the reset state, whose `initialized` flag is
false whatever the flag was before the call; if the probe itself fails, Init returns
`HAL_ERROR` after the probe alone, `initialized` false as well. -/
theorem C25_Init_ok_iff (hi2c : I2C_HandleTypeDef) (dev : SH1106_t) (log : I2C_Log) :
    ((SH1106_Init hi2c dev log).1 = HAL_OK ↔
      (hi2c log (.IsDeviceReady 0x78 3) = HAL_OK ∧
        ∀ j c, (initTransactionsOf initCommands)[j]? = some c →
          hi2c (log ++ [.IsDeviceReady 0x78 3] ++ (initTransactionsOf initCommands).take j) c
            = HAL_OK)) ∧
    ((SH1106_Init hi2c dev log).2.1.initialized = true ↔
      (SH1106_Init hi2c dev log).1 = HAL_OK) ∧
    (∀ k s c, hi2c log (.IsDeviceReady 0x78 3) = HAL_OK → s ≠ HAL_OK →
      (∀ j c', j < k → (initTransactionsOf initCommands)[j]? = some c' →
        hi2c (log ++ [.IsDeviceReady 0x78 3] ++ (initTransactionsOf initCommands).take j) c'
          = HAL_OK) →
      (initTransactionsOf initCommands)[k]? = some c →
      hi2c (log ++ [.IsDeviceReady 0x78 3] ++ (initTransactionsOf initCommands).take k) c = s →
      SH1106_Init hi2c dev log
        = (s, initState dev,
            log ++ [.IsDeviceReady 0x78 3] ++ (initTransactionsOf initCommands).take (k + 1))) ∧
    (hi2c log (.IsDeviceReady 0x78 3) ≠ HAL_OK →
      SH1106_Init hi2c dev log = (HAL_ERROR, initState dev, log ++ [.IsDeviceReady 0x78 3])) ∧
    (initState dev).initialized = false := by
  have hiff := sendAll_ok_iff hi2c (initTransactionsOf initCommands)
    (log ++ [.IsDeviceReady 0x78 3])
  refine ⟨?_, ?_, ?_, SH1106_Init_absent hi2c dev log, rfl⟩
  · rw [SH1106_Init_eq]
    by_cases hp : hi2c log (.IsDeviceReady 0x78 3) = HAL_OK
    · rw [if_neg (by simpa using hp), ← hiff]
      unfold orReturn
      by_cases hs : (sendAll hi2c (initTransactionsOf initCommands)
          (log ++ [.IsDeviceReady 0x78 3])).1 = HAL_OK
      · rw [if_neg (by simpa using hs)]
        exact ⟨fun _ => ⟨hp, hs⟩, fun _ => rfl⟩
      · rw [if_pos hs]
        exact ⟨fun h => absurd h hs, fun h => absurd h.2 hs⟩
    · rw [if_pos hp]
      exact ⟨fun h => (by cases h), fun h => absurd h.1 hp⟩
  · rw [SH1106_Init_eq]
    by_cases hp : hi2c log (.IsDeviceReady 0x78 3) = HAL_OK
    · rw [if_neg (by simpa using hp)]
      unfold orReturn
      by_cases hs : (sendAll hi2c (initTransactionsOf initCommands)
          (log ++ [.IsDeviceReady 0x78 3])).1 = HAL_OK
      · rw [if_neg (by simpa using hs)]
        exact ⟨fun _ => rfl, fun _ => rfl⟩
      · rw [if_pos hs]
        exact ⟨fun h => (by cases h), fun h => absurd h hs⟩
    · rw [if_pos hp]
      exact ⟨fun h => (by cases h), fun h => (by cases h)⟩
  · intro k s c hp hs hprev hk hfail
    have hsend := sendAll_first_failure hi2c (initTransactionsOf initCommands)
      (log ++ [.IsDeviceReady 0x78 3]) k s hs hprev ⟨c, hk, hfail⟩
    rw [SH1106_Init_eq, if_neg (by simpa using hp), hsend]
    unfold orReturn
    rw [if_pos hs]

/-- C25 for a device on which an earlier Init had succeeded: when the sixth bus call of a
second Init (its fifth transaction) times out, that Init returns `HAL_TIMEOUT` and leaves
`initialized` false. -/
theorem C25_Init_ok_iff_witness :
    (SH1106_Init readyBus Oled.new.device_ []).2.1.initialized = true ∧
    (SH1106_Init (timeoutAt 5) (SH1106_Init readyBus Oled.new.device_ []).2.1 []).1
      = HAL_TIMEOUT ∧
    (SH1106_Init (timeoutAt 5) (SH1106_Init readyBus Oled.new.device_ []).2.1 []).2.1.initialized
      = false := by
  have h1 : (SH1106_Init readyBus Oled.new.device_ []).2.1.initialized = true := by
    rw [SH1106_Init_all_ok readyBus _ _ (fun _ _ => rfl)]
  have h2 := (C25_Init_ok_iff (timeoutAt 5) (SH1106_Init readyBus Oled.new.device_ []).2.1
    []).2.2.1 4 HAL_TIMEOUT (.Master_Transmit 0x78 [0x80, 0xA8]) rfl (by decide)
    (by
      intro j c' hj _
      have hlen : ([] ++ [I2C_Call.IsDeviceReady 0x78 3]
          ++ (initTransactionsOf initCommands).take j).length ≠ 5 := by
        simp only [List.nil_append, List.length_append, List.length_singleton,
          List.length_take]
        omega
      unfold timeoutAt
      rw [if_neg hlen])
    rfl rfl
  rw [h2]
  exact ⟨h1, rfl, rfl⟩

/-! ### C26: at most four channels -/

/-- The drawing of channel `ch` reads entry `ch` of the two arrays only. -/
theorem Oled.drawLogicChannels_channel_entries (font : FontTable) (self : Oled)
    (cd cd' : List (Option (List Nat))) (dl dl' : List Nat)
    (start_y channel_height x_offset zoom2 color ch : Nat)
    (hcd : cd'.getD ch none = cd.getD ch none) (hdl : dl'.getD ch 0 = dl.getD ch 0) :
    self.drawLogicChannels_channel font cd' dl' start_y channel_height x_offset zoom2 color ch
      = self.drawLogicChannels_channel font cd dl start_y channel_height x_offset zoom2
          color ch := by
  unfold Oled.drawLogicChannels_channel
  rw [hcd, hdl]

/-- The channel loop reads the entries of its channels only. -/
theorem Oled.drawLogicChannels_loop_entries (font : FontTable)
    (cd cd' : List (Option (List Nat))) (dl dl' : List Nat)
    (start_y channel_height x_offset zoom2 color : Nat) (chs : List Nat)
    (h : ∀ ch ∈ chs, cd'.getD ch none = cd.getD ch none ∧ dl'.getD ch 0 = dl.getD ch 0)
    (self : Oled) :
    Oled.drawLogicChannels_loop font cd' dl' start_y channel_height x_offset zoom2 color chs
        self
      = Oled.drawLogicChannels_loop font cd dl start_y channel_height x_offset zoom2 color
          chs self := by
  induction chs generalizing self with
  | nil => rfl
  | cons ch rest ih =>
    have hch := h ch (List.mem_cons_self _ _)
    rw [Oled.drawLogicChannels_loop, Oled.drawLogicChannels_loop,
      Oled.drawLogicChannels_channel_entries font self cd cd' dl dl' start_y channel_height
        x_offset zoom2 color ch hch.1 hch.2]
    cases self.drawLogicChannels_channel font cd dl start_y channel_height x_offset zoom2
      color ch with
    | none => rfl
    | some s1 => exact ih (fun c hc => h c (List.mem_cons_of_mem _ hc)) s1

/-- C26: `drawLogicChannels` never draws more than 4 channels: for every
`num_channels > 4`, every state and all other arguments the result (the framebuffer with it)
equals the one produced with `num_channels = 4`, and only entries 0..3 of `channel_data` and
`data_lengths` are read: arrays that agree on those entries give the same result. -/
theorem C26_at_most_four_channels (font : FontTable) (self : Oled)
    (channel_data : Option (List (Option (List Nat)))) (data_lengths : Option (List Nat))
    (num_channels start_y channel_height x_offset zoom2 color : Nat) (hn : num_channels > 4) :
    self.drawLogicChannels font channel_data data_lengths num_channels start_y channel_height
        x_offset zoom2 color
      = self.drawLogicChannels font channel_data data_lengths 4 start_y channel_height
          x_offset zoom2 color ∧
    ∀ cd cd' dl dl',
      (∀ ch, ch < 4 → cd'.getD ch none = cd.getD ch none ∧ dl'.getD ch 0 = dl.getD ch 0) →
      self.drawLogicChannels font (some cd') (some dl') num_channels start_y channel_height
          x_offset zoom2 color
        = self.drawLogicChannels font (some cd) (some dl) num_channels start_y channel_height
            x_offset zoom2 color := by
  constructor
  · cases channel_data with
    | none => cases data_lengths <;> rfl
    | some cd =>
      cases data_lengths with
      | none => rfl
      | some dl =>
        simp only [Oled.drawLogicChannels]
        rw [if_neg (by omega), if_pos hn, if_neg (by decide), if_neg (by decide)]
  · intro cd cd' dl dl' h
    simp only [Oled.drawLogicChannels]
    rw [if_neg (by omega), if_pos hn, if_neg (by omega)]
    exact Oled.drawLogicChannels_loop_entries font cd cd' dl dl' start_y channel_height
      x_offset zoom2 color (List.range 4) (fun ch hc => h ch (List.mem_range.mp hc)) self

/-- C26 for a call with `num_channels = 7` and six channel entries on a newly constructed
display. -/
theorem C26_at_most_four_channels_witness :
    7 > 4 ∧
    Oled.new.drawLogicChannels sampleFont
        (some [some [0x14], some [0x85], none, some [0x0A], some [0x7F], some [0xFF]])
        (some [1, 1, 1, 1, 1, 1]) 7 0 16 0 2 1
      = Oled.new.drawLogicChannels sampleFont
        (some [some [0x14], some [0x85], none, some [0x0A], some [0x7F], some [0xFF]])
        (some [1, 1, 1, 1, 1, 1]) 4 0 16 0 2 1 :=
  ⟨by decide,
    (C26_at_most_four_channels sampleFont Oled.new
      (some [some [0x14], some [0x85], none, some [0x0A], some [0x7F], some [0xFF]])
      (some [1, 1, 1, 1, 1, 1]) 7 0 16 0 2 1 (by decide)).1⟩

/-! ### C27: the encoder delta -/

/-- `handleInterrupt()` adds the step it registers to `encoder_pos`. -/
theorem Encoder.handleInterrupt_pos (self : Encoder) (a b : Int) :
    (self.handleInterrupt a b).encoder_pos
      = self.encoder_pos + (if a ≠ self.last_a_state then (if b ≠ a then 1 else -1) else 0) ∧
    (self.handleInterrupt a b).last_a_state = a := by
  unfold Encoder.handleInterrupt
  dsimp only
  split_ifs <;> simp
  omega

/-- After any number of `handleInterrupt()` calls `encoder_pos` has grown by the net count of
the steps they registered. -/
theorem Encoder.interrupts_pos (ints : List (Int × Int)) (self : Encoder) :
    (ints.foldl (fun e ab => e.handleInterrupt ab.1 ab.2) self).encoder_pos
      = self.encoder_pos
        + registeredSteps self.last_a_state (ints.map (fun ab => .handleInterrupt ab.1 ab.2)) := by
  induction ints generalizing self with
  | nil => simp [registeredSteps]
  | cons ab rest ih =>
    rw [List.foldl_cons, ih, List.map_cons]
    simp only [registeredSteps]
    rw [(self.handleInterrupt_pos ab.1 ab.2).1, (self.handleInterrupt_pos ab.1 ab.2).2]
    omega

/-- The button handling of `update()` touches neither `encoder_pos` nor `delta` nor
`last_a_state`. -/
theorem Encoder.update_button_keeps (self : Encoder) (r : Int) (t1 t2 t3 t4 : Nat) :
    (self.update_button r t1 t2 t3 t4).encoder_pos = self.encoder_pos ∧
    (self.update_button r t1 t2 t3 t4).delta = self.delta ∧
    (self.update_button r t1 t2 t3 t4).last_a_state = self.last_a_state := by
  unfold Encoder.update_button
  dsimp only
  split_ifs <;> exact ⟨rfl, rfl, rfl⟩

/-- `update()` hands a non-zero `encoder_pos` over to `delta` and clears it; with
`encoder_pos = 0` it leaves `delta` as it is. -/
theorem Encoder.update_delta (self : Encoder) (r : Int) (t1 t2 t3 t4 : Nat) :
    (self.update r t1 t2 t3 t4).delta
        = (if self.encoder_pos ≠ 0 then self.encoder_pos else self.delta) ∧
    (self.update r t1 t2 t3 t4).encoder_pos = 0 ∧
    (self.update r t1 t2 t3 t4).last_a_state = self.last_a_state := by
  obtain ⟨h1, h2, h3⟩ := self.update_button_keeps r t1 t2 t3 t4
  unfold Encoder.update
  dsimp only
  rw [h1]
  split_ifs with h
  · exact ⟨rfl, rfl, h3⟩
  · exact ⟨h2, by rw [h1]; exact not_not.mp h, h3⟩

/-- C27 as stated fails: after a `getDelta()` on a new encoder, one step clockwise, an
`update()`, a second step clockwise and a second `update()`, the two `handleInterrupt()`
calls have registered a net count of 2 steps, yet `getDelta()` returns 1: `update()`
assigns the pending count to `delta` and overwrites what an earlier `update()` left there. -/
theorem C27_getDelta_counterexample :
    registeredSteps (Encoder.new.getDelta).2.last_a_state
        [.handleInterrupt 1 0, .update 1 0 0 0 0, .handleInterrupt 0 1, .update 1 0 0 0 0]
      = 2 ∧
    (([EncoderCall.handleInterrupt 1 0, .update 1 0 0 0 0, .handleInterrupt 0 1,
        .update 1 0 0 0 0].foldl Encoder.call (Encoder.new.getDelta).2).getDelta).1 = 1 := by
  constructor <;> decide

/-- C27 (amended): `getDelta()` returns the value stored in `delta` and resets it, so an
immediately repeated `getDelta()` returns 0.  When no step was pending at the previous
`getDelta()` (`encoder_pos = 0`) and the calls since then are any number of
`handleInterrupt()` followed by one `update()`, `getDelta()` returns the net signed count of
the steps registered in between, provided that count is not zero. -/
theorem C27_getDelta (self : Encoder) :
    ((self.getDelta).1 = self.delta ∧ (self.getDelta).2.delta = 0 ∧
      ((self.getDelta).2.getDelta).1 = 0) ∧
    (∀ (ints : List (Int × Int)) (r : Int) (t1 t2 t3 t4 : Nat), self.encoder_pos = 0 →
      registeredSteps self.last_a_state (ints.map (fun ab => .handleInterrupt ab.1 ab.2)) ≠ 0 →
      (((ints.foldl (fun e ab => e.handleInterrupt ab.1 ab.2) (self.getDelta).2).update r t1 t2
          t3 t4).getDelta).1
        = registeredSteps self.last_a_state
            (ints.map (fun ab => .handleInterrupt ab.1 ab.2))) := by
  refine ⟨⟨rfl, rfl, rfl⟩, ?_⟩
  intro ints r t1 t2 t3 t4 hpos hne
  have hp := Encoder.interrupts_pos ints (self.getDelta).2
  have h0 : (self.getDelta).2.encoder_pos = 0 := hpos
  have hl : (self.getDelta).2.last_a_state = self.last_a_state := rfl
  rw [h0, hl, Int.zero_add] at hp
  have hd := (Encoder.update_delta
    (ints.foldl (fun e ab => e.handleInterrupt ab.1 ab.2) (self.getDelta).2) r t1 t2 t3 t4).1
  rw [hp, if_pos hne] at hd
  exact hd

/-- C27 (amended) for a new encoder and three steps, two clockwise and one back, followed by
one `update()`: `getDelta()` returns 1. -/
theorem C27_getDelta_witness :
    Encoder.new.encoder_pos = 0 ∧
    ((([((1 : Int), (0 : Int)), (0, 1), (1, 1)].foldl (fun e ab => e.handleInterrupt ab.1 ab.2)
        (Encoder.new.getDelta).2).update 1 0 0 0 0).getDelta).1 = 1 :=
  ⟨rfl, (C27_getDelta Encoder.new).2 [(1, 0), (0, 1), (1, 1)] 1 0 0 0 0 rfl (by decide)⟩

/-! ### C28: the label cells -/

/-- With no scroll offset no vertical transition lands left of column 8. -/
theorem channelEdgeAt_offset_zero (cd : List (Option (List Nat))) (dl : List Nat)
    (ch zoom2 p : Nat) (hp : p < 8) : ¬ channelEdgeAt cd dl ch 0 zoom2 p := by
  rintro ⟨data, k, _, _, _, _, _, hcol⟩
  have h1 := cursorAt_ge zoom2 (data.take (dl.getD ch 0))
    (2 * ((8 : Nat) : Int) - 2 * ((0 : Nat) : Int)) k
  have h2 := truncHalf_mono h1
  have h3 : truncHalf (2 * ((8 : Nat) : Int) - 2 * ((0 : Nat) : Int)) = 8 := by decide
  rw [h3] at h2
  omega

/-- What the drawing of channel `ch` (bands of 16 rows from row 0) leaves in the rows of the
label: the pixels `drawString` rendered, except in a column where a vertical transition of
the waveform lands. -/
theorem Oled.drawLogicChannels_channel_label (font : FontTable) (self : Oled)
    (cd : List (Option (List Nat))) (dl : List Nat) (x_offset zoom2 color ch : Nat)
    (h : self.device_.WF) (hch : ch < 4) (hz : zoom2 ≤ 256) (hoff : x_offset ≤ 8 + 32768) :
    ∃ base, self.drawLogicChannels_channel font cd dl 0 16 x_offset zoom2 color ch
        = some base ∧
      ∀ p q, p < SH1106_WIDTH → 16 * ch + 4 ≤ q → q ≤ 16 * ch + 10 →
        ¬ channelEdgeAt cd dl ch x_offset zoom2 p →
        base.device_.pixel p q
          = (self.drawString font 0 (16 * ch + 4) [48 + (ch : Int)] color).2.device_.pixel
              p q := by
  obtain ⟨s1, hs1, hwf1, _⟩ :=
    (Stamp.drawString font 0 (16 * ch + 4) [48 + (ch : Int)] color).frame self h
  cases hs1
  obtain ⟨s2, hs2, hwf2, hfr2⟩ :=
    (Stamp.drawDottedLine50 8 (16 * ch + 12) 120 4 color (by decide) (by decide)).frame _ hwf1
  have h1 : ((0 + ch * 16) % 256 + 4) % 256 = 16 * ch + 4 := by omega
  have h2 : ((0 + ch * 16) % 256 + 16 + 252) % 256 = 16 * ch + 12 := by omega
  have h3 : ((0 + ch * 16) % 256 + 2) % 256 = 16 * ch + 2 := by omega
  have h4 : (16 + 252) % 256 = 12 := rfl
  have h5 : SH1106_WIDTH - 8 = 120 := rfl
  have hkeep : ∀ p q, p < SH1106_WIDTH → 16 * ch + 4 ≤ q → q ≤ 16 * ch + 10 →
      s2.device_.pixel p q
        = (self.drawString font 0 (16 * ch + 4) [48 + (ch : Int)] color).2.device_.pixel
            p q := by
    intro p q hp hq1 hq2
    exact hfr2 p q hp (by simp only [SH1106_HEIGHT]; omega) (by omega)
  unfold Oled.drawLogicChannels_channel
  simp only [h1, h2, h3, h4, h5]
  rw [hs2]
  cases hcd : cd.getD ch none with
  | none => exact ⟨s2, rfl, fun p q hp hq1 hq2 _ => hkeep p q hp hq1 hq2⟩
  | some data =>
    by_cases hl : dl.getD ch 0 > 0
    · obtain ⟨s3, hs3, _, hpix⟩ := Oled.drawLogicSignal_pixel s2 8 (16 * ch + 2) data
        (dl.getD ch 0) 12 x_offset zoom2 color hwf2 (by decide) (by omega) (by omega) hz hoff
      refine ⟨s3, by simp only [hl, if_true]; exact hs3, ?_⟩
      intro p q hp hq1 hq2 hno
      rw [(hpix p q hp (by simp only [SH1106_HEIGHT]; omega)).2, hkeep p q hp hq1 hq2]
      rintro ⟨k, hk, hcov⟩
      rcases hcov with he | hr
      · have he' := (onEdge_iff (16 * ch + 2) 12 zoom2 (data.take (dl.getD ch 0)) _ k p q
          (by decide) (by omega)).mp he
        exact hno ⟨data, k, hcd, hl, he'.1, hk, he'.2.1, he'.2.2.1⟩
      · have := onRun_row (16 * ch + 2) 12 zoom2 (data.take (dl.getD ch 0)) _ k p q
          (by decide) (by omega) hr
        omega
    · exact ⟨s2, by simp only [hl, if_false], fun p q hp hq1 hq2 _ => hkeep p q hp hq1 hq2⟩

/-- The drawing of channel 0 of the one-channel example, step by step. -/
theorem Oled.drawLogicChannels_channel_example (font : FontTable) (self s1 s2 s3 : Oled)
    (hs1 : (self.drawString font 0 4 [48] 1).2 = s1)
    (hs2 : s1.drawDottedLine50 8 12 120 4 1 = some s2)
    (hs3 : s2.drawLogicSignal 8 2 (some [0x01, 0x81]) 2 12 4 2 1 = some s3) :
    self.drawLogicChannels_channel font [some [0x01, 0x81]] [2] 0 16 4 2 1 0 = some s3 := by
  have h1 : ((0 + 0 * 16) % 256 + 4) % 256 = 4 := by omega
  have h2 : ((0 + 0 * 16) % 256 + 16 + 252) % 256 = 12 := by omega
  have h3 : ((0 + 0 * 16) % 256 + 2) % 256 = 2 := by omega
  have h4 : (16 + 252) % 256 = 12 := by omega
  have h5 : SH1106_WIDTH - 8 = 120 := by decide
  have h6 : (48 : Int) + ((0 : Nat) : Int) = 48 := by omega
  have h7 : [some [0x01, 0x81]].getD 0 (none : Option (List Nat)) = some [0x01, 0x81] := by
    exact List.getD_cons_zero ..
  have h8 : [2].getD 0 0 = 2 := by exact List.getD_cons_zero ..
  have h9 : (2 : Nat) > 0 := by omega
  unfold Oled.drawLogicChannels_channel
  simp only [h1, h2, h3, h4, h5, h6, h7, h8, hs1, hs2, h9, if_true]
  exact hs3

/-- With scroll offset 4 at zoom 1.0, for one channel with the signal LOW 1, HIGH 1, the
vertical transition in front of the second run is drawn in column 5 and lights pixel (5, 7)
of the label cell, which `drawString` left off. -/
theorem Oled.drawLogicChannels_label_overdrawn (font : FontTable) (self : Oled)
    (h : self.device_.WF) :
    (self.drawString font 0 4 [48] 1).2.device_.pixel 5 7 = false ∧
    ∃ result, self.drawLogicChannels font (some [some [0x01, 0x81]]) (some [2]) 1 0
        16 4 2 1 = some result ∧
      result.device_.pixel 5 7 = true := by
  constructor
  · have hd := SH1106_DrawChar_pixel font self.device_ 0 4 48 1 h (by decide) (by decide)
    have hstr : (self.drawString font 0 4 [48] 1).2.device_
        = (SH1106_DrawChar font self.device_ 0 4 48 1).2 := by
      simp only [Oled.drawString, SH1106_DrawString, SH1106_DrawString_loop]
      rw [if_neg (by decide)]
    rw [hstr, hd.2.2 5 7 (by decide), if_pos (by decide), if_neg (by decide)]
    decide
  · obtain ⟨s1, hs1, hwf1, _⟩ := (Stamp.drawString font 0 4 [48] 1).frame self h
    obtain ⟨s2, hs2, hwf2, _⟩ :=
      (Stamp.drawDottedLine50 8 12 120 4 1 (by decide) (by decide)).frame s1 hwf1
    obtain ⟨s3, hs3, _, hpix⟩ := Oled.drawLogicSignal_pixel s2 8 2 [0x01, 0x81] 2 12 4 2 1
      hwf2 (by decide) (by decide) (by decide) (by decide) (by decide)
    have hchan := Oled.drawLogicChannels_channel_example font self s1 s2 s3
      (Option.some.inj hs1) hs2 hs3
    have hrange : List.range (if 1 > 4 then 4 else 1) = [0] := by decide
    refine ⟨s3, ?_, ?_⟩
    · simp only [Oled.drawLogicChannels]
      rw [if_neg (by decide), hrange, Oled.drawLogicChannels_loop, hchan]
      simp only [Oled.drawLogicChannels_loop]
    · apply (hpix 5 7 (by decide) (by decide)).1
      refine ⟨1, by decide, Or.inl ?_⟩
      unfold onEdge
      decide

/-- C28 as stated fails: with scroll offset 4 at zoom 1.0, for one channel with the signal
LOW 1, HIGH 1 on a newly constructed display, the waveform cursor starts at column 4, the
vertical transition in front of the second run is drawn in column 5 over rows 2..13, and
pixel (5, 7) of the label cell, which `drawString` left off, is lit. -/
theorem C28_label_cell_counterexample :
    (Oled.new.drawString sampleFont 0 4 [48] 1).2.device_.pixel 5 7 = false ∧
    ∃ result, Oled.new.drawLogicChannels sampleFont (some [some [0x01, 0x81]]) (some [2]) 1 0
        16 4 2 1 = some result ∧
      result.device_.pixel 5 7 = true :=
  Oled.drawLogicChannels_label_overdrawn sampleFont Oled.new Oled_new_WF

/-- C28 (amended): for every scroll offset up to 32776 and every zoom factor of at most 128
given in halves, `drawLogicChannels` (`start_y = 0`, `channel_height = 16`) returns, and in
each channel's label cell - columns 0..5, rows `y_pos + 4 .. y_pos + 10` with
`y_pos = 16 * ch` - a pixel shows what `drawString` rendered for the channel digit unless a
vertical transition of that channel's waveform lands in its column; with scroll offset 0 the
waveform starts at column 8 and no pixel of the label cell is modified. -/
theorem C28_label_cell (font : FontTable) (self : Oled) (cd : List (Option (List Nat)))
    (dl : List Nat) (num_channels x_offset zoom2 color : Nat) (h : self.device_.WF)
    (hz : zoom2 ≤ 256) (hoff : x_offset ≤ 8 + 32768) :
    ∃ result, self.drawLogicChannels font (some cd) (some dl) num_channels 0 16 x_offset
        zoom2 color = some result ∧
      ∀ ch p q, ch < num_channels → ch < 4 → p < 6 → 16 * ch + 4 ≤ q → q ≤ 16 * ch + 10 →
        (¬ channelEdgeAt cd dl ch x_offset zoom2 p →
          result.device_.pixel p q
            = (self.drawString font 0 (16 * ch + 4) [48 + (ch : Int)] color).2.device_.pixel
                p q) ∧
        (x_offset = 0 →
          result.device_.pixel p q
            = (self.drawString font 0 (16 * ch + 4) [48 + (ch : Int)] color).2.device_.pixel
                p q) := by
  by_cases hn : num_channels = 0
  · refine ⟨self, by simp only [Oled.drawLogicChannels, hn, if_true], ?_⟩
    intro ch p q hch
    omega
  · have hrange : ∀ ch ∈ List.range (if num_channels > 4 then 4 else num_channels), ch < 4 := by
      intro ch hc
      have := List.mem_range.mp hc
      split at this <;> omega
    obtain ⟨result, hres, _⟩ := Oled.drawLogicChannels_loop_some font cd dl 0 16 x_offset
      zoom2 color (by decide) (List.range (if num_channels > 4 then 4 else num_channels))
      (fun ch hc => by have := hrange ch hc; omega) self h
    refine ⟨result, by simp only [Oled.drawLogicChannels, hn, if_false]; exact hres, ?_⟩
    intro ch p q hch hch4 hp hq1 hq2
    obtain ⟨base, hbase, hlabel⟩ := Oled.drawLogicChannels_channel_label font self cd dl
      x_offset zoom2 color ch h hch4 hz hoff
    obtain ⟨t, ht, hband⟩ := Oled.drawLogicChannels_loop_own_band font cd dl x_offset zoom2
      color ch self base h hbase (List.range (if num_channels > 4 then 4 else num_channels))
      hrange (List.nodup_range _) self h
      (Or.inl ⟨List.mem_range.mpr (by split <;> omega), fun _ _ _ _ _ => rfl⟩)
    rw [hres] at ht
    cases ht
    have hpq : result.device_.pixel p q = base.device_.pixel p q :=
      hband p q (by simp only [SH1106_WIDTH]; omega) (by simp only [SH1106_HEIGHT]; omega)
        (by omega)
    have hedge : ¬ channelEdgeAt cd dl ch x_offset zoom2 p →
        result.device_.pixel p q
          = (self.drawString font 0 (16 * ch + 4) [48 + (ch : Int)] color).2.device_.pixel
              p q := by
      intro hno
      rw [hpq]
      exact hlabel p q (by simp only [SH1106_WIDTH]; omega) hq1 hq2 hno
    refine ⟨hedge, ?_⟩
    intro h0
    apply hedge
    rw [h0]
    exact channelEdgeAt_offset_zero cd dl ch zoom2 p (by omega)

/-- C28 (amended) for the four-channel call of `testTask` at scroll offset 0 on a newly
constructed display: pixel (5, 23) of the label cell of channel 1 is as `drawString` left
it. -/
theorem C28_label_cell_witness :
    ∃ result, Oled.new.drawLogicChannels sampleFont
        (some [some [0x14, 0x9E], some [0x85, 0x05], some [0x7F], some [0x0A, 0x8A]])
        (some [2, 2, 1, 2]) 4 0 16 0 2 1 = some result ∧
      result.device_.pixel 5 23
        = (Oled.new.drawString sampleFont 0 (16 * 1 + 4) [48 + ((1 : Nat) : Int)]
            1).2.device_.pixel 5 23 :=
  (C28_label_cell sampleFont Oled.new
    [some [0x14, 0x9E], some [0x85, 0x05], some [0x7F], some [0x0A, 0x8A]] [2, 2, 1, 2] 4 0 2 1
    Oled_new_WF (by decide) (by decide)).imp
    (fun _ hr => ⟨hr.1, (hr.2 1 5 23 (by decide) (by decide) (by decide) (by decide)
      (by decide)).2 rfl⟩)

/-! ### C29 - C30: the cursor of a zoomed and scrolled waveform -/

/-- Truncation toward zero and the floor agree on a value that is not negative or is a whole
number. -/
theorem truncHalf_eq_floorHalf (v2 : Int) (h : 0 ≤ v2 ∨ v2 % 2 = 0) :
    truncHalf v2 = floorHalf v2 := by
  unfold truncHalf floorHalf
  split <;> omega

/-- Truncation toward zero of a whole number. -/
theorem truncHalf_double (n : Int) : truncHalf (2 * n) = n := by
  unfold truncHalf
  split <;> omega

/-- C29 as stated fails: at zoom 0.5, for the signal LOW 1, HIGH 4 drawn at `x = 8` with
scroll offset 9 (`y = 0`, `height = 10`, colour 1, cleared framebuffer), run 1 starts at the
value `8 - 9 + 0.5 * 1 = -0.5`, whose floor is -1, so the 2 columns the claim gives it are
-1 and 0; the code truncates -0.5 to 0 and lights columns 0 and 1: pixel (1, 0) is lit. -/
theorem C29_cursor_floor_counterexample :
    floorHalf (cursorAt 1 [0x01, 0x84] (2 * 8 - 2 * 9) 1) = -1 ∧
    runLength 0x84 * 1 / 2 = 2 ∧
    ¬ (floorHalf (cursorAt 1 [0x01, 0x84] (2 * 8 - 2 * 9) 1) ≤ (1 : Int) ∧
        (1 : Int) < floorHalf (cursorAt 1 [0x01, 0x84] (2 * 8 - 2 * 9) 1) + 2) ∧
    ∃ self', Oled.drawLogicSignal Oled.new 8 0 (some [0x01, 0x84]) 2 10 9 1 1 = some self' ∧
      self'.device_.pixel 1 0 = true := by
  refine ⟨by decide, by decide, by decide, ?_⟩
  obtain ⟨self', hs, hlit⟩ := Oled.drawLogicSignal_lit Oled.new 8 0 [0x01, 0x84] 2 10 9 1 rfl
    (by decide) (by decide) (by decide) (by decide) (by decide)
  refine ⟨self', hs, (hlit 1 0 (by decide) (by decide)).mpr ?_⟩
  refine ⟨1, by decide, Or.inr ?_⟩
  unfold onRun
  decide

/-- C29 (amended): for every zoom factor of at most 128 given in halves (0.5, 1, 2, 4 and 8
among them), a geometry whose level rows are below 255 and a start cursor inside
`int16_t`, `drawLogicSignal` returns; the cursor of run `k` is the exact value
`x - x_offset + zoom * (sum of the lengths of runs 0..k-1)` (no per-run rounding); the
column at which run `k` starts is that value truncated toward zero, which is its floor when
the value is not negative or the zoom factor is a whole number; run `k` writes the
`floor(zoom * length_k)` consecutive columns from there at its level row, clipped to
`0 .. 127`; and a pixel covered by no run and no vertical segment is left as it was. -/
theorem C29_cursor_truncation (self : Oled) (x y : Nat) (data : List Nat)
    (height x_offset zoom2 color : Nat) (h : self.device_.WF) (hx : x < 256) (hy : y < 255)
    (hlow : (y + height + 255) % 256 < 255) (hz : zoom2 ≤ 256)
    (hoff : x_offset ≤ x + 32768) :
    ∃ self', self.drawLogicSignal x y (some data) data.length height x_offset zoom2 color
        = some self' ∧
      (∀ k, cursorAt zoom2 data (2 * (x : Int) - 2 * (x_offset : Int)) k
          = 2 * (x : Int) - 2 * (x_offset : Int)
            + (zoom2 : Int) * (((data.take k).map runLength).sum : Nat)) ∧
      (∀ k, (0 ≤ cursorAt zoom2 data (2 * (x : Int) - 2 * (x_offset : Int)) k ∨
            zoom2 % 2 = 0) →
          truncHalf (cursorAt zoom2 data (2 * (x : Int) - 2 * (x_offset : Int)) k)
            = floorHalf (cursorAt zoom2 data (2 * (x : Int) - 2 * (x_offset : Int)) k)) ∧
      (∀ (k p : Nat), k < data.length → p < 128 →
          levelRow y height (runLevel (data.getD k 0)) < 64 →
          truncHalf (cursorAt zoom2 data (2 * (x : Int) - 2 * (x_offset : Int)) k) ≤ (p : Int) →
          (p : Int) < truncHalf (cursorAt zoom2 data (2 * (x : Int) - 2 * (x_offset : Int)) k)
            + ((runLength (data.getD k 0) * zoom2 / 2 : Nat) : Int) →
          self'.device_.pixel p (levelRow y height (runLevel (data.getD k 0)))
            = decide (color ≠ 0)) ∧
      (∀ (p q : Nat), p < 128 → q < 64 →
          ¬ signalCoversFrom y height zoom2 data 0 (2 * (x : Int) - 2 * (x_offset : Int)) 0
            p q →
          self'.device_.pixel p q = self.device_.pixel p q) := by
  obtain ⟨self', hs, _, hpix⟩ := Oled.drawLogicSignal_pixel self x y data data.length height
    x_offset zoom2 color h hx hy hlow hz hoff
  rw [List.take_length] at hpix
  refine ⟨self', hs, ?_, ?_, ?_, ?_⟩
  · intro k
    unfold cursorAt runTotal
    push_cast
    ring
  · intro k hk
    apply truncHalf_eq_floorHalf
    rcases hk with hk | hk
    · exact Or.inl hk
    · right
      unfold cursorAt
      have : ((zoom2 * runTotal (data.take k) : Nat) : Int) % 2 = 0 := by
        have h2 : (zoom2 * runTotal (data.take k)) % 2 = 0 := by
          rw [Nat.mul_mod, hk]
          simp
        omega
      omega
  · intro k p hk hp hrow hlo hhi
    exact (hpix p _ hp hrow).1 ⟨k, hk, Or.inr ⟨rfl, hlo, hhi⟩⟩
  · intro p q hp hq hno
    exact (hpix p q hp hq).2 hno

/-- C29 (amended) at zoom 0.5 for the signal LOW 1, HIGH 4 drawn at `x = 8` with scroll
offset 9: run 1 starts at column 0 and pixel (1, 0) of it is written. -/
theorem C29_cursor_truncation_witness :
    ∃ self', Oled.drawLogicSignal Oled.new 8 0 (some [0x01, 0x84]) 2 10 9 1 1 = some self' ∧
      self'.device_.pixel 1 0 = true :=
  (C29_cursor_truncation Oled.new 8 0 [0x01, 0x84] 10 9 1 1 Oled_new_WF (by decide)
    (by decide) (by decide) (by decide) (by decide)).imp
    (fun _ hs => ⟨hs.1, hs.2.2.2.1 1 1 (by decide) (by decide) (by decide) (by decide)
      (by decide)⟩)

/-- At a whole-number zoom factor, moving the start cursor left by `k` columns moves what a
signal covers left by `k` columns. -/
theorem signalCoversFrom_shift (y height z : Nat) (data : List Nat) (i : Nat) (c0 : Int)
    (cv k p q : Nat) :
    signalCoversFrom y height (2 * z) data i (2 * (c0 - k)) cv p q ↔
      signalCoversFrom y height (2 * z) data i (2 * c0) cv (p + k) q := by
  have hcur : ∀ j, truncHalf (cursorAt (2 * z) data (2 * (c0 - k)) j)
      = truncHalf (cursorAt (2 * z) data (2 * c0) j) - k := by
    intro j
    have h1 : cursorAt (2 * z) data (2 * (c0 - k)) j
        = 2 * (c0 - k + ((z * runTotal (data.take j) : Nat) : Int)) := by
      unfold cursorAt
      push_cast
      ring
    have h2 : cursorAt (2 * z) data (2 * c0) j
        = 2 * (c0 + ((z * runTotal (data.take j) : Nat) : Int)) := by
      unfold cursorAt
      push_cast
      ring
    rw [h1, h2, truncHalf_double, truncHalf_double]
    ring
  unfold signalCoversFrom onEdge onRun
  constructor
  · rintro ⟨j, hj, hcov⟩
    refine ⟨j, hj, ?_⟩
    rcases hcov with ⟨h1, h2, h3, h4, h5⟩ | ⟨h1, h2, h3⟩
    · left
      rw [hcur] at h3
      exact ⟨h1, h2, by omega, h4, h5⟩
    · right
      rw [hcur] at h2 h3
      exact ⟨h1, by omega, by omega⟩
  · rintro ⟨j, hj, hcov⟩
    refine ⟨j, hj, ?_⟩
    rcases hcov with ⟨h1, h2, h3, h4, h5⟩ | ⟨h1, h2, h3⟩
    · left
      rw [hcur]
      exact ⟨h1, h2, by omega, h4, h5⟩
    · right
      rw [hcur]
      exact ⟨h1, by omega, by omega⟩

/-- C30: scrolling is a pure horizontal pan.  For a whole-number zoom factor `z` of at most
128 (1, 2, 4 and 8 among them), every run sequence, a geometry whose level rows are below
255, all offsets `s` and `k` with `x - (s + k) >= -32768`, and colour 1 on a cleared
framebuffer, both calls return and pixel `(c, r)` after `drawLogicSignal` with
`x_offset = s + k` equals pixel `(c + k, r)` after `drawLogicSignal` with `x_offset = s`, for
every column `c` with `c + k <= 127` and every row `r` of the display. -/
theorem C30_scroll_is_pan (self : Oled) (x y : Nat) (data : List Nat)
    (data_length height z s k : Nat)
    (hclear : self.device_.framebuffer = List.replicate (SH1106_WIDTH * SH1106_PAGES) 0)
    (hx : x < 256) (hy : y < 255) (hlow : (y + height + 255) % 256 < 255) (hz : z ≤ 128)
    (hoff : s + k ≤ x + 32768) :
    ∃ a b,
      self.drawLogicSignal x y (some data) data_length height (s + k) (2 * z) 1 = some a ∧
      self.drawLogicSignal x y (some data) data_length height s (2 * z) 1 = some b ∧
      ∀ c r, c + k ≤ 127 → r < 64 →
        a.device_.pixel c r = b.device_.pixel (c + k) r := by
  obtain ⟨a, ha, hlitA⟩ := Oled.drawLogicSignal_lit self x y data data_length height (s + k)
    (2 * z) hclear hx hy hlow (by omega) hoff
  obtain ⟨b, hb, hlitB⟩ := Oled.drawLogicSignal_lit self x y data data_length height s
    (2 * z) hclear hx hy hlow (by omega) (by omega)
  refine ⟨a, b, ha, hb, ?_⟩
  intro c r hc hr
  have hA := hlitA c r (by simp only [SH1106_WIDTH]; omega) hr
  have hB := hlitB (c + k) r (by simp only [SH1106_WIDTH]; omega) hr
  have hshift := signalCoversFrom_shift y height z (data.take data_length) 0
    ((x : Int) - (s : Int)) 0 k c r
  have e1 : 2 * (x : Int) - 2 * ((s + k : Nat) : Int) = 2 * ((x : Int) - (s : Int) - k) := by
    push_cast
    ring
  have e2 : 2 * (x : Int) - 2 * (s : Int) = 2 * ((x : Int) - (s : Int)) := by ring
  rw [e1] at hA
  rw [e2] at hB
  rw [Bool.eq_iff_iff, hA, hB]
  exact hshift

/-- C30 at zoom 2.0 for the signal LOW 20, HIGH 30, LOW 10 drawn at (8, 2) with height 12:
scroll offsets 4 + 16 and 4. -/
theorem C30_scroll_is_pan_witness :
    ∃ a b,
      Oled.drawLogicSignal Oled.new 8 2 (some [0x14, 0x9E, 0x0A]) 3 12 (4 + 16) (2 * 2) 1
        = some a ∧
      Oled.drawLogicSignal Oled.new 8 2 (some [0x14, 0x9E, 0x0A]) 3 12 4 (2 * 2) 1 = some b ∧
      ∀ c r, c + 16 ≤ 127 → r < 64 →
        a.device_.pixel c r = b.device_.pixel (c + 16) r :=
  C30_scroll_is_pan Oled.new 8 2 [0x14, 0x9E, 0x0A] 3 12 2 4 16 rfl (by decide) (by decide)
    (by decide) (by decide) (by decide)

/-! ### C31: the early stop -/

/-- Runs after the one that takes the cursor to column 128 or beyond are never read: the
run loop on `d ++ e` is the run loop on `d` when the cursor after `d` is at 128 or beyond. -/
theorem Oled.drawLogicSignal_loop_append_stop (y height zoom2 color : Nat) (d e : List Nat)
    (i : Nat) (cur2 : Int) (cv : Nat) (self : Oled) (hd : d ≠ [])
    (hstop : 256 ≤ cur2 + (zoom2 : Int) * (runTotal d : Int)) :
    Oled.drawLogicSignal_loop y height zoom2 color (d ++ e) i cur2 cv self
      = Oled.drawLogicSignal_loop y height zoom2 color d i cur2 cv self := by
  induction d generalizing i cur2 cv self with
  | nil => exact absurd rfl hd
  | cons b rest ih =>
    rw [List.cons_append]
    conv_lhs => rw [Oled.drawLogicSignal_loop]
    conv_rhs => rw [Oled.drawLogicSignal_loop]
    dsimp only
    cases Oled.drawLogicSignal_edge self y height color i ((b &&& 0x80) >>> 7) cv
      (floatToInt16 cur2) with
    | none => rfl
    | some s1 =>
      dsimp only
      by_cases hc : cur2 + ((b &&& 0x7F : Nat) : Int) * (zoom2 : Int) ≥ 2 * (SH1106_WIDTH : Int)
      · rw [if_pos hc, if_pos hc]
      · rw [if_neg hc, if_neg hc]
        have hrt : (runTotal (b :: rest) : Int)
            = ((b &&& 0x7F : Nat) : Int) + (runTotal rest : Int) := by
          rw [runTotal_cons]
          unfold runLength
          push_cast
          rfl
        rw [hrt, mul_add] at hstop
        have hne : rest ≠ [] := by
          rintro rfl
          rw [runTotal_nil] at hstop
          simp only [SH1106_WIDTH] at hc
          push_cast at hstop hc
          have := mul_comm (zoom2 : Int) ((b &&& 0x7F : Nat) : Int)
          omega
        apply ih _ _ _ _ hne
        have := mul_comm (zoom2 : Int) ((b &&& 0x7F : Nat) : Int)
        omega

/-- A fold whose steps all return their state returns its state. -/
theorem foldl_fixed {α β : Type} (f : α → β → α) (l : List β) (s : α)
    (h : ∀ b ∈ l, f s b = s) : l.foldl f s = s := by
  induction l with
  | nil => rfl
  | cons b l ih =>
    rw [List.foldl_cons, h b (List.mem_cons_self _ _)]
    exact ih (fun c hc => h c (List.mem_cons_of_mem _ hc))

/-- A horizontal line that starts at column 128 or beyond writes nothing. -/
theorem Oled.drawLogicSignal_hline_right (self : Oled) (current_x : Int) (y_level : Nat)
    (zoomed_delta_int : Int) (color : Nat) (hlo : 128 ≤ current_x)
    (hhi : current_x + zoomed_delta_int ≤ 32768) :
    self.drawLogicSignal_hline current_x y_level zoomed_delta_int color = self := by
  unfold Oled.drawLogicSignal_hline
  apply foldl_fixed
  intro dx hdx
  have hlt := List.mem_range.mp hdx
  have hdx' : (dx : Int) < zoomed_delta_int := by omega
  dsimp only
  rw [toInt16_of_range _ (by omega) (by omega), if_neg]
  simp only [SH1106_WIDTH]
  omega

/-- A run loop entered at the first run with the cursor at column 128 or beyond draws
nothing. -/
theorem Oled.drawLogicSignal_loop_right (y height zoom2 color : Nat) (hz : zoom2 ≤ 256)
    (e : List Nat) (cur2 : Int) (cv : Nat) (self : Oled) (hlo : 256 ≤ cur2)
    (hhi : cur2 ≤ 510) :
    Oled.drawLogicSignal_loop y height zoom2 color e 0 cur2 cv self = some self := by
  cases e with
  | nil => rfl
  | cons b rest =>
    have hb : b &&& 0x7F ≤ 127 := Nat.and_le_right
    have hprod : (b &&& 0x7F) * zoom2 ≤ 127 * 256 := Nat.mul_le_mul hb hz
    have h0 : (0 : Int) ≤ ((b &&& 0x7F : Nat) : Int) * (zoom2 : Int) :=
      Int.mul_nonneg (Int.ofNat_nonneg _) (Int.ofNat_nonneg _)
    have h1 : ((b &&& 0x7F : Nat) : Int) * (zoom2 : Int) ≤ 32512 := by
      have : (((b &&& 0x7F) * zoom2 : Nat) : Int) ≤ 32512 := by omega
      push_cast at this
      exact this
    have hedge : self.drawLogicSignal_edge y height color 0 ((b &&& 0x80) >>> 7) cv
        (floatToInt16 cur2) = some self := by
      unfold Oled.drawLogicSignal_edge
      rw [if_neg (by omega)]
    rw [Oled.drawLogicSignal_loop]
    dsimp only
    rw [hedge]
    dsimp only
    generalize ((b &&& 0x7F : Nat) : Int) * (zoom2 : Int) = P at h0 h1 ⊢
    have hcx : floatToInt16 cur2 = cur2 / 2 := by
      unfold floatToInt16 truncHalf
      rw [if_pos (by omega)]
      exact toInt16_of_range _ (by omega) (by omega)
    have hzd : floatToInt16 P = P / 2 := by
      unfold floatToInt16 truncHalf
      rw [if_pos (by omega)]
      exact toInt16_of_range _ (by omega) (by omega)
    rw [hcx, hzd, Oled.drawLogicSignal_hline_right _ _ _ _ _ (by omega) (by omega),
      if_pos (by simp only [SH1106_WIDTH]; omega)]

/-- C31: the early stop of `drawLogicSignal` drops nothing that would be drawn: for every
run sequence `d` whose cursor after its last run is at column 128 or beyond
(`x - x_offset + zoom * sum(d) >= 128`) and every continuation `e`, drawing `d ++ e` gives
exactly the result of drawing `d` alone - the same framebuffer, or no return in the same
cases - for every state, geometry, scroll offset, colour and zoom factor; for the empty `d`
(start column `x` at 128 or beyond, no run in front of `e`) the zoom factor is at most 128. -/
theorem C31_early_stop (self : Oled) (x y : Nat) (d e : List Nat)
    (height x_offset zoom2 color : Nat) (hx : x < 256) (hz : d = [] → zoom2 ≤ 256)
    (hstop : 256 ≤ 2 * (x : Int) - 2 * (x_offset : Int) + (zoom2 : Int) * (runTotal d : Int)) :
    self.drawLogicSignal x y (some (d ++ e)) (d ++ e).length height x_offset zoom2 color
      = self.drawLogicSignal x y (some d) d.length height x_offset zoom2 color := by
  unfold Oled.drawLogicSignal
  dsimp only
  rw [List.take_length, List.take_length]
  by_cases hd : d = []
  · subst hd
    rw [runTotal_nil] at hstop
    rw [List.nil_append, if_pos List.length_nil]
    split
    · rfl
    · exact Oled.drawLogicSignal_loop_right y height zoom2 color (hz rfl) e _ 0 self
        (by omega) (by omega)
  · have hl1 : ¬ (d ++ e).length = 0 := by
      rw [List.length_append]
      have := List.length_pos.mpr hd
      omega
    have hl2 : ¬ d.length = 0 := by
      have := List.length_pos.mpr hd
      omega
    rw [if_neg hl1, if_neg hl2]
    exact Oled.drawLogicSignal_loop_append_stop y height zoom2 color d e 0 _ 0 self hd hstop

/-- C31 for the signal LOW 100, HIGH 100 drawn at `x = 8` (cursor 208 after the two runs)
and a continuation of two more runs. -/
theorem C31_early_stop_witness :
    Oled.new.drawLogicSignal 8 2 (some ([0x64, 0xE4] ++ [0x14, 0x9E]))
        ([0x64, 0xE4] ++ [0x14, 0x9E]).length 12 0 2 1
      = Oled.new.drawLogicSignal 8 2 (some [0x64, 0xE4]) [0x64, 0xE4].length 12 0 2 1 :=
  C31_early_stop Oled.new 8 2 [0x64, 0xE4] [0x14, 0x9E] 12 0 2 1 (by decide)
    (fun _ => by decide) (by decide)

/-! ### C32: channel bands -/

/-- C32: in `drawLogicChannels` with `channel_height = h >= 11` and
`start_y + num * h <= 64`, for a channel `ch < num` with `y_pos = start_y + ch * h`: the
8-bit row expressions of the code do not wrap (label at `y_pos + 4`, HIGH row `y_pos + 2`,
LOW row `y_pos + h - 3`, baseline `y_pos + h - 4`, one row above the LOW row); the label
changes rows `y_pos + 4 .. y_pos + 10` only, the baseline row `y_pos + h - 4` only, the
waveform (runs and vertical segments) rows `y_pos + 2 .. y_pos + h - 3` only; the drawing of
the channel returns and changes no pixel outside rows `y_pos .. y_pos + h - 1`, so it
changes no pixel of the band of another channel. -/
theorem C32_channel_band (font : FontTable) (self : Oled) (cd : List (Option (List Nat)))
    (dl : List Nat) (start_y h x_offset zoom2 color num ch : Nat) (hwf : self.device_.WF)
    (hh : 11 ≤ h) (hfit : start_y + num * h ≤ 64) (hch : ch < num) :
    ((start_y + ch * h) % 256 = start_y + ch * h ∧
      ((start_y + ch * h) % 256 + 4) % 256 = start_y + ch * h + 4 ∧
      ((start_y + ch * h) % 256 + h + 252) % 256 = start_y + ch * h + h - 4 ∧
      levelRow (((start_y + ch * h) % 256 + 2) % 256) ((h + 252) % 256) 1
        = start_y + ch * h + 2 ∧
      levelRow (((start_y + ch * h) % 256 + 2) % 256) ((h + 252) % 256) 0
        = start_y + ch * h + h - 3) ∧
    (∀ p q, p < 128 → q < 64 → ¬ (start_y + ch * h + 4 ≤ q ∧ q ≤ start_y + ch * h + 10) →
      (self.drawString font 0 (start_y + ch * h + 4) [48 + (ch : Int)] color).2.device_.pixel
          p q = self.device_.pixel p q) ∧
    (∃ s1, self.drawDottedLine50 8 (start_y + ch * h + h - 4) 120 4 color = some s1 ∧
      ∀ p q, p < 128 → q < 64 → q ≠ start_y + ch * h + h - 4 →
        s1.device_.pixel p q = self.device_.pixel p q) ∧
    (∀ data data_length,
      ∃ s2, self.drawLogicSignal 8 (start_y + ch * h + 2) (some data) data_length (h - 4)
          x_offset zoom2 color = some s2 ∧
        ∀ p q, p < 128 → q < 64 →
          ¬ (start_y + ch * h + 2 ≤ q ∧ q ≤ start_y + ch * h + h - 3) →
          s2.device_.pixel p q = self.device_.pixel p q) ∧
    (∃ s3, self.drawLogicChannels_channel font cd dl start_y h x_offset zoom2 color ch
        = some s3 ∧ s3.device_.WF ∧
      (∀ p q, p < 128 → q < 64 →
        ¬ (start_y + ch * h ≤ q ∧ q ≤ start_y + ch * h + h - 1) →
        s3.device_.pixel p q = self.device_.pixel p q) ∧
      (∀ other p q, other < num → other ≠ ch → p < 128 →
        start_y + other * h ≤ q → q ≤ start_y + other * h + h - 1 →
        s3.device_.pixel p q = self.device_.pixel p q)) := by
  have hmul : (ch + 1) * h ≤ num * h := Nat.mul_le_mul_right h hch
  have hband : start_y + ch * h + h ≤ 64 := by
    rw [Nat.add_mul, Nat.one_mul] at hmul
    omega
  generalize hyp : start_y + ch * h = y_pos at hband ⊢
  have hlowrow : (y_pos + 2 + (h - 4) + 255) % 256 = y_pos + h - 3 := by omega
  refine ⟨⟨by omega, by omega, by omega, ?_, ?_⟩, ?_, ?_, ?_, ?_⟩
  · unfold levelRow
    rw [if_neg (by decide)]
    omega
  · unfold levelRow
    rw [if_pos rfl]
    omega
  · obtain ⟨t, ht, _, hfr⟩ :=
      (Stamp.drawString font 0 (y_pos + 4) [48 + (ch : Int)] color).frame self hwf
    rw [← Option.some.inj ht] at hfr
    intro p q hp hq hout
    exact hfr p q hp hq (by omega)
  · obtain ⟨t, ht, _, hfr⟩ :=
      (Stamp.drawDottedLine50 8 (y_pos + h - 4) 120 4 color (by decide) (by decide)).frame
        self hwf
    exact ⟨t, ht, fun p q hp hq hne => hfr p q hp hq (by omega)⟩
  · intro data data_length
    obtain ⟨t, ht, _, hfr⟩ :=
      (Stamp.drawLogicSignal 8 (y_pos + 2) (some data) data_length (h - 4) x_offset zoom2
        color (by omega) (by omega)).frame self hwf
    refine ⟨t, ht, fun p q hp hq hout => hfr p q hp hq ?_⟩
    rw [hlowrow]
    omega
  · obtain ⟨t, ht, hwft, hfr⟩ :=
      (Stamp.channel font cd dl start_y h x_offset zoom2 color ch y_pos hyp.symm hh
        hband).frame self hwf
    refine ⟨t, ht, hwft, fun p q hp hq hout => hfr p q hp hq hout, ?_⟩
    intro other p q hother hne hp hq1 hq2
    have hob : start_y + other * h + h ≤ 64 := by
      have : (other + 1) * h ≤ num * h := Nat.mul_le_mul_right h hother
      rw [Nat.add_mul, Nat.one_mul] at this
      omega
    apply hfr p q hp (by simp only [SH1106_HEIGHT]; omega)
    rcases Nat.lt_or_gt_of_ne hne with hlt | hgt
    · have : (other + 1) * h ≤ ch * h := Nat.mul_le_mul_right h hlt
      rw [Nat.add_mul, Nat.one_mul] at this
      omega
    · have : (ch + 1) * h ≤ other * h := Nat.mul_le_mul_right h hgt
      rw [Nat.add_mul, Nat.one_mul] at this
      omega

/-- C32 for channel 1 of the four-channel call of `testTask` (`start_y = 0`, `h = 16`) on a
newly constructed display: pixel (30, 40) in the band of channel 2 is untouched. -/
theorem C32_channel_band_witness :
    ∃ s3, Oled.new.drawLogicChannels_channel sampleFont
        [some [0x14, 0x9E], some [0x85, 0x05], some [0x7F], some [0x0A, 0x8A]] [2, 2, 1, 2]
        0 16 0 2 1 1 = some s3 ∧
      s3.device_.pixel 30 40 = Oled.new.device_.pixel 30 40 :=
  (C32_channel_band sampleFont Oled.new
    [some [0x14, 0x9E], some [0x85, 0x05], some [0x7F], some [0x0A, 0x8A]] [2, 2, 1, 2]
    0 16 0 2 1 4 1 Oled_new_WF (by decide) (by decide) (by decide)).2.2.2.2.imp
    (fun _ hs => ⟨hs.1, hs.2.2.2 2 30 40 (by decide) (by decide) (by decide) (by decide)
      (by decide)⟩)

/-! ### C33: the dotted line -/

/-- The parity test of `drawDottedLine50` at the sampling point number `k`. -/
theorem dotted_parity (x spacing k : Nat) (hs : 1 ≤ spacing) :
    (((((x + k * spacing : Nat) : Int) - x).tdiv spacing).tmod 2 = 0) ↔ k % 2 = 0 := by
  have h1 : ((x + k * spacing : Nat) : Int) - x = (k : Int) * (spacing : Int) := by
    push_cast
    ring
  rw [h1, Int.mul_tdiv_cancel _ (by omega), Int.tmod_eq_emod (by omega) (by omega)]
  omega

/-- The loop of `drawDottedLine50` entered at sampling point `k` (counter `x + k * spacing`):
with enough fuel it returns, and it writes the colour at the even sampling points from `k`
on that lie left of `x + width` and on the display, and nothing else. -/
theorem Oled.drawDottedLine50_loop_pixel (x y width spacing color : Nat) (hs1 : 1 ≤ spacing)
    (hs2 : spacing ≤ 128) (fuel k : Nat) (self : Oled) (h : self.device_.WF)
    (hpx : x + k * spacing ≤ 255) (hfuel : 1 ≤ fuel)
    (hreach : x + k * spacing < 128 → 129 ≤ x + k * spacing + fuel) :
    ∃ self', Oled.drawDottedLine50_loop x y width spacing color fuel self (x + k * spacing)
        = some self' ∧ self'.device_.WF ∧
      ∀ p q, p < SH1106_WIDTH → q < SH1106_HEIGHT →
        ((q = y ∧ ∃ m, k ≤ m ∧ m % 2 = 0 ∧ p = x + m * spacing ∧ p < x + width) →
          self'.device_.pixel p q = decide (color ≠ 0)) ∧
        (¬ (q = y ∧ ∃ m, k ≤ m ∧ m % 2 = 0 ∧ p = x + m * spacing ∧ p < x + width) →
          self'.device_.pixel p q = self.device_.pixel p q) := by
  induction fuel generalizing k self with
  | zero => omega
  | succ fuel ih =>
    by_cases hcond : x + k * spacing < x + width ∧ x + k * spacing < SH1106_WIDTH
    · have hlt : x + k * spacing < 128 := hcond.2
      have hnext : (x + k * spacing + spacing) % 256 = x + (k + 1) * spacing := by
        rw [Nat.add_mul, Nat.one_mul]
        omega
      have hnext' : x + (k + 1) * spacing = x + k * spacing + spacing := by
        rw [Nat.add_mul, Nat.one_mul]
        omega
      -- the state after the body of this iteration
      have hstep : ∃ s1 : Oled,
          (if ((((x + k * spacing : Nat) : Int) - x).tdiv spacing).tmod 2 = 0 then
            (if y < SH1106_HEIGHT then self.setPixel (x + k * spacing) y color else self)
          else self) = s1 ∧ s1.device_.WF ∧
          ∀ p q, p < SH1106_WIDTH →
            s1.device_.pixel p q
              = if k % 2 = 0 ∧ y < SH1106_HEIGHT ∧ p = x + k * spacing ∧ q = y then
                  decide (color ≠ 0)
                else self.device_.pixel p q := by
        refine ⟨_, rfl, ?_, ?_⟩
        · split
          · split
            · exact SH1106_SetPixel_WF _ _ _ _ h
            · exact h
          · exact h
        · intro p q hp
          by_cases hk : k % 2 = 0
          · rw [if_pos ((dotted_parity x spacing k hs1).mpr hk)]
            by_cases hy : y < SH1106_HEIGHT
            · rw [if_pos hy, Oled.setPixel_device,
                SH1106_SetPixel_pixel _ _ _ _ h p q hp]
              by_cases hpq : p = x + k * spacing ∧ q = y
              · rw [if_pos ⟨hlt, hy, hpq.1, hpq.2⟩, if_pos ⟨hk, hy, hpq.1, hpq.2⟩]
              · rw [if_neg (fun hc => hpq ⟨hc.2.2.1, hc.2.2.2⟩),
                  if_neg (fun hc => hpq ⟨hc.2.2.1, hc.2.2.2⟩)]
            · rw [if_neg hy, if_neg (fun hc => hy hc.2.1)]
          · rw [if_neg (fun hc => hk ((dotted_parity x spacing k hs1).mp hc)),
              if_neg (fun hc => hk hc.1)]
      obtain ⟨s1, hs1eq, hwf1, hpix1⟩ := hstep
      obtain ⟨self', hres, hwf', hpix'⟩ := ih (k + 1) s1 hwf1 (by omega) (by omega) (by omega)
      refine ⟨self', ?_, hwf', ?_⟩
      · rw [Oled.drawDottedLine50_loop, if_pos hcond]
        dsimp only
        rw [hnext]
        rw [hs1eq]
        exact hres
      · intro p q hp hq
        have hP := hpix' p q hp hq
        have h1 := hpix1 p q hp
        constructor
        · rintro ⟨hqy, m, hkm, hm2, hpm, hpw⟩
          by_cases hnx : q = y ∧ ∃ m, k + 1 ≤ m ∧ m % 2 = 0 ∧ p = x + m * spacing ∧ p < x + width
          · exact hP.1 hnx
          · rw [hP.2 hnx, h1]
            have hmk : m = k := by
              by_contra hne
              exact hnx ⟨hqy, m, by omega, hm2, hpm, hpw⟩
            subst hmk
            rw [if_pos ⟨hm2, by omega, hpm, hqy⟩]
        · intro hno
          have hnx : ¬ (q = y ∧ ∃ m, k + 1 ≤ m ∧ m % 2 = 0 ∧ p = x + m * spacing ∧
              p < x + width) := by
            rintro ⟨hqy, m, hkm, hm2, hpm, hpw⟩
            exact hno ⟨hqy, m, by omega, hm2, hpm, hpw⟩
          rw [hP.2 hnx, h1, if_neg]
          rintro ⟨hk2, _, hpk, hqy⟩
          exact hno ⟨hqy, k, Nat.le_refl _, hk2, hpk, by omega⟩
    · refine ⟨self, ?_, h, ?_⟩
      · rw [Oled.drawDottedLine50_loop, if_neg hcond]
      · intro p q hp hq
        refine ⟨?_, fun _ => rfl⟩
        rintro ⟨_, m, hkm, _, hpm, hpw⟩
        exfalso
        have := Nat.mul_le_mul_right spacing hkm
        simp only [SH1106_WIDTH] at hcond hp
        omega

/-- With `y` below the display the loop of `drawDottedLine50` writes nothing. -/
theorem Oled.drawDottedLine50_loop_offscreen (x y width spacing color : Nat)
    (hy : SH1106_HEIGHT ≤ y) (fuel : Nat) (self r : Oled) (px : Nat)
    (hr : Oled.drawDottedLine50_loop x y width spacing color fuel self px = some r) :
    r = self := by
  induction fuel generalizing px with
  | zero =>
    rw [Oled.drawDottedLine50_loop] at hr
    cases hr
  | succ fuel ih =>
    rw [Oled.drawDottedLine50_loop] at hr
    split at hr
    · have hny : ¬ y < SH1106_HEIGHT := by omega
      simp only [hny, if_false, ite_self] at hr
      exact ih _ hr
    · exact (Option.some.inj hr).symm

/-- C33: for every `x` (an 8-bit value; `x < 128` among them), every `y`, `width` and
`spacing` `s` with `1 <= s <= 128`, `drawDottedLine50` returns; for `y < 64` it writes the
colour at exactly the pixels `(x + 2 * j * s, y)`, `j >= 0`, with
`x + 2 * j * s < min(x + width, 128)` - every other sampling point of the `s`-spaced grid -
and changes no other pixel; for `y >= 64` it returns the state it was given. -/
theorem C33_dotted_line_pixels (self : Oled) (x y width spacing color : Nat)
    (h : self.device_.WF) (hx : x < 256) (hs1 : 1 ≤ spacing) (hs2 : spacing ≤ 128) :
    ∃ self', self.drawDottedLine50 x y width spacing color = some self' ∧
      (∀ p q, p < 128 → q < 64 →
        ((q = y ∧ ∃ j, p = x + 2 * j * spacing ∧ p < min (x + width) 128) →
          self'.device_.pixel p q = decide (color ≠ 0)) ∧
        (¬ (q = y ∧ ∃ j, p = x + 2 * j * spacing ∧ p < min (x + width) 128) →
          self'.device_.pixel p q = self.device_.pixel p q)) ∧
      (64 ≤ y → self' = self) := by
  obtain ⟨self', hres, _, hpix⟩ := Oled.drawDottedLine50_loop_pixel x y width spacing color
    hs1 hs2 256 0 self h (by omega) (by decide) (by omega)
  rw [Nat.zero_mul, Nat.add_zero] at hres
  refine ⟨self', hres, ?_, ?_⟩
  · intro p q hp hq
    have hP := hpix p q hp hq
    have hiff : (q = y ∧ ∃ m, 0 ≤ m ∧ m % 2 = 0 ∧ p = x + m * spacing ∧ p < x + width) ↔
        (q = y ∧ ∃ j, p = x + 2 * j * spacing ∧ p < min (x + width) 128) := by
      constructor
      · rintro ⟨hqy, m, _, hm2, hpm, hpw⟩
        refine ⟨hqy, m / 2, ?_, by omega⟩
        rw [show 2 * (m / 2) = m by omega]
        exact hpm
      · rintro ⟨hqy, j, hpj, hpw⟩
        exact ⟨hqy, 2 * j, Nat.zero_le _, by omega, hpj, by omega⟩
    rw [hiff] at hP
    exact hP
  · intro hy
    exact Oled.drawDottedLine50_loop_offscreen x y width spacing color hy 256 self self' x hres

/-- C33 for the baseline of channel 0 as `drawLogicChannels` draws it (`x = 8`, `y = 12`,
`width = 120`, `spacing = 4`) on a newly constructed display: pixel (16, 12) is lit, pixel
(12, 12) is not. -/
theorem C33_dotted_line_pixels_witness :
    ∃ self', Oled.new.drawDottedLine50 8 12 120 4 1 = some self' ∧
      self'.device_.pixel 16 12 = true ∧
      self'.device_.pixel 12 12 = Oled.new.device_.pixel 12 12 :=
  (C33_dotted_line_pixels Oled.new 8 12 120 4 1 Oled_new_WF (by decide) (by decide)
    (by decide)).imp
    (fun _ hs => ⟨hs.1, (hs.2.1 16 12 (by decide) (by decide)).1 ⟨rfl, 1, by decide, by decide⟩,
      (hs.2.1 12 12 (by decide) (by decide)).2 (by
        rintro ⟨_, j, hj, _⟩
        omega)⟩)

/-! ### C34: `clear()` and `fill()` -/

/-- What `clear()` (`v = 0x00`) and `fill()` (`v = 0xFF`) come to: one transfer of the reset
state. -/
theorem SH1106_UpdateScreen_reset (hi2c : I2C_HandleTypeDef) (dev : SH1106_t) (log : I2C_Log)
    (v : Nat) :
    SH1106_UpdateScreen hi2c { dev with framebuffer := List.replicate 1024 v } log
      = ((sendAll hi2c (screenTransactions dev.address (List.replicate 1024 v)) log).1,
          { dev with framebuffer := List.replicate 1024 v },
          (sendAll hi2c (screenTransactions dev.address (List.replicate 1024 v)) log).2) := by
  rw [SH1106_UpdateScreen_eq hi2c _ log (List.length_replicate ..)]

/-- C34: `clear()` and `fill()` reset the framebuffer to `0x00` / `0xFF` and then perform
exactly one `SH1106_UpdateScreen` of the reset state: the value returned is true exactly
when that transfer returns `HAL_OK`, the bus log is the log of that transfer (the old log
and a prefix of the 32 transactions of the reset framebuffer, all 32 on success), and the
framebuffer is the reset one for every bus behaviour (a failing transfer included) and every
prior state (the `initialized` flag is not consulted). -/
theorem C34_clear_fill_reset_then_update (hi2c : I2C_HandleTypeDef) (self : Oled)
    (log : I2C_Log) :
    (Oled.clear hi2c self log
      = ((SH1106_UpdateScreen hi2c
            { self.device_ with framebuffer := List.replicate 1024 0x00 } log).1 == HAL_OK,
          { device_ := { self.device_ with framebuffer := List.replicate 1024 0x00 } },
          (SH1106_UpdateScreen hi2c
            { self.device_ with framebuffer := List.replicate 1024 0x00 } log).2.2)) ∧
    (Oled.fill hi2c self log
      = ((SH1106_UpdateScreen hi2c
            { self.device_ with framebuffer := List.replicate 1024 0xFF } log).1 == HAL_OK,
          { device_ := { self.device_ with framebuffer := List.replicate 1024 0xFF } },
          (SH1106_UpdateScreen hi2c
            { self.device_ with framebuffer := List.replicate 1024 0xFF } log).2.2)) ∧
    (∃ k, k ≤ 32 ∧
      (Oled.clear hi2c self log).2.2
        = log ++ (screenTransactions self.device_.address (List.replicate 1024 0x00)).take k ∧
      ((Oled.clear hi2c self log).1 = true → k = 32)) ∧
    (∃ k, k ≤ 32 ∧
      (Oled.fill hi2c self log).2.2
        = log ++ (screenTransactions self.device_.address (List.replicate 1024 0xFF)).take k ∧
      ((Oled.fill hi2c self log).1 = true → k = 32)) ∧
    (Oled.clear hi2c self log).2.1.device_.framebuffer = List.replicate 1024 0x00 ∧
    (Oled.fill hi2c self log).2.1.device_.framebuffer = List.replicate 1024 0xFF := by
  have hpre : ∀ v : Nat, ∃ k, k ≤ 32 ∧
      (sendAll hi2c (screenTransactions self.device_.address (List.replicate 1024 v)) log).2
        = log ++ (screenTransactions self.device_.address (List.replicate 1024 v)).take k ∧
      (((sendAll hi2c (screenTransactions self.device_.address (List.replicate 1024 v))
          log).1 == HAL_OK) = true → k = 32) := by
    intro v
    obtain ⟨k, hk, hlog, hok⟩ := sendAll_log hi2c
      (screenTransactions self.device_.address (List.replicate 1024 v)) log
    rw [screenTransactions_length] at hk hok
    exact ⟨k, hk, hlog, fun h => hok (beq_iff_eq.mp h)⟩
  have hc : Oled.clear hi2c self log
      = ((SH1106_UpdateScreen hi2c
            { self.device_ with framebuffer := List.replicate 1024 0x00 } log).1 == HAL_OK,
          { device_ := { self.device_ with framebuffer := List.replicate 1024 0x00 } },
          (SH1106_UpdateScreen hi2c
            { self.device_ with framebuffer := List.replicate 1024 0x00 } log).2.2) := by
    unfold Oled.clear SH1106_Clear
    rw [show SH1106_WIDTH * SH1106_PAGES = 1024 from rfl, SH1106_UpdateScreen_reset]
  have hf : Oled.fill hi2c self log
      = ((SH1106_UpdateScreen hi2c
            { self.device_ with framebuffer := List.replicate 1024 0xFF } log).1 == HAL_OK,
          { device_ := { self.device_ with framebuffer := List.replicate 1024 0xFF } },
          (SH1106_UpdateScreen hi2c
            { self.device_ with framebuffer := List.replicate 1024 0xFF } log).2.2) := by
    unfold Oled.fill SH1106_Fill
    rw [show SH1106_WIDTH * SH1106_PAGES = 1024 from rfl, SH1106_UpdateScreen_reset]
  refine ⟨hc, hf, ?_, ?_, by rw [hc], by rw [hf]⟩
  · rw [hc, SH1106_UpdateScreen_reset]
    exact hpre 0
  · rw [hf, SH1106_UpdateScreen_reset]
    exact hpre 0xFF

/-- C34 on an absent device from the all-on display: `clear()` returns false after the one
transaction it attempted, and the framebuffer is all `0x00`. -/
theorem C34_clear_fill_reset_then_update_witness :
    (Oled.clear absentBus ⟨filledDevice⟩ []).1 = false ∧
    (Oled.clear absentBus ⟨filledDevice⟩ []).2.1.device_.framebuffer
      = List.replicate 1024 0x00 := by
  have h := C34_clear_fill_reset_then_update absentBus ⟨filledDevice⟩ []
  refine ⟨?_, h.2.2.2.2.1⟩
  rw [h.1, SH1106_UpdateScreen_reset]
  rfl

/-! ### C35 - C36, C38: zoom index, test signal, failed initialization -/

/-- C36 fails on the code: decoded by the rule of the renderer, `logic_ch0_data` is 38 runs,
not the 19 its comments document: every commented line holds two bytes, and the renderer
reads the first as a run of its own (`0x80`: HIGH for 0, `0x88`: HIGH for 8, `0x08`: LOW for
8) and the second, whose bit 7 is clear, as a LOW run of the documented length.  The
sequence starts HIGH 0, LOW 20, HIGH 8, LOW 30, and `calculateSignalLength` gives 656, not
the documented 512. -/
theorem C36_ch0_data_not_as_documented :
    logic_ch0_data.length = 38 ∧ logic_ch0_documented.length = 19 ∧
    (logic_ch0_documented.map Prod.snd).sum = 512 ∧
    decodeRuns logic_ch0_data ≠ logic_ch0_documented ∧
    (decodeRuns logic_ch0_data).take 4 = [(1, 0), (0, 20), (1, 8), (0, 30)] ∧
    (∀ k, k < 19 →
      (decodeRuns logic_ch0_data).getD (2 * k + 1) (0, 0)
        = (0, (logic_ch0_documented.getD k (0, 0)).2)) ∧
    calculateSignalLength logic_ch0_data logic_ch0_data.length = 656 ∧
    testTask_max_scroll_initial (calculateSignalLength logic_ch0_data logic_ch0_data.length)
      = 536 := by
  refine ⟨by decide, by decide, by decide, by decide, by decide, ?_, by decide, by decide⟩
  intro k hk
  interval_cases k <;> decide

/-- The zoom branch moves the index by one step in the direction of `delta`, saturating at 0
and 4, and keeps `zoom_level` the entry of the index. -/
theorem testTask_zoom_index (total : Nat) (delta : Int) (s : TestTaskState)
    (hidx : s.current_zoom_index ≤ 4)
    (hlvl : s.zoom_level = zoom_levels.getD s.current_zoom_index 0) :
    (testTask_zoom total delta s).current_zoom_index
        = (if delta > 0 then min (s.current_zoom_index + 1) 4 else s.current_zoom_index - 1) ∧
    (testTask_zoom total delta s).zoom_level
        = zoom_levels.getD (testTask_zoom total delta s).current_zoom_index 0 := by
  have hn : (num_zoom_levels : Int) = 5 := rfl
  unfold testTask_zoom
  dsimp only
  rw [hn]
  by_cases hd : delta > 0
  · simp only [hd, if_true]
    by_cases h4 : (s.current_zoom_index : Int) < 5 - 1
    · rw [if_pos h4, if_pos (by omega)]
      dsimp only
      have : (((s.current_zoom_index : Int) + 1) % 256).toNat = s.current_zoom_index + 1 := by
        omega
      rw [this]
      exact ⟨by omega, rfl⟩
    · rw [if_neg h4, if_neg (by simp)]
      exact ⟨by omega, hlvl⟩
  · simp only [hd, if_false]
    by_cases h0 : (s.current_zoom_index : Int) > 0
    · rw [if_pos h0, if_pos (by omega)]
      dsimp only
      have : (((s.current_zoom_index : Int) - 1) % 256).toNat = s.current_zoom_index - 1 := by
        omega
      rw [this]
      exact ⟨rfl, rfl⟩
    · rw [if_neg h0, if_neg (by simp)]
      exact ⟨by omega, hlvl⟩

/-- Every event keeps `current_zoom_index <= 4` and `zoom_level` the entry of the index. -/
theorem testTask_step_zoom_inv (total : Nat) (s : TestTaskState) (e : TestTaskEvent)
    (hidx : s.current_zoom_index ≤ 4)
    (hlvl : s.zoom_level = zoom_levels.getD s.current_zoom_index 0) :
    (testTask_step total s e).current_zoom_index ≤ 4 ∧
    (testTask_step total s e).zoom_level
      = zoom_levels.getD (testTask_step total s e).current_zoom_index 0 := by
  cases e with
  | showAnalyzer => simp only [testTask_step]; split_ifs <;> exact ⟨hidx, hlvl⟩
  | press => simp only [testTask_step]; split_ifs <;> exact ⟨hidx, hlvl⟩
  | longPress => simp only [testTask_step]; split_ifs <;> exact ⟨hidx, hlvl⟩
  | rotate delta =>
    simp only [testTask_step, testTask_handleRotation]
    split_ifs
    · have h := testTask_zoom_index total delta s hidx hlvl
      refine ⟨?_, h.2⟩
      rw [h.1]
      split <;> omega
    · unfold testTask_scroll
      dsimp only
      split_ifs <;> exact ⟨hidx, hlvl⟩
    · exact ⟨hidx, hlvl⟩

/-- The zoom invariant along any run from any state that has it. -/
theorem testTask_foldl_zoom_inv (total : Nat) (events : List TestTaskEvent)
    (s : TestTaskState) (hidx : s.current_zoom_index ≤ 4)
    (hlvl : s.zoom_level = zoom_levels.getD s.current_zoom_index 0) :
    (events.foldl (testTask_step total) s).current_zoom_index ≤ 4 ∧
    (events.foldl (testTask_step total) s).zoom_level
      = zoom_levels.getD (events.foldl (testTask_step total) s).current_zoom_index 0 := by
  induction events generalizing s with
  | nil => exact ⟨hidx, hlvl⟩
  | cons e es ih =>
    rw [List.foldl_cons]
    exact ih _ (testTask_step_zoom_inv total s e hidx hlvl).1
      (testTask_step_zoom_inv total s e hidx hlvl).2

/-- C35: in the zoom state machine of `testTask`, `current_zoom_index` is in `0 .. 4` and
`zoom_level = zoom_levels[current_zoom_index]`, hence one of 0.5, 1, 2, 4, 8 (kept doubled:
1, 2, 4, 8, 16), initially and after every sequence of events; a rotation handled in zoom
mode moves the index to `min(index + 1, 4)` for every positive delta and to
`max(index - 1, 0)` for every negative one, whatever the magnitude of the delta, and every
other handled rotation leaves it where it is. -/
theorem C35_zoom_index_invariant (signal_data : List Nat) (data_length : Nat)
    (events : List TestTaskEvent) :
    ((testTask_run signal_data data_length events).current_zoom_index ≤ 4 ∧
      (testTask_run signal_data data_length events).zoom_level
        = zoom_levels.getD (testTask_run signal_data data_length events).current_zoom_index 0 ∧
      (testTask_run signal_data data_length events).zoom_level ∈ [1, 2, 4, 8, 16]) ∧
    (∀ (total : Nat) (delta : Int) (s : TestTaskState), s.current_zoom_index ≤ 4 →
      s.zoom_level = zoom_levels.getD s.current_zoom_index 0 →
      (delta ≠ 0 ∧ s.logic_analyzer_shown = true ∧ s.zoom_mode = true →
        (testTask_handleRotation total delta s).current_zoom_index
          = (if delta > 0 then min (s.current_zoom_index + 1) 4
              else s.current_zoom_index - 1)) ∧
      (¬ (delta ≠ 0 ∧ s.logic_analyzer_shown = true ∧ s.zoom_mode = true) →
        (testTask_handleRotation total delta s).current_zoom_index = s.current_zoom_index)) := by
  constructor
  · have h := testTask_foldl_zoom_inv (calculateSignalLength signal_data data_length) events
      (testTask_start signal_data data_length) (show (1 : Nat) ≤ 4 by decide) rfl
    refine ⟨h.1, h.2, ?_⟩
    have h1 := h.1
    have h2 := h.2
    unfold testTask_run
    generalize (events.foldl (testTask_step (calculateSignalLength signal_data data_length))
      (testTask_start signal_data data_length)).current_zoom_index = idx at h1 h2
    rw [h2]
    interval_cases idx <;> decide
  · intro total delta s hidx hlvl
    constructor
    · rintro ⟨hd, hshown, hzm⟩
      simp only [testTask_handleRotation, hd, hshown, hzm, ne_eq, not_false_eq_true, and_self,
        if_true]
      exact (testTask_zoom_index total delta s hidx hlvl).1
    · intro hno
      unfold testTask_handleRotation
      by_cases h1 : delta ≠ 0 ∧ s.logic_analyzer_shown = true
      · rw [if_pos h1]
        have hzm : ¬ s.zoom_mode = true := fun hz => hno ⟨h1.1, h1.2, hz⟩
        rw [if_neg hzm]
        unfold testTask_scroll
        dsimp only
        split_ifs <;> rfl
      · rw [if_neg h1]

/-- C35 on a run that enters zoom mode and turns the encoder by +7, +7, +7, +7 and -100:
the index goes 1, 2, 3, 4, 4, 3. -/
theorem C35_zoom_index_invariant_witness :
    (testTask_run [0x64, 0xE4] 2
        [.showAnalyzer, .longPress, .rotate 7, .rotate 7, .rotate 7,
          .rotate 7]).current_zoom_index = 4 ∧
    (testTask_run [0x64, 0xE4] 2
        [.showAnalyzer, .longPress, .rotate 7, .rotate 7, .rotate 7, .rotate 7,
          .rotate (-100)]).current_zoom_index = 3 ∧
    (testTask_run [0x64, 0xE4] 2
        [.showAnalyzer, .longPress, .rotate 7, .rotate 7, .rotate 7, .rotate 7,
          .rotate (-100)]).zoom_level ∈ [1, 2, 4, 8, 16] :=
  ⟨by decide, by decide,
    (C35_zoom_index_invariant [0x64, 0xE4] 2
      [.showAnalyzer, .longPress, .rotate 7, .rotate 7, .rotate 7, .rotate 7,
        .rotate (-100)]).1.2.2⟩

/-- C38: `SH1106_Init` zeroes the framebuffer before it probes the device, and nothing it
does afterwards writes the framebuffer or `prev_framebuffer`: for every bus and every prior
state the framebuffer returned is 1024 bytes `0x00` and `prev_framebuffer` is as it was; in
particular after an `init()` that fails, on an absent device or at any later transaction,
every pixel drawn before the call is gone. -/
theorem C38_Init_zeroes_framebuffer (hi2c : I2C_HandleTypeDef) (self : Oled) (log : I2C_Log) :
    (SH1106_Init hi2c self.device_ log).2.1.framebuffer = List.replicate 1024 0x00 ∧
    (SH1106_Init hi2c self.device_ log).2.1.prev_framebuffer = self.device_.prev_framebuffer ∧
    ((Oled.init hi2c self log).1 = false →
      (Oled.init hi2c self log).2.1.device_.framebuffer = List.replicate 1024 0x00 ∧
      (∀ x y, x < 128 → y < 64 → (Oled.init hi2c self log).2.1.device_.pixel x y = false) ∧
      (Oled.init hi2c self log).2.1.device_.prev_framebuffer
        = self.device_.prev_framebuffer ∧
      (Oled.init hi2c self log).2.1.isInitialized = false) := by
  have hfb : (SH1106_Init hi2c self.device_ log).2.1.framebuffer = List.replicate 1024 0x00 ∧
      (SH1106_Init hi2c self.device_ log).2.1.prev_framebuffer
        = self.device_.prev_framebuffer ∧
      ((SH1106_Init hi2c self.device_ log).1 ≠ HAL_OK →
        (SH1106_Init hi2c self.device_ log).2.1.initialized = false) := by
    rw [SH1106_Init_eq]
    split
    · exact ⟨rfl, rfl, fun _ => rfl⟩
    · unfold orReturn
      split
      · exact ⟨rfl, rfl, fun _ => rfl⟩
      · exact ⟨rfl, rfl, fun h => absurd rfl h⟩
  refine ⟨hfb.1, hfb.2.1, ?_⟩
  intro hfail
  have hst : (SH1106_Init hi2c self.device_ log).1 ≠ HAL_OK := by
    intro h
    unfold Oled.init at hfail
    dsimp only at hfail
    rw [h] at hfail
    exact absurd hfail (by decide)
  refine ⟨hfb.1, ?_, hfb.2.1, hfb.2.2 hst⟩
  intro x y hx hy
  have hpix := pixel_of_replicate (SH1106_Init hi2c self.device_ log).2.1 0 hfb.1 x y hx hy
  unfold Oled.init
  dsimp only
  rw [hpix]
  simp

/-- C38 on an absent device from the all-on display: `init()` fails and pixel (10, 10),
which was on, is off. -/
theorem C38_Init_zeroes_framebuffer_witness :
    filledDevice.pixel 10 10 = true ∧
    (Oled.init absentBus ⟨filledDevice⟩ []).1 = false ∧
    (Oled.init absentBus ⟨filledDevice⟩ []).2.1.device_.pixel 10 10 = false := by
  have hfail : (Oled.init absentBus ⟨filledDevice⟩ []).1 = false := by
    unfold Oled.init
    rw [SH1106_Init_absent absentBus _ [] (by decide)]
    rfl
  refine ⟨?_, hfail, ((C38_Init_zeroes_framebuffer absentBus ⟨filledDevice⟩ []).2.2
    hfail).2.1 10 10 (by decide) (by decide)⟩
  rw [pixel_of_replicate filledDevice 0xFF rfl 10 10 (by decide) (by decide)]
  decide

/-! ### C37: the scroll range and the end of the signal -/

/-- The 16-bit sum of `calculateSignalLength` over the whole signal is the sum of the run
lengths modulo 65536. -/
theorem calculateSignalLength_eq (data : List Nat) :
    calculateSignalLength data data.length = runTotal data % 65536 := by
  have hfold : ∀ (l : List Nat) (acc : Nat),
      l.foldl (fun total_length b => (total_length + (b &&& 0x7F)) % 65536) acc
        = (acc + runTotal l) % 65536 ∨ acc ≥ 65536 := by
    intro l
    induction l with
    | nil =>
      intro acc
      by_cases h : acc < 65536
      · left
        rw [List.foldl_nil, runTotal_nil, Nat.add_zero, Nat.mod_eq_of_lt h]
      · right
        omega
    | cons b l ih =>
      intro acc
      by_cases h : acc < 65536
      · left
        rw [List.foldl_cons, runTotal_cons]
        rcases ih ((acc + (b &&& 0x7F)) % 65536) with h1 | h1
        · rw [h1]
          unfold runLength
          omega
        · have := Nat.mod_lt (acc + (b &&& 0x7F)) (by decide : 65536 > 0)
          omega
      · right
        omega
  unfold calculateSignalLength
  rw [List.take_length]
  rcases hfold data 0 with h | h
  · rw [h, Nat.zero_add]
  · omega

/-- While the cursor stays left of column 128 the run loop on `init ++ rest` is the run loop
on `init` followed by the run loop on `rest`, entered at the cursor after `init`. -/
theorem Oled.drawLogicSignal_loop_append (y height zoom2 color : Nat) (init rest : List Nat)
    (i : Nat) (cur2 : Int) (cv : Nat) (self : Oled)
    (hleft : ∀ k, 0 < k → k ≤ init.length →
      cur2 + (zoom2 : Int) * (runTotal (init.take k) : Int) < 256) :
    ∃ cv', Oled.drawLogicSignal_loop y height zoom2 color (init ++ rest) i cur2 cv self
      = (Oled.drawLogicSignal_loop y height zoom2 color init i cur2 cv self).bind
          (fun s => Oled.drawLogicSignal_loop y height zoom2 color rest (i + init.length)
            (cur2 + (zoom2 : Int) * (runTotal init : Int)) cv' s) := by
  induction init generalizing i cur2 cv self with
  | nil =>
    refine ⟨cv, ?_⟩
    rw [List.nil_append, Oled.drawLogicSignal_loop, Option.some_bind, runTotal_nil]
    simp only [List.length_nil, Nat.add_zero, Nat.cast_zero, Int.mul_zero, Int.add_zero]
  | cons b init ih =>
    have hrt : ∀ l : List Nat, (runTotal (b :: l) : Int)
        = ((b &&& 0x7F : Nat) : Int) + (runTotal l : Int) := by
      intro l
      rw [runTotal_cons]
      unfold runLength
      push_cast
      rfl
    have hcomm := mul_comm (zoom2 : Int) ((b &&& 0x7F : Nat) : Int)
    have h1 := hleft 1 (by decide) (by simp)
    rw [List.take_succ_cons, List.take_zero, hrt, runTotal_nil] at h1
    have hnc : ¬ cur2 + ((b &&& 0x7F : Nat) : Int) * (zoom2 : Int)
        ≥ 2 * (SH1106_WIDTH : Int) := by
      simp only [SH1106_WIDTH]
      rw [mul_add] at h1
      push_cast at h1 ⊢
      omega
    obtain ⟨cv', hih⟩ := ih (i + 1) (cur2 + ((b &&& 0x7F : Nat) : Int) * (zoom2 : Int))
      ((b &&& 0x80) >>> 7)
      ((self.drawLogicSignal_edge y height color i ((b &&& 0x80) >>> 7) cv
          (floatToInt16 cur2)).getD self |>.drawLogicSignal_hline (floatToInt16 cur2)
        (if (b &&& 0x80) >>> 7 = 0 then (y + height + 255) % 256 else y)
        (floatToInt16 (((b &&& 0x7F : Nat) : Int) * (zoom2 : Int))) color)
      (by
        intro k hk0 hk
        have := hleft (k + 1) (by omega) (by simpa using hk)
        rw [List.take_succ_cons, hrt, mul_add] at this
        omega)
    refine ⟨cv', ?_⟩
    rw [List.cons_append]
    conv_lhs => rw [Oled.drawLogicSignal_loop]
    conv_rhs => rw [Oled.drawLogicSignal_loop]
    dsimp only
    cases hedge : Oled.drawLogicSignal_edge self y height color i ((b &&& 0x80) >>> 7) cv
      (floatToInt16 cur2) with
    | none => rfl
    | some s1 =>
      dsimp only
      rw [if_neg hnc, if_neg hnc]
      rw [hedge, Option.getD_some] at hih
      rw [hih, List.length_cons, hrt, mul_add]
      have e1 : i + 1 + init.length = i + (init.length + 1) := by omega
      have e2 : cur2 + ((b &&& 0x7F : Nat) : Int) * (zoom2 : Int)
            + (zoom2 : Int) * (runTotal init : Int)
          = cur2 + ((zoom2 : Int) * ((b &&& 0x7F : Nat) : Int)
            + (zoom2 : Int) * (runTotal init : Int)) := by
        rw [hcomm]
        ring
      rw [e1, e2]

/-- A final run of `len > 0` columns at zoom `z` that starts with the cursor at
`128 - z * len` ends in column 127: the run loop on that run returns and the pixel of
column 127 in the level row of the run holds the colour. -/
theorem Oled.drawLogicSignal_loop_last (y height z color : Nat) (hy : y < 255)
    (hlow : (y + height + 255) % 256 < 255) (hz1 : 1 ≤ z) (hz : z ≤ 128) (last i : Nat)
    (cv : Nat) (self : Oled) (h : self.device_.WF) (hlen : 0 < runLength last) :
    ∃ r, Oled.drawLogicSignal_loop y height (2 * z) color [last] i
        (256 - 2 * ((z * runLength last : Nat) : Int)) cv self = some r ∧
      (levelRow y height (runLevel last) < 64 →
        r.device_.pixel 127 (levelRow y height (runLevel last)) = decide (color ≠ 0)) := by
  have hb : runLength last ≤ 127 := by
    unfold runLength
    exact Nat.and_le_right
  have hn1 : 1 ≤ z * runLength last := Nat.mul_pos hz1 hlen
  have hn2 : z * runLength last ≤ 128 * 127 := Nat.mul_le_mul hz hb
  obtain ⟨s1, hs1, hwf1, _⟩ := (Stamp.edge y height color i ((last &&& 0x80) >>> 7) cv
    (floatToInt16 (256 - 2 * ((z * runLength last : Nat) : Int))) hy hlow).frame self h
  have hzd : ((last &&& 0x7F : Nat) : Int) * ((2 * z : Nat) : Int)
      = 2 * ((z * runLength last : Nat) : Int) := by
    unfold runLength
    push_cast
    ring
  generalize hn : z * runLength last = n at hn1 hn2 hzd hs1 ⊢
  have hcx : floatToInt16 (256 - 2 * (n : Int)) = 128 - (n : Int) := by
    unfold floatToInt16
    have : truncHalf (256 - 2 * (n : Int)) = 128 - (n : Int) := by
      rw [show (256 : Int) - 2 * (n : Int) = 2 * (128 - (n : Int)) by ring, truncHalf_double]
    rw [this]
    exact toInt16_of_range _ (by omega) (by omega)
  have hzi : floatToInt16 (2 * (n : Int)) = (n : Int) := by
    unfold floatToInt16
    rw [truncHalf_double]
    exact toInt16_of_range _ (by omega) (by omega)
  have hpix := (Oled.drawLogicSignal_hline_pixel s1 (128 - (n : Int))
    (levelRow y height (runLevel last)) n color hwf1 (by omega) (by omega)).2 127
    (levelRow y height (runLevel last)) (by decide)
  refine ⟨s1.drawLogicSignal_hline (128 - (n : Int)) (levelRow y height (runLevel last))
    (n : Int) color, ?_, ?_⟩
  · rw [Oled.drawLogicSignal_loop]
    dsimp only at hs1 ⊢
    rw [hs1]
    dsimp only
    rw [hzd, hcx, hzi, if_pos (by simp only [SH1106_WIDTH]; omega)]
    rfl
  · intro hrow
    rw [hpix, if_pos ⟨rfl, hrow, by omega, by omega⟩]

/-- C37: the scroll range reaches exactly the end of the signal.  For a whole zoom factor
`z` in `1 .. 8`, a run sequence of total length `T` with `120 < z * T <= 65535`, and a
geometry whose level rows are below 255: `calculateSignalLength` gives `T` and the
`max_scroll` of `testTask` at zoom `z` is `z * T - 120`; drawn from column 8 with that scroll
offset, the cursor after the final run is exactly 128, the cursor in front of every run that
still has a column to draw (itself or a later run of positive length) is left of 128, so the
early stop does not cut it off; `drawLogicSignal` returns, and when the final run is not
empty the pixel of column 127 in its level row (if that row is on the display) holds the
colour. -/
theorem C37_scroll_reaches_end (self : Oled) (y height z color : Nat) (data : List Nat)
    (h : self.device_.WF) (hy : y < 255) (hlow : (y + height + 255) % 256 < 255)
    (hz1 : 1 ≤ z) (hz : z ≤ 8) (hT1 : 120 < z * runTotal data)
    (hT2 : z * runTotal data ≤ 65535) :
    calculateSignalLength data data.length = runTotal data ∧
    testTask_max_scroll (calculateSignalLength data data.length) (2 * z)
      = z * runTotal data - 120 ∧
    cursorAt (2 * z) data (2 * ((8 : Nat) : Int) - 2 * ((z * runTotal data - 120 : Nat) : Int))
      data.length = 256 ∧
    (∀ k, k < data.length → 0 < runTotal (data.drop k) →
      cursorAt (2 * z) data
        (2 * ((8 : Nat) : Int) - 2 * ((z * runTotal data - 120 : Nat) : Int)) k < 256) ∧
    ∃ result, self.drawLogicSignal 8 y (some data) data.length height
        (z * runTotal data - 120) (2 * z) color = some result ∧
      ∀ init last, data = init ++ [last] → 0 < runLength last →
        levelRow y height (runLevel last) < 64 →
        result.device_.pixel 127 (levelRow y height (runLevel last)) = decide (color ≠ 0) := by
  have hT : runTotal data ≤ 65535 := by
    have := Nat.le_mul_of_pos_left (runTotal data) hz1
    omega
  have hlen : calculateSignalLength data data.length = runTotal data := by
    rw [calculateSignalLength_eq, Nat.mod_eq_of_lt (by omega)]
  have hcur : ∀ k, cursorAt (2 * z) data
        (2 * ((8 : Nat) : Int) - 2 * ((z * runTotal data - 120 : Nat) : Int)) k
      = 256 - 2 * ((z * runTotal (data.drop k) : Nat) : Int) := by
    intro k
    unfold cursorAt
    have hsplit := runTotal_take_add_drop data k
    have hmul : z * runTotal data = z * runTotal (data.take k) + z * runTotal (data.drop k) := by
      rw [← hsplit, Nat.mul_add]
    have hassoc : 2 * z * runTotal (data.take k) = 2 * (z * runTotal (data.take k)) := by
      rw [Nat.mul_assoc]
    rw [hassoc]
    omega
  obtain ⟨result, hres, _, _⟩ := (Stamp.drawLogicSignal 8 y (some data) data.length height
    (z * runTotal data - 120) (2 * z) color hy hlow).frame self h
  refine ⟨hlen, ?_, ?_, ?_, result, hres, ?_⟩
  · rw [hlen]
    unfold testTask_max_scroll
    dsimp only
    have e1 : runTotal data * (2 * z) / 2 = z * runTotal data := by
      rw [show runTotal data * (2 * z) = 2 * (z * runTotal data) by ring]
      omega
    rw [e1, Nat.mod_eq_of_lt (by omega), if_pos hT1]
  · rw [hcur, List.drop_length, runTotal_nil]
    simp
  · intro k _ hpos
    rw [hcur]
    have := Nat.mul_pos hz1 hpos
    omega
  · intro init last hdata hlast hrow
    subst hdata
    have hrt : runTotal (init ++ [last]) = runTotal init + runLength last := by
      unfold runTotal
      simp
    have hstart : (2 * ((8 : Nat) : Int)
          - 2 * ((z * runTotal (init ++ [last]) - 120 : Nat) : Int))
        = 256 - 2 * ((z * runTotal init : Nat) : Int)
          - 2 * ((z * runLength last : Nat) : Int) := by
      have : z * runTotal (init ++ [last]) = z * runTotal init + z * runLength last := by
        rw [hrt, Nat.mul_add]
      omega
    have hzl : 1 ≤ z * runLength last := Nat.mul_pos hz1 hlast
    obtain ⟨cv', happ⟩ := Oled.drawLogicSignal_loop_append y height (2 * z) color init [last]
      0 (2 * ((8 : Nat) : Int) - 2 * ((z * runTotal (init ++ [last]) - 120 : Nat) : Int)) 0
      self (by
        intro k _ _
        have hle : runTotal (init.take k) ≤ runTotal init := by
          have := runTotal_take_add_drop init k
          omega
        have hmul : z * runTotal (init.take k) ≤ z * runTotal init :=
          Nat.mul_le_mul_left z hle
        have e : ((2 * z : Nat) : Int) * (runTotal (init.take k) : Int)
            = 2 * ((z * runTotal (init.take k) : Nat) : Int) := by
          push_cast
          ring
        rw [hstart, e]
        omega)
    obtain ⟨s1, hs1, hwf1, _⟩ := (Stamp.signal_loop y height (2 * z) color hy hlow init 0
      (2 * ((8 : Nat) : Int) - 2 * ((z * runTotal (init ++ [last]) - 120 : Nat) : Int))
      0).frame self h
    obtain ⟨r, hr, hrpix⟩ := Oled.drawLogicSignal_loop_last y height z color hy hlow hz1
      (by omega) last (0 + init.length) cv' s1 hwf1 hlast
    have hcur' : (2 * ((8 : Nat) : Int)
          - 2 * ((z * runTotal (init ++ [last]) - 120 : Nat) : Int))
          + ((2 * z : Nat) : Int) * (runTotal init : Int)
        = 256 - 2 * ((z * runLength last : Nat) : Int) := by
      have e : ((2 * z : Nat) : Int) * (runTotal init : Int)
          = 2 * ((z * runTotal init : Nat) : Int) := by
        push_cast
        ring
      rw [hstart, e]
      omega
    have hne : ¬ (init ++ [last]).length = 0 := by simp
    unfold Oled.drawLogicSignal at hres
    dsimp only at hres
    rw [if_neg hne, List.take_length, happ] at hres
    rw [hs1, Option.some_bind, hcur', hr] at hres
    rw [← Option.some.inj hres]
    exact hrpix hrow

/-- C37 at zoom 2.0 for the signal LOW 100, HIGH 100 (`T = 200`, `max_scroll = 280`) drawn
at `y = 2` with height 12 on a newly constructed display: pixel (127, 2), the last column
of the HIGH run, is lit. -/
theorem C37_scroll_reaches_end_witness :
    testTask_max_scroll (calculateSignalLength [0x64, 0xE4] 2) (2 * 2) = 280 ∧
    ∃ result, Oled.new.drawLogicSignal 8 2 (some [0x64, 0xE4]) 2 12 280 (2 * 2) 1
        = some result ∧
      result.device_.pixel 127 2 = true := by
  have h := C37_scroll_reaches_end Oled.new 2 12 2 1 [0x64, 0xE4] Oled_new_WF (by decide)
    (by decide) (by decide) (by decide) (by decide) (by decide)
  refine ⟨by decide, ?_⟩
  obtain ⟨result, hres, hpix⟩ := h.2.2.2.2
  exact ⟨result, hres, hpix [0x64] 0xE4 rfl (by decide) (by decide)⟩

/-! ### C39: `SH1106_WriteData` -/

/-- The pieces of 128 bytes of a buffer, put together again. -/
theorem flatMap_chunks (buf : List Nat) (n : Nat) :
    (List.range n).flatMap (fun i => (buf.drop (128 * i)).take 128) = buf.take (128 * n) := by
  induction n with
  | zero => simp
  | succ n ih =>
    rw [List.range_succ, List.flatMap_append, ih]
    simp only [List.flatMap_cons, List.flatMap_nil, List.append_nil]
    rw [show 128 * (n + 1) = 128 * n + 128 by omega, List.take_add]

/-- Length of the transaction list of `SH1106_WriteData`. -/
theorem writeDataTransactions_length (addr : Nat) (data : List Nat) (len : Nat) :
    (writeDataTransactions addr data len).length = (len + 127) / 128 := by
  simp only [writeDataTransactions, List.length_map, List.length_range]

/-- Entry `i` of the transaction list of `SH1106_WriteData`. -/
theorem writeDataTransactions_getElem (addr : Nat) (data : List Nat) (len i : Nat)
    (hi : i < (len + 127) / 128) :
    (writeDataTransactions addr data len)[i]?
      = some (.Master_Transmit addr (0x40 :: ((data.take len).drop (128 * i)).take 128)) := by
  simp only [writeDataTransactions, List.getElem?_map, List.getElem?_range hi, Option.map_some']

/-- The chunk loop of `SH1106_WriteData`, entered at the start of piece `j`, sends the
pieces from `j` on. -/
theorem SH1106_WriteData_loop_eq (hi2c : I2C_HandleTypeDef) (dev : SH1106_t) (data : List Nat)
    (len : Nat) (n j : Nat) (log : I2C_Log) (hn : n + j = (len + 127) / 128) :
    SH1106_WriteData_loop hi2c dev data len (128 * j) log
      = sendAll hi2c ((writeDataTransactions dev.address data len).drop j) log := by
  induction n generalizing j log with
  | zero =>
    have hnil : (writeDataTransactions dev.address data len).drop j = [] :=
      List.drop_of_length_le (by rw [writeDataTransactions_length]; omega)
    rw [SH1106_WriteData_loop, if_neg (by omega), hnil]
    rfl
  | succ n ih =>
    have hj : j < (len + 127) / 128 := by omega
    have hoff : 128 * j < len := by omega
    have hchunk : (data.drop (128 * j)).take (if len - 128 * j > 128 then 128 else len - 128 * j)
        = ((data.take len).drop (128 * j)).take 128 := by
      rw [List.drop_take, List.take_take]
      congr 1
      split <;> omega
    have hdrop : (writeDataTransactions dev.address data len).drop j
        = .Master_Transmit dev.address (0x40 :: ((data.take len).drop (128 * j)).take 128)
          :: (writeDataTransactions dev.address data len).drop (j + 1) := by
      have hlt : j < (writeDataTransactions dev.address data len).length := by
        rw [writeDataTransactions_length]
        exact hj
      rw [List.drop_eq_getElem_cons hlt]
      congr 1
      have := writeDataTransactions_getElem dev.address data len j hj
      rw [List.getElem?_eq_getElem hlt] at this
      exact Option.some.inj this
    have hnext : 128 * j + (if len - 128 * j > 128 then 128 else len - 128 * j)
        = 128 * (j + 1) ∨ (n = 0 ∧ 128 * j + (if len - 128 * j > 128 then 128
          else len - 128 * j) = len) := by
      split <;> omega
    rw [SH1106_WriteData_loop, if_pos hoff, hdrop]
    simp only [HAL_I2C_Master_Transmit, SH1106_CONTROL_BYTE_DATA_STREAM, sendAll]
    rw [hchunk]
    by_cases hst : hi2c log (.Master_Transmit dev.address
        (0x40 :: ((data.take len).drop (128 * j)).take 128)) ≠ HAL_OK
    · rw [if_pos hst, if_pos hst]
    · rw [if_neg hst, if_neg hst]
      rcases hnext with h1 | ⟨h0, h1⟩
      · rw [h1]
        exact ih (j + 1) _ (by omega)
      · have hnil : (writeDataTransactions dev.address data len).drop (j + 1) = [] :=
          List.drop_of_length_le (by rw [writeDataTransactions_length]; omega)
        rw [h1, SH1106_WriteData_loop, if_neg (by omega), hnil]
        rfl

/-- `SH1106_WriteData` of `len >= 1` bytes sends its transaction list and stops at the first
failure. -/
theorem SH1106_WriteData_eq (hi2c : I2C_HandleTypeDef) (dev : SH1106_t) (data : List Nat)
    (len : Nat) (log : I2C_Log) (hlen : 1 ≤ len) :
    SH1106_WriteData hi2c dev data len log
      = sendAll hi2c (writeDataTransactions dev.address data len) log := by
  by_cases hsmall : len ≤ 128
  · rw [SH1106_WriteData_small hi2c dev data len log hsmall]
    have hone : (len + 127) / 128 = 1 := by omega
    have : writeDataTransactions dev.address data len
        = [.Master_Transmit dev.address (0x40 :: data.take len)] := by
      unfold writeDataTransactions
      rw [hone]
      rw [show List.range 1 = [0] from rfl]
      simp only [List.map_cons, List.map_nil, Nat.mul_zero, List.drop_zero]
      rw [List.take_take, show min 128 len = len by omega]
    rw [this]
  · unfold SH1106_WriteData
    rw [if_neg hsmall]
    have := SH1106_WriteData_loop_eq hi2c dev data len ((len + 127) / 128) 0 log rfl
    simpa using this

/-- C39: for every data buffer holding `len >= 1` bytes, `SH1106_WriteData` (a total
function: the chunk loop is by recursion on `len - offset`) sends the transactions of its
list in order and stops at the first that fails.  The list has `ceil(len / 128)`
transactions; each is the control byte `0x40` followed by between 1 and 128 data bytes,
exactly 128 in all but the last; the data parts put together are the `len` bytes of the
buffer.  When every transaction succeeds the function returns `HAL_OK` after exactly
these; when transaction `k` is the first to fail it returns that status and the log ends
with that transaction. -/
theorem C39_WriteData_chunks (hi2c : I2C_HandleTypeDef) (dev : SH1106_t) (data : List Nat)
    (len : Nat) (log : I2C_Log) (hlen : 1 ≤ len) (hbuf : len ≤ data.length) :
    SH1106_WriteData hi2c dev data len log
      = sendAll hi2c (writeDataTransactions dev.address data len) log ∧
    (writeDataTransactions dev.address data len).length = (len + 127) / 128 ∧
    (∀ i, i < (len + 127) / 128 →
      ∃ part, (writeDataTransactions dev.address data len)[i]?
          = some (.Master_Transmit dev.address (0x40 :: part)) ∧
        1 ≤ part.length ∧ part.length ≤ 128 ∧
        (i + 1 < (len + 127) / 128 → part.length = 128)) ∧
    ((writeDataTransactions dev.address data len).flatMap (fun c => c.pData.drop 1)
      = data.take len) ∧
    ((∀ h c, hi2c h c = HAL_OK) →
      SH1106_WriteData hi2c dev data len log
        = (HAL_OK, log ++ writeDataTransactions dev.address data len)) ∧
    (∀ k s, s ≠ HAL_OK →
      (∀ j c, j < k → (writeDataTransactions dev.address data len)[j]? = some c →
        hi2c (log ++ (writeDataTransactions dev.address data len).take j) c = HAL_OK) →
      (∃ c, (writeDataTransactions dev.address data len)[k]? = some c ∧
        hi2c (log ++ (writeDataTransactions dev.address data len).take k) c = s) →
      SH1106_WriteData hi2c dev data len log
        = (s, log ++ (writeDataTransactions dev.address data len).take (k + 1))) := by
  have heq := SH1106_WriteData_eq hi2c dev data len log hlen
  refine ⟨heq, writeDataTransactions_length _ _ _, ?_, ?_, ?_, ?_⟩
  · intro i hi
    refine ⟨((data.take len).drop (128 * i)).take 128,
      writeDataTransactions_getElem dev.address data len i hi, ?_, ?_, ?_⟩
    · simp only [List.length_take, List.length_drop]
      omega
    · simp only [List.length_take, List.length_drop]
      omega
    · intro hnext
      simp only [List.length_take, List.length_drop]
      omega
  · unfold writeDataTransactions
    rw [List.flatMap_map]
    have : (fun i => (I2C_Call.pData (.Master_Transmit dev.address
          (0x40 :: ((data.take len).drop (128 * i)).take 128))).drop 1)
        = (fun i => ((data.take len).drop (128 * i)).take 128) := by
      funext i
      rfl
    rw [this, flatMap_chunks, List.take_take]
    congr 1
    omega
  · intro hok
    rw [heq, sendAll_all_ok hi2c hok]
  · intro k s hs hprev hfail
    rw [heq]
    exact sendAll_first_failure hi2c _ log k s hs hprev hfail

/-- C39 for a buffer of 300 bytes on a bus where every call succeeds: three transactions,
of 128, 128 and 44 data bytes. -/
theorem C39_WriteData_chunks_witness :
    (1 ≤ 300 ∧ 300 ≤ (List.replicate 300 0xA5).length) ∧
    SH1106_WriteData readyBus Oled.new.device_ (List.replicate 300 0xA5) 300 []
      = (HAL_OK, [] ++ writeDataTransactions Oled.new.device_.address
          (List.replicate 300 0xA5) 300) ∧
    (writeDataTransactions Oled.new.device_.address (List.replicate 300 0xA5) 300).length
      = 3 := by
  have hb : 300 ≤ (List.replicate 300 0xA5).length := by
    rw [List.length_replicate]
  have h := C39_WriteData_chunks readyBus Oled.new.device_ (List.replicate 300 0xA5) 300 []
    (by decide) hb
  exact ⟨⟨by decide, hb⟩, h.2.2.2.2.1 (fun _ _ => rfl), h.2.1⟩
